import Mathlib

/-!
# AILang core pipeline — shallow embedding

This file embeds the AILang language core (the statement/expression parser,
the tree-walking executor, the bytecode compiler and the bytecode VM) as
executable Lean definitions, translated from the TypeScript sources
(`src/compiler.ts`, `src/bytecode.ts`), and proves properties about them.

JavaScript numbers are modelled as exact rationals (`ℚ`) with an explicit
`NaN` constructor; floating-point rounding is not modelled (none of the
verified properties depends on it — all literals appearing in the claims
are small decimal fractions that behave identically).  `±Infinity` is
approximated by `NaN` (division by zero); `ToPrimitive` on arrays/objects
is approximated by their `Array.prototype.toString` / `"[object Object]"`
string forms.
-/

set_option maxHeartbeats 1000000

namespace AILang

/-- JS runtime values flowing through the interpreter: `undefined`, `null`,
booleans, numbers (exact rationals; `vNaN` for NaN), strings, arrays and
plain objects (ordered key/value lists, insertion order preserved as in JS). -/
inductive Value : Type where
  | vUndef : Value
  | vNull : Value
  | vBool : Bool → Value
  | vNum : ℚ → Value
  | vNaN : Value
  | vStr : String → Value
  | vArr : List Value → Value
  | vObj : List (String × Value) → Value
  deriving Repr

mutual
/-- Structural decidable equality on values. -/
def decEqValue : (a b : Value) → Decidable (a = b)
  | .vUndef, .vUndef => isTrue rfl
  | .vNull, .vNull => isTrue rfl
  | .vNaN, .vNaN => isTrue rfl
  | .vBool x, .vBool y =>
      match decEq x y with
      | isTrue h => isTrue (by rw [h])
      | isFalse h => isFalse (by intro hh; exact h (Value.vBool.inj hh))
  | .vNum x, .vNum y =>
      match decEq x y with
      | isTrue h => isTrue (by rw [h])
      | isFalse h => isFalse (by intro hh; exact h (Value.vNum.inj hh))
  | .vStr x, .vStr y =>
      match decEq x y with
      | isTrue h => isTrue (by rw [h])
      | isFalse h => isFalse (by intro hh; exact h (Value.vStr.inj hh))
  | .vArr x, .vArr y =>
      match decEqValueList x y with
      | isTrue h => isTrue (by rw [h])
      | isFalse h => isFalse (by intro hh; exact h (Value.vArr.inj hh))
  | .vObj x, .vObj y =>
      match decEqFieldList x y with
      | isTrue h => isTrue (by rw [h])
      | isFalse h => isFalse (by intro hh; exact h (Value.vObj.inj hh))
  | .vUndef, .vNull | .vUndef, .vNaN | .vUndef, .vBool _ | .vUndef, .vNum _
  | .vUndef, .vStr _ | .vUndef, .vArr _ | .vUndef, .vObj _
  | .vNull, .vUndef | .vNull, .vNaN | .vNull, .vBool _ | .vNull, .vNum _
  | .vNull, .vStr _ | .vNull, .vArr _ | .vNull, .vObj _
  | .vNaN, .vUndef | .vNaN, .vNull | .vNaN, .vBool _ | .vNaN, .vNum _
  | .vNaN, .vStr _ | .vNaN, .vArr _ | .vNaN, .vObj _
  | .vBool _, .vUndef | .vBool _, .vNull | .vBool _, .vNaN | .vBool _, .vNum _
  | .vBool _, .vStr _ | .vBool _, .vArr _ | .vBool _, .vObj _
  | .vNum _, .vUndef | .vNum _, .vNull | .vNum _, .vNaN | .vNum _, .vBool _
  | .vNum _, .vStr _ | .vNum _, .vArr _ | .vNum _, .vObj _
  | .vStr _, .vUndef | .vStr _, .vNull | .vStr _, .vNaN | .vStr _, .vBool _
  | .vStr _, .vNum _ | .vStr _, .vArr _ | .vStr _, .vObj _
  | .vArr _, .vUndef | .vArr _, .vNull | .vArr _, .vNaN | .vArr _, .vBool _
  | .vArr _, .vNum _ | .vArr _, .vStr _ | .vArr _, .vObj _
  | .vObj _, .vUndef | .vObj _, .vNull | .vObj _, .vNaN | .vObj _, .vBool _
  | .vObj _, .vNum _ | .vObj _, .vStr _ | .vObj _, .vArr _ => isFalse nofun

/-- Decidable equality on value lists. -/
def decEqValueList : (a b : List Value) → Decidable (a = b)
  | [], [] => isTrue rfl
  | [], _ :: _ => isFalse nofun
  | _ :: _, [] => isFalse nofun
  | x :: xs, y :: ys =>
      match decEqValue x y, decEqValueList xs ys with
      | isTrue h1, isTrue h2 => isTrue (by rw [h1, h2])
      | isFalse h1, _ => isFalse (by intro hh; exact h1 (List.cons.inj hh).1)
      | _, isFalse h2 => isFalse (by intro hh; exact h2 (List.cons.inj hh).2)

/-- Decidable equality on field lists. -/
def decEqFieldList : (a b : List (String × Value)) → Decidable (a = b)
  | [], [] => isTrue rfl
  | [], _ :: _ => isFalse nofun
  | _ :: _, [] => isFalse nofun
  | (k1, v1) :: xs, (k2, v2) :: ys =>
      match decEq k1 k2, decEqValue v1 v2, decEqFieldList xs ys with
      | isTrue h0, isTrue h1, isTrue h2 => isTrue (by rw [h0, h1, h2])
      | isFalse h0, _, _ =>
          isFalse (by intro hh; injection hh with hp ht; exact h0 (congrArg Prod.fst hp))
      | _, isFalse h1, _ =>
          isFalse (by intro hh; injection hh with hp ht; exact h1 (congrArg Prod.snd hp))
      | _, _, isFalse h2 =>
          isFalse (by intro hh; injection hh with hp ht; exact h2 ht)
end

instance : DecidableEq Value := decEqValue

namespace Value

/-- JS truthiness: `false`, `0`, `""`, `null`, `undefined`, `NaN` are falsy. -/
def truthy : Value → Bool
  | vUndef => false
  | vNull => false
  | vBool b => b
  | vNum q => q ≠ 0
  | vNaN => false
  | vStr s => s ≠ ""
  | vArr _ => true
  | vObj _ => true

/-- Is the value nullish (`null` or `undefined`), i.e. skipped by `??`. -/
def nullish : Value → Bool
  | vUndef => true
  | vNull => true
  | _ => false

/-- JS `a ?? b`. -/
def coalesce (a b : Value) : Value := if a.nullish then b else a

end Value

open Value

/-!
Kernel-reducible arithmetic scaffolding.

`Nat.gcd` — and with it every `Rat` arithmetic operation — as well as
several well-founded recursions do not reduce under the kernel's
definitional unfolding, which the concrete program evaluations in the
theorems below depend on.  The helpers here are fuel-based structural
recursions (the fuel is always sufficient, see `fgcd_eq_gcd`), and the
rational operations build the normalized `Rat` directly; they are proved
equal to the library operations below (`ratAdd_eq` and friends).
-/

/-- Euclid's algorithm on explicit fuel (structural, so it reduces). -/
def gcdF : Nat → Nat → Nat → Nat
  | 0, a, _ => a
  | fuel + 1, a, b => if b = 0 then a else gcdF fuel b (a % b)

/-- `Nat.gcd` via sufficient fuel. -/
def fgcd (a b : Nat) : Nat := gcdF (b + 1) a b

/-- The fuelled gcd is the library gcd (the fuel always suffices). -/
theorem gcdF_eq_gcd : ∀ (b : Nat), ∀ fuel a, b < fuel → gcdF fuel a b = Nat.gcd a b := by
  intro b
  induction b using Nat.strong_induction_on with
  | _ b ih =>
      intro fuel a hfb
      match fuel with
      | 0 => omega
      | fuel + 1 =>
          by_cases hb : b = 0
          · subst hb
            simp [gcdF]
          · rw [show gcdF (fuel + 1) a b = gcdF fuel b (a % b) from by
              simp [gcdF, hb]]
            have hmod : a % b < b := Nat.mod_lt _ (Nat.pos_of_ne_zero hb)
            rw [ih (a % b) hmod fuel b (by omega)]
            rw [Nat.gcd_comm a b, Nat.gcd_rec b a]
            rw [Nat.gcd_comm (a % b) b]

/-- The fuelled gcd is the library gcd. -/
theorem fgcd_eq_gcd (a b : Nat) : fgcd a b = Nat.gcd a b :=
  gcdF_eq_gcd b (b + 1) a (Nat.lt_succ_self b)

/-- Normalized rational `n / d` built with the fuelled gcd (reduces in the
kernel; equal to `mkRat n d`, see `ratNormalize_eq`). -/
def ratNormalize (n : Int) (d : Nat) : ℚ :=
  if hd : d = 0 then 0
  else
    let g := fgcd n.natAbs d
    let n' := n / (g : Int)
    let d' := d / g
    if h : d' ≠ 0 ∧ fgcd n'.natAbs d' = 1 then
      Rat.mk' n' d' h.1 (by
        have h2 := h.2
        rw [fgcd_eq_gcd] at h2
        exact h2)
    else 0

/-- Rational addition (kernel-reducible; equal to `+`). -/
def ratAdd (a b : ℚ) : ℚ :=
  ratNormalize (a.num * b.den + b.num * a.den) (a.den * b.den)

/-- Rational subtraction (kernel-reducible; equal to `-`). -/
def ratSub (a b : ℚ) : ℚ :=
  ratNormalize (a.num * b.den - b.num * a.den) (a.den * b.den)

/-- Rational multiplication (kernel-reducible; equal to `*`). -/
def ratMul (a b : ℚ) : ℚ :=
  ratNormalize (a.num * b.num) (a.den * b.den)

/-- Rational division (kernel-reducible; equal to `/` for a nonzero
divisor, the only way it is called). -/
def ratDiv (a b : ℚ) : ℚ :=
  let n := a.num * (b.den : Int)
  let m := (a.den : Int) * b.num
  ratNormalize (if m < 0 then -n else n) m.natAbs

/-- The character of a digit value `< 10`. -/
def digitChar10 (d : Nat) : Char := Char.ofNat ('0'.toNat + d)

/-- Decimal digit list of a natural number, big-endian, on fuel
(`fuel > n` always reaches the base case since `n / 10 < n`). -/
def natToDigitsF : Nat → Nat → List Char
  | 0, _ => []
  | fuel + 1, n =>
      if n < 10 then [digitChar10 n]
      else natToDigitsF fuel (n / 10) ++ [digitChar10 (n % 10)]

/-- Decimal digit list of a natural number (big-endian). -/
def natToDigits (n : Nat) : List Char := natToDigitsF (n + 1) n

/-- Decimal rendering of a natural number. -/
def natToString (n : Nat) : String := String.mk (natToDigits n)

/-- Decimal rendering of an integer. -/
def intToString (i : Int) : String :=
  if i < 0 then "-" ++ natToString i.natAbs else natToString i.natAbs

/-- Multiplicity of a prime in a natural number, on fuel. -/
def powInF (p : Nat) : Nat → Nat → Nat
  | 0, _ => 0
  | fuel + 1, n => if p ≤ n ∧ n % p = 0 then powInF p fuel (n / p) + 1 else 0

/-- Multiplicity of 2 in a natural number. -/
def pow2In (n : Nat) : Nat := powInF 2 (n + 1) n

/-- Multiplicity of 5 in a natural number. -/
def pow5In (n : Nat) : Nat := powInF 5 (n + 1) n

/-- Left-pad a digit list with zeros to a given width. -/
def padZeros (k : Nat) (ds : List Char) : List Char :=
  List.replicate (k - ds.length) '0' ++ ds

/-- Drop trailing `'0'` characters. -/
def dropTrailingZeros (l : List Char) : List Char :=
  (l.reverse.dropWhile (· = '0')).reverse

/-- Value of a digit string. -/
def digitsToNat (l : List Char) : Nat :=
  l.foldl (fun n c => n * 10 + (c.toNat - '0'.toNat)) 0

/-! Structural character-list counterparts of the `String` library
routines used below (whose byte-position loops do not reduce inside the
kernel, which the concrete evaluations in later theorems require). -/

/-- Whitespace trim (`String.trim` / JS `.trim()`). -/
def strTrim (s : String) : String :=
  String.mk (((s.toList.dropWhile Char.isWhitespace).reverse.dropWhile
    Char.isWhitespace).reverse)

/-- Is the first list a prefix of the second? -/
def listPrefixOf : List Char → List Char → Bool
  | [], _ => true
  | _ :: _, [] => false
  | p :: ps, c :: cs => p = c && listPrefixOf ps cs

/-- `String.startsWith`. -/
def strStartsWith (s p : String) : Bool := listPrefixOf p.toList s.toList

/-- `String.endsWith`. -/
def strEndsWith (s p : String) : Bool :=
  listPrefixOf p.toList.reverse s.toList.reverse

/-- Split on newline characters (`String.splitOn "\n"`). -/
def splitOnNewline (l : List Char) : List String :=
  let rec go : List Char → List Char → List String
    | cur, [] => [String.mk cur.reverse]
    | cur, '\n' :: rest => String.mk cur.reverse :: go [] rest
    | cur, c :: rest => go (c :: cur) rest
  go [] l

/-- Collapse CRLF pairs (`source.replace(/\r\n/g, "\n")`). -/
def normalizeNewlines : List Char → List Char
  | '\x0d' :: '\n' :: rest => '\n' :: normalizeNewlines rest
  | c :: rest => c :: normalizeNewlines rest
  | [] => []

/-- Join with newlines (`[].join("\n")` / `String.intercalate "\n"`). -/
def strIntercalateNL : List String → String
  | [] => ""
  | [s] => s
  | s :: rest => s ++ "\n" ++ strIntercalateNL rest

/-- Drop trailing characters satisfying a predicate. -/
def dropRightWhileChars (p : Char → Bool) (l : List Char) : List Char :=
  (l.reverse.dropWhile p).reverse

/-- Canonical JS array index: digits without leading zeros. -/
def arrayIndex? (s : String) : Option Nat :=
  match s.toList with
  | [] => none
  | ['0'] => some 0
  | '0' :: _ => none
  | l => if l.all Char.isDigit then some (digitsToNat l) else none

/-- JS `ToString` for a number.  Exact for integers and for decimal
fractions — the only numbers the parsers of this language produce (JS
prints the shortest round-tripping decimal of the double, which for such
inputs is this exact decimal); other rationals fall back to a `p/q` form
(such values only arise from arithmetic whose JS float result this
rational model already approximates). -/
def numToString (q : ℚ) : String :=
  if q.den = 1 then intToString q.num
  else
    let a := pow2In q.den
    let b := pow5In q.den
    if q.den = 2 ^ a * 5 ^ b then
      -- decimal fraction: q.den divides 10^k for k = max a b
      let k := max a b
      let m := q.num.natAbs * (10 ^ k / q.den)
      let frac := dropTrailingZeros (padZeros k (natToDigits (m % 10 ^ k)))
      (if q.num < 0 then "-" else "") ++
        String.mk (natToDigits (m / 10 ^ k)) ++ "." ++ String.mk frac
    else intToString q.num ++ "/" ++ natToString q.den

mutual
/-- JS `ToString` of a value (`String(v)`): used for string concatenation,
template literals and property keys. -/
def toDisplayString : Value → String
  | vUndef => "undefined"
  | vNull => "null"
  | vBool b => if b then "true" else "false"
  | vNum q => numToString q
  | vNaN => "NaN"
  | vStr s => s
  | vArr l => joinComma l
  | vObj _ => "[object Object]"

/-- `Array.prototype.toString`: elements joined with `,`
(null/undefined elements render as empty). -/
def joinComma : List Value → String
  | [] => ""
  | [x] => if x.nullish then "" else toDisplayString x
  | x :: xs => (if x.nullish then "" else toDisplayString x) ++ "," ++ joinComma xs
end

/-- JS `Number(string)` (approximation: optional sign, digits, optional
fraction; no exponents/hex; empty/whitespace-only string is `0`;
anything else is NaN, encoded as `none`). -/
def strToNumber (s : String) : Option ℚ :=
  let t := strTrim s
  if t = "" then some 0
  else
    let chars := t.toList
    let (neg, rest) :=
      match chars with
      | '+' :: r => (false, r)
      | '-' :: r => (true, r)
      | r => (false, r)
    let intDigits := rest.takeWhile Char.isDigit
    let rest2 := rest.dropWhile Char.isDigit
    let (fracDigits, rest3) :=
      match rest2 with
      | '.' :: r => (r.takeWhile Char.isDigit, r.dropWhile Char.isDigit)
      | r => (([] : List Char), r)
    if rest3 ≠ [] then none
    else if intDigits = [] ∧ fracDigits = [] then none
    else
      let scaled : Int :=
        (digitsToNat intDigits : Int) * 10 ^ fracDigits.length + digitsToNat fracDigits
      some (ratNormalize (if neg then -scaled else scaled) (10 ^ fracDigits.length))

/-- JS `ToPrimitive` with number hint, as it occurs in arithmetic and
relational operators: arrays/objects become their string form, primitives
pass through. -/
def toPrimitive : Value → Value
  | vArr l => vStr (joinComma l)
  | vObj _ => vStr "[object Object]"
  | v => v

/-- JS `ToNumber` of a primitive-converted value; `none` encodes NaN. -/
def toNumber (v : Value) : Option ℚ :=
  match toPrimitive v with
  | vUndef => none
  | vNull => some 0
  | vBool b => some (if b then 1 else 0)
  | vNum q => some q
  | vNaN => none
  | vStr s => strToNumber s
  | vArr _ => none
  | vObj _ => none

/-- JS `+`: string concatenation if either primitive-converted operand is a
string, numeric addition otherwise (NaN-propagating). -/
def jsAdd (a b : Value) : Value :=
  let pa := toPrimitive a
  let pb := toPrimitive b
  match pa, pb with
  | vStr s, _ => vStr (s ++ toDisplayString pb)
  | _, vStr s => vStr (toDisplayString pa ++ s)
  | _, _ =>
      match toNumber pa, toNumber pb with
      | some x, some y => vNum (ratAdd x y)
      | _, _ => vNaN

/-- JS `-`. -/
def jsSub (a b : Value) : Value :=
  match toNumber a, toNumber b with
  | some x, some y => vNum (ratSub x y)
  | _, _ => vNaN

/-- JS `*`. -/
def jsMul (a b : Value) : Value :=
  match toNumber a, toNumber b with
  | some x, some y => vNum (ratMul x y)
  | _, _ => vNaN

/-- JS `/` (division by zero gives `±Infinity`/`NaN` in JS; both are
approximated by `vNaN` here — no verified property divides by zero). -/
def jsDiv (a b : Value) : Value :=
  match toNumber a, toNumber b with
  | some x, some y => if y = 0 then vNaN else vNum (ratDiv x y)
  | _, _ => vNaN

/-- JS loose equality `==` (approximation: object-vs-object compares by
reference in JS and is `false` for the distinct objects that can meet here;
objects against primitives go through `ToPrimitive`). -/
def jsLooseEq (a b : Value) : Bool :=
  match a, b with
  | vArr _, vArr _ => false
  | vArr _, vObj _ => false
  | vObj _, vArr _ => false
  | vObj _, vObj _ => false
  | _, _ =>
    let pa := toPrimitive a
    let pb := toPrimitive b
    match pa, pb with
    | vUndef, vUndef => true
    | vUndef, vNull => true
    | vNull, vUndef => true
    | vNull, vNull => true
    | vUndef, _ => false
    | _, vUndef => false
    | vNull, _ => false
    | _, vNull => false
    | vStr x, vStr y => x = y
    | vBool x, vBool y => x = y
    | _, _ =>
        match toNumber pa, toNumber pb with
        | some x, some y => x = y
        | _, _ => false

/-- Three-way comparison underlying JS `< > <= >=`: both strings compare
lexicographically, otherwise numerically; `none` when either side converts
to NaN (all four relational operators are then false). -/
def jsCompare (a b : Value) : Option Ordering :=
  match toPrimitive a, toPrimitive b with
  | vStr x, vStr y => some (compare x y)
  | pa, pb =>
      match toNumber pa, toNumber pb with
      | some x, some y => some (compare x y)
      | _, _ => none

def jsLt (a b : Value) : Bool := jsCompare a b = some Ordering.lt
def jsGt (a b : Value) : Bool := jsCompare a b = some Ordering.gt
def jsLe (a b : Value) : Bool :=
  jsCompare a b = some Ordering.lt ∨ jsCompare a b = some Ordering.eq
def jsGe (a b : Value) : Bool :=
  jsCompare a b = some Ordering.gt ∨ jsCompare a b = some Ordering.eq

/-- Property access `base[prop]` on a non-nullish base (JS semantics for
the cases that occur: object field lookup, array index / `length`,
string `length`; anything else is `undefined`). -/
def getProp (v : Value) (prop : String) : Value :=
  match v with
  | vObj fields => (fields.lookup prop).getD vUndef
  | vArr l =>
      if prop = "length" then vNum l.length
      else match arrayIndex? prop with
        | some i => l.getD i vUndef
        | none => vUndef
  | vStr s => if prop = "length" then vNum s.toList.length else vUndef
  | _ => vUndef

/-- Optional-chained access `base?.[prop]` as used by both interpreters:
nullish base yields `undefined`. -/
def optProp (v : Value) (prop : String) : Value :=
  if v.nullish then vUndef else getProp v prop

/-! ## Execution context and outputs

A JS plain object used as a string-keyed store: an ordered association
list.  As in JS, assigning to an existing key updates it in place (keeping
its position) and assigning a fresh key appends it. -/

/-- Mutable string-keyed store (execution context / outputs mapping). -/
abbrev Ctx := List (String × Value)

/-- JS property read `ctx[name]`: `undefined` when the key is absent. -/
def ctxGet (ctx : Ctx) (name : String) : Value :=
  (ctx.lookup name).getD vUndef

/-- JS property write `ctx[name] = v`. -/
def ctxSet (ctx : Ctx) (name : String) (v : Value) : Ctx :=
  match ctx with
  | [] => [(name, v)]
  | (k, w) :: rest => if k = name then (k, v) :: rest else (k, w) :: ctxSet rest name v

/-- `Object.assign(ctx, obj)`: merge the fields of `obj` into `ctx` in order. -/
def ctxAssign (ctx : Ctx) (fields : List (String × Value)) : Ctx :=
  fields.foldl (fun c kv => ctxSet c kv.1 kv.2) ctx

/-- `isObject` from the source: a non-null, non-array object. -/
def isObjectV : Value → Bool
  | vObj _ => true
  | _ => false

mutual
/-- `cloneJSON` from the source: `JSON.parse(JSON.stringify(v))` guarded by
`v === undefined`.  `undefined` array elements become `null` and
`undefined`-valued object fields are dropped, as `JSON.stringify` does;
`NaN` (and the infinities it stands for here) serialize to `null`. -/
def cloneJSON : Value → Value
  | vUndef => vUndef
  | vNull => vNull
  | vBool b => vBool b
  | vNum q => vNum q
  | vNaN => vNull
  | vStr s => vStr s
  | vArr l => vArr (cloneJSONList l)
  | vObj fields => vObj (cloneJSONFields fields)

/-- Clone of array elements (`undefined`/`NaN` elements become `null`). -/
def cloneJSONList : List Value → List Value
  | [] => []
  | x :: xs =>
      (match cloneJSON x with | vUndef => vNull | w => w) :: cloneJSONList xs

/-- Clone of object fields (`undefined`-valued fields are dropped). -/
def cloneJSONFields : List (String × Value) → List (String × Value)
  | [] => []
  | (k, v) :: rest =>
      match cloneJSON v with
      | vUndef => cloneJSONFields rest
      | w => (k, w) :: cloneJSONFields rest
end

/-! ## AST (mirrors the TypeScript interfaces in `compiler.ts`) -/

/-- Comparison operators of conditions. -/
inductive CmpOp : Type where
  | opEqEq   -- `==`
  | opEq     -- `=`
  | opGe | opLe | opGt | opLt
  deriving DecidableEq, Repr

/-- `ModelSpec`: model type name plus scalar arguments.  (The parser only
ever stores scalar values — numbers, strings, booleans, null — in `args`.) -/
structure ModelSpec where
  type : String
  args : List (String × Value)
  deriving DecidableEq, Repr

/-- `NodeDecl`. -/
structure NodeDecl where
  name : String
  type : String
  range : Option String
  deriving DecidableEq, Repr

/-- `EdgeDecl`. -/
structure EdgeDecl where
  from_ : String
  to_ : String
  deriving DecidableEq, Repr

/-- `Condition`: left identifier, optional comparison operator, optional
scalar right-hand side (`right` is `none` exactly when the matched text
after the operator was empty). -/
structure Condition where
  left : String
  op : Option CmpOp
  right : Option Value
  deriving DecidableEq, Repr

/-- `Action`. -/
inductive Action : Type where
  | emit (name : String)
  | log (message : String)
  | set (name : String) (value : Value)
  deriving DecidableEq, Repr

/-- `ActionStmt`. -/
structure ActionStmt where
  condition : Condition
  action : Action
  deriving DecidableEq, Repr

/-- Expressions of let-bindings.  A numeric literal carries `none` for the
`NaN` corner (`Number("+.")` and friends). -/
inductive Expr : Type where
  | num (value : Option ℚ)
  | str (value : String)
  | bool (value : Bool)
  | null
  | ident (name : String)
  | member (object : Expr) (property : String)
  | binAdd (left right : Expr)
  | binSub (left right : Expr)
  | binMul (left right : Expr)
  | binDiv (left right : Expr)
  deriving DecidableEq, Repr

/-- `LetStmt`. -/
structure LetStmt where
  name : String
  expr : Expr
  deriving DecidableEq, Repr

/-- `ParsedItem`: one statement, tagged by kind, in source order. -/
inductive Item : Type where
  | input (value : Value)
  | model (value : ModelSpec)
  | out (value : String)
  | node (value : NodeDecl)
  | edge (value : EdgeDecl)
  | cond (value : Condition)
  | action (value : ActionStmt)
  | letS (value : LetStmt)
  deriving DecidableEq, Repr

/-- `TaskAST`. -/
structure TaskAST where
  taskId : String
  input : Option Value := none
  model : Option ModelSpec := none
  out : Option String := none
  nodes : List NodeDecl := []
  edges : List EdgeDecl := []
  conditions : List Condition := []
  actions : List ActionStmt := []
  sourceOrder : List Item := []
  deriving DecidableEq, Repr

/-- `ExecutionResult`. -/
structure ExecutionResult where
  outputs : Ctx
  context : Ctx
  deriving DecidableEq, Repr

/-! ## Scalar and statement-level parsing helpers -/

/-- First char class of identifiers: `[A-Za-z_]`. -/
def isIdentStart (c : Char) : Bool :=
  ('A' ≤ c ∧ c ≤ 'Z') ∨ ('a' ≤ c ∧ c ≤ 'z') ∨ c = '_'

/-- Continuation char class of identifiers: `[\w-]` = `[A-Za-z0-9_-]`. -/
def isIdentCont (c : Char) : Bool :=
  isIdentStart c ∨ c.isDigit ∨ c = '-'

/-- Greedy match of `[A-Za-z_][\w-]*` at the front of a char list;
returns the identifier and the rest. -/
def takeIdent : List Char → Option (String × List Char)
  | [] => none
  | c :: rest =>
      if isIdentStart c then
        some (String.mk (c :: rest.takeWhile isIdentCont), rest.dropWhile isIdentCont)
      else none

/-- Does the whole string match `[A-Za-z_][\w-]*`? -/
def isIdent (s : String) : Bool :=
  match takeIdent s.toList with
  | some (_, []) => s ≠ ""
  | _ => false

/-- `stripQuotes`: drop one leading and then one trailing quote character
(single or double), when present. -/
def stripQuotes (s : String) : String :=
  let l := s.toList
  let l := match l with
    | c :: r => if c = '"' ∨ c = '\'' then r else c :: r
    | [] => []
  let r := l.reverse
  let r := match r with
    | c :: t => if c = '"' ∨ c = '\'' then t else c :: t
    | [] => []
  String.mk r.reverse

/-- Does the string match `^[+-]?\d+(\.\d+)?$`? -/
def isNumericLit (s : String) : Bool :=
  let l := s.toList
  let l := match l with
    | c :: r => if c = '+' ∨ c = '-' then r else c :: r
    | [] => []
  let ds := l.takeWhile Char.isDigit
  let rest := l.dropWhile Char.isDigit
  decide (ds ≠ []) &&
    (decide (rest = []) ||
      (match rest with
        | '.' :: fr => decide (fr ≠ []) && fr.all Char.isDigit
        | _ => false))

/-- Value of a decimal literal `sign intDigits [. fracDigits]` as a rational. -/
def decimalValue (neg : Bool) (intDigits fracDigits : List Char) : ℚ :=
  let scaled : Int :=
    (digitsToNat intDigits : Int) * 10 ^ fracDigits.length + digitsToNat fracDigits
  ratNormalize (if neg then -scaled else scaled) (10 ^ fracDigits.length)

/-- `Number(t)` for a string already known to match the numeric-literal
regex of `parseScalar`. -/
def numericLitValue (s : String) : ℚ :=
  let l := s.toList
  let (neg, l) := match l with
    | '+' :: r => (false, r)
    | '-' :: r => (true, r)
    | r => (false, r)
  let ds := l.takeWhile Char.isDigit
  let rest := l.dropWhile Char.isDigit
  let fr := match rest with
    | '.' :: fr => fr
    | _ => []
  decimalValue neg ds fr

/-- `parseScalar` from the source: keyword literals, quoted strings,
numeric literals, and bare symbols (kept as strings). -/
def parseScalar (txt : String) : Value :=
  let t := strTrim txt
  if t = "true" then vBool true
  else if t = "false" then vBool false
  else if t = "null" then vNull
  else if (strStartsWith t "\"" ∧ strEndsWith t "\"") ∨
          (strStartsWith t "'" ∧ strEndsWith t "'") then
    vStr (stripQuotes t)
  else if isNumericLit t then vNum (numericLitValue t)
  else vStr t

/-- `splitTopLevel`: split on a delimiter at brace/bracket/paren nesting
depth zero, trimming pieces and dropping a trailing empty piece. -/
def splitTopLevel (s : String) (delim : Char) : List String :=
  let rec go : List Char → Int → List Char → List String → List String
    | [], _, cur, out =>
        let curS := strTrim (String.mk cur.reverse)
        (if curS ≠ "" then out ++ [curS] else out)
    | ch :: rest, depth, cur, out =>
        let depth := if ch = '{' ∨ ch = '[' ∨ ch = '(' then depth + 1 else depth
        let depth := if ch = '}' ∨ ch = ']' ∨ ch = ')' then depth - 1 else depth
        if ch = delim ∧ depth = 0 then
          go rest depth [] (out ++ [strTrim (String.mk cur.reverse)])
        else go rest depth (ch :: cur) out
  go s.toList 0 [] []

/-- `splitOnce`: split at the first occurrence of the delimiter. -/
def splitOnce (s : String) (delim : Char) : String × Option String :=
  let l := s.toList
  match l.findIdx? (· = delim) with
  | none => (s, none)
  | some i => (String.mk (l.take i), some (String.mk (l.drop (i + 1))))

/-- The comparison-operator alternation `==|=|>=|<=|>|<` tried in regex
alternation order against the front of the char list. -/
def takeCmpOp : List Char → Option (CmpOp × List Char)
  | '=' :: '=' :: rest => some (CmpOp.opEqEq, rest)
  | '=' :: rest => some (CmpOp.opEq, rest)
  | '>' :: '=' :: rest => some (CmpOp.opGe, rest)
  | '<' :: '=' :: rest => some (CmpOp.opLe, rest)
  | '>' :: rest => some (CmpOp.opGt, rest)
  | '<' :: rest => some (CmpOp.opLt, rest)
  | _ => none

/-- `parseCondition`: the regex
`^([A-Za-z_][\w-]*)\s*(==|=|>=|<=|>|<)?\s*(.+)?$` — identifier, optional
operator, optional trailing text scalar-parsed after trimming. -/
def parseCondition (text : String) : Except String Condition :=
  match takeIdent text.toList with
  | none => Except.error ("Invalid condition: " ++ text)
  | some (left, rest) =>
      let rest := rest.dropWhile Char.isWhitespace
      let (op, rest) :=
        match takeCmpOp rest with
        | some (o, r) => (some o, r)
        | none => (none, rest)
      let rest := rest.dropWhile Char.isWhitespace
      let right :=
        if rest = [] then none
        else some (parseScalar (strTrim (String.mk rest)))
      Except.ok { left := left, op := op, right := right }

/-- Match `^log\s+("[^"]*"|'[^']*')\s*$` after the keyword: a quoted chunk
with no embedded quote of the same kind. -/
def takeQuoted : List Char → Option (String × List Char)
  | '"' :: rest =>
      let body := rest.takeWhile (· ≠ '"')
      (match rest.dropWhile (· ≠ '"') with
        | '"' :: r => some ("\"" ++ String.mk body ++ "\"", r)
        | _ => none)
  | '\'' :: rest =>
      let body := rest.takeWhile (· ≠ '\'')
      (match rest.dropWhile (· ≠ '\'') with
        | '\'' :: r => some ("'" ++ String.mk body ++ "'", r)
        | _ => none)
  | _ => none

/-- `parseAction`: `emit NAME | log "msg" | set VAR=VALUE`. -/
def parseAction (text : String) : Except String Action :=
  let chars := text.toList
  -- emit\s+([A-Za-z_][\w-]*)\s*$
  let tryEmit : Option Action :=
    match chars with
    | 'e' :: 'm' :: 'i' :: 't' :: rest =>
        if rest.takeWhile Char.isWhitespace = [] then none
        else
          match takeIdent (rest.dropWhile Char.isWhitespace) with
          | some (name, tail) =>
              if tail.dropWhile Char.isWhitespace = [] then some (Action.emit name)
              else none
          | none => none
    | _ => none
  match tryEmit with
  | some a => Except.ok a
  | none =>
    let tryLog : Option Action :=
      match chars with
      | 'l' :: 'o' :: 'g' :: rest =>
          if rest.takeWhile Char.isWhitespace = [] then none
          else
            match takeQuoted (rest.dropWhile Char.isWhitespace) with
            | some (q, tail) =>
                if tail.dropWhile Char.isWhitespace = [] then
                  some (Action.log (stripQuotes q))
                else none
            | none => none
      | _ => none
    match tryLog with
    | some a => Except.ok a
    | none =>
      -- set\s+([A-Za-z_][\w-]*)\s*=\s*(.+)\s*$
      let trySet : Option Action :=
        match chars with
        | 's' :: 'e' :: 't' :: rest =>
            if rest.takeWhile Char.isWhitespace = [] then none
            else
              match takeIdent (rest.dropWhile Char.isWhitespace) with
              | some (name, tail) =>
                  (match tail.dropWhile Char.isWhitespace with
                    | '=' :: tail2 =>
                        let valTxt := tail2.dropWhile Char.isWhitespace
                        if valTxt = [] then none
                        else some (Action.set name (parseScalar (String.mk valTxt)))
                    | _ => none)
              | none => none
        | _ => none
      match trySet with
      | some a => Except.ok a
      | none => Except.error ("Unknown action: " ++ text)

/-! ## Expression sub-parser (`parseExpression` from the source)

The source walks an index over the string; here that state is the list of
remaining characters.  The `while`-style loops (`member`, `mul/div`,
`add/sub`) take a fuel argument; `parseExpression` supplies one more unit
of fuel than there are characters, which a loop that consumes at least one
character per iteration can never exhaust. -/

/-- `skipWs` of the expression parser (`/\s/`). -/
def skipWs (l : List Char) : List Char := l.dropWhile Char.isWhitespace

/-- `parseString` of the expression parser: quote, raw body (no escapes),
matching quote. -/
def exprString (quote : Char) (l : List Char) : Except String (String × List Char) :=
  let body := l.takeWhile (· ≠ quote)
  match l.dropWhile (· ≠ quote) with
  | _ :: rest => Except.ok (String.mk body, rest)
  | [] => Except.error "Unterminated string"

/-- `parseNumber` of the expression parser: optional sign, digits, optional
`.digits`; an empty or sign-only buffer is an error; a buffer like `"+."`
is `Number("+.") = NaN`, i.e. `none`. -/
def exprNumber (l : List Char) : Except String (Option ℚ × List Char) :=
  let (sign, l1) :=
    match l with
    | '+' :: r => (some false, r)
    | '-' :: r => (some true, r)
    | r => (none, r)
  let ds := l1.takeWhile Char.isDigit
  let l2 := l1.dropWhile Char.isDigit
  let (dot, fr, l3) :=
    match l2 with
    | '.' :: r => (true, r.takeWhile Char.isDigit, r.dropWhile Char.isDigit)
    | r => (false, ([] : List Char), r)
  if ds = [] ∧ ¬ dot then Except.error "Invalid number in expression"
  else if ds = [] ∧ fr = [] then Except.ok (none, l3) -- "+." / "-." / "." → NaN
  else Except.ok (some (decimalValue (sign = some true) ds fr), l3)

/-- `parseIdentifier` of the expression parser. -/
def exprIdent (l : List Char) : Except String (String × List Char) :=
  match takeIdent (skipWs l) with
  | some (id, rest) => Except.ok (id, rest)
  | none => Except.error "Expected identifier in expression"

/-- The member-access loop of `parsePrimary`: `.prop .prop ...`.  Note the
source's `skipWs` advances the index permanently even when the loop then
stops, so the returned rest has leading whitespace removed. -/
def memberLoop : Nat → Expr → List Char → Except String (Expr × List Char)
  | 0, _, _ => Except.error "out of fuel"
  | fuel + 1, e, l =>
      match skipWs l with
      | '.' :: rest =>
          match exprIdent rest with
          | Except.ok (prop, rest2) => memberLoop fuel (Expr.member e prop) rest2
          | Except.error msg => Except.error msg
      | rest => Except.ok (e, rest)

/-- `parsePrimary`. -/
def parsePrimary (fuel : Nat) (l : List Char) : Except String (Expr × List Char) :=
  match skipWs l with
  | '"' :: rest =>
      (match exprString '"' rest with
        | Except.ok (s, rest2) => Except.ok (Expr.str s, rest2)
        | Except.error msg => Except.error msg)
  | '\'' :: rest =>
      (match exprString '\'' rest with
        | Except.ok (s, rest2) => Except.ok (Expr.str s, rest2)
        | Except.error msg => Except.error msg)
  | c :: rest =>
      if c.isDigit ∨ c = '+' ∨ c = '-' then
        match exprNumber (c :: rest) with
        | Except.ok (q, rest2) => Except.ok (Expr.num q, rest2)
        | Except.error msg => Except.error msg
      else
        match exprIdent (c :: rest) with
        | Except.ok (id, rest2) =>
            if id = "true" then Except.ok (Expr.bool true, rest2)
            else if id = "false" then Except.ok (Expr.bool false, rest2)
            else if id = "null" then Except.ok (Expr.null, rest2)
            else memberLoop fuel (Expr.ident id) rest2
        | Except.error msg => Except.error msg
  | [] => Except.error "Expected identifier in expression"

/-- The `* /` loop of `parseMulDiv`. -/
def mulDivLoop : Nat → Expr → List Char → Except String (Expr × List Char)
  | 0, _, _ => Except.error "out of fuel"
  | fuel + 1, e, l =>
      match skipWs l with
      | '*' :: rest =>
          (match parsePrimary fuel rest with
            | Except.ok (r, rest2) => mulDivLoop fuel (Expr.binMul e r) rest2
            | Except.error msg => Except.error msg)
      | '/' :: rest =>
          (match parsePrimary fuel rest with
            | Except.ok (r, rest2) => mulDivLoop fuel (Expr.binDiv e r) rest2
            | Except.error msg => Except.error msg)
      | rest => Except.ok (e, rest)

/-- `parseMulDiv`. -/
def parseMulDiv (fuel : Nat) (l : List Char) : Except String (Expr × List Char) :=
  match parsePrimary fuel l with
  | Except.ok (e, rest) => mulDivLoop fuel e rest
  | Except.error msg => Except.error msg

/-- The `+ -` loop of `parseAddSub`. -/
def addSubLoop : Nat → Expr → List Char → Except String (Expr × List Char)
  | 0, _, _ => Except.error "out of fuel"
  | fuel + 1, e, l =>
      match skipWs l with
      | '+' :: rest =>
          (match parseMulDiv fuel rest with
            | Except.ok (r, rest2) => addSubLoop fuel (Expr.binAdd e r) rest2
            | Except.error msg => Except.error msg)
      | '-' :: rest =>
          (match parseMulDiv fuel rest with
            | Except.ok (r, rest2) => addSubLoop fuel (Expr.binSub e r) rest2
            | Except.error msg => Except.error msg)
      | rest => Except.ok (e, rest)

/-- `parseAddSub`. -/
def parseAddSub (fuel : Nat) (l : List Char) : Except String (Expr × List Char) :=
  match parseMulDiv fuel l with
  | Except.ok (e, rest) => addSubLoop fuel e rest
  | Except.error msg => Except.error msg

/-- `parseExpression`: trim, parse an additive expression, and reject
trailing characters. -/
def parseExpression (text : String) : Except String Expr :=
  let s := strTrim text
  match parseAddSub (s.toList.length + 1) s.toList with
  | Except.ok (e, rest) =>
      if skipWs rest = [] then Except.ok e
      else Except.error "Unexpected tokens at end of expression"
  | Except.error msg => Except.error msg

/-! ## JSON parsing (`JSON.parse`, used for the `%in` payload) -/

/-- JSON whitespace. -/
def jsonSkipWs (l : List Char) : List Char :=
  l.dropWhile fun c => c = ' ' ∨ c = '\t' ∨ c = '\n' ∨ c = '\r'

/-- Hex digit value. -/
def hexVal (c : Char) : Option Nat :=
  if '0' ≤ c ∧ c ≤ '9' then some (c.toNat - '0'.toNat)
  else if 'a' ≤ c ∧ c ≤ 'f' then some (c.toNat - 'a'.toNat + 10)
  else if 'A' ≤ c ∧ c ≤ 'F' then some (c.toNat - 'A'.toNat + 10)
  else none

/-- JSON string body after the opening quote. -/
def jsonStringBody : Nat → List Char → Option (String × List Char)
  | 0, _ => none
  | _ + 1, [] => none
  | fuel + 1, c :: rest =>
      if c = '"' then some ("", rest)
      else if c = '\\' then
        match rest with
        | '"' :: r => (jsonStringBody fuel r).map fun (s, t) => ("\"" ++ s, t)
        | '\\' :: r => (jsonStringBody fuel r).map fun (s, t) => ("\\" ++ s, t)
        | '/' :: r => (jsonStringBody fuel r).map fun (s, t) => ("/" ++ s, t)
        | 'b' :: r => (jsonStringBody fuel r).map fun (s, t) => (String.mk [Char.ofNat 8] ++ s, t)
        | 'f' :: r => (jsonStringBody fuel r).map fun (s, t) => (String.mk [Char.ofNat 12] ++ s, t)
        | 'n' :: r => (jsonStringBody fuel r).map fun (s, t) => ("\n" ++ s, t)
        | 'r' :: r => (jsonStringBody fuel r).map fun (s, t) => (String.mk [Char.ofNat 13] ++ s, t)
        | 't' :: r => (jsonStringBody fuel r).map fun (s, t) => ("\t" ++ s, t)
        | 'u' :: h1 :: h2 :: h3 :: h4 :: r =>
            (match hexVal h1, hexVal h2, hexVal h3, hexVal h4 with
              | some a, some b, some c, some d =>
                  (jsonStringBody fuel r).map fun (s, t) =>
                    (String.mk [Char.ofNat (a * 4096 + b * 256 + c * 16 + d)] ++ s, t)
              | _, _, _, _ => none)
        | _ => none
      else if c.toNat < 32 then none
      else (jsonStringBody fuel rest).map fun (s, t) => (String.mk [c] ++ s, t)

/-- Optional exponent part of a JSON number applied to a parsed mantissa. -/
def jsonNumberExp (mant : ℚ) (l : List Char) : Option (ℚ × List Char) :=
  match l with
  | 'e' :: r | 'E' :: r =>
      let (en, r1) := match r with
        | '+' :: r2 => (false, r2)
        | '-' :: r2 => (true, r2)
        | r2 => (false, r2)
      let es := r1.takeWhile Char.isDigit
      if es = [] then none
      else
        let k := digitsToNat es
        let v := if en then ratNormalize mant.num (mant.den * 10 ^ k)
          else ratNormalize (mant.num * 10 ^ k) mant.den
        some (v, r1.dropWhile Char.isDigit)
  | r => some (mant, r)

/-- JSON number: `-?(0|[1-9]\d*)(\.\d+)?([eE][+-]?\d+)?`. -/
def jsonNumber (l : List Char) : Option (ℚ × List Char) :=
  let (neg, l1) := match l with
    | '-' :: r => (true, r)
    | r => (false, r)
  let ds := l1.takeWhile Char.isDigit
  let l2 := l1.dropWhile Char.isDigit
  if ds = [] then none
  else if ds.length > 1 ∧ ds.headD '0' = '0' then none -- no leading zeros
  else
    match l2 with
    | '.' :: r =>
        let fr := r.takeWhile Char.isDigit
        if fr = [] then none
        else jsonNumberExp (decimalValue neg ds fr) (r.dropWhile Char.isDigit)
    | r => jsonNumberExp (decimalValue neg ds []) r

mutual
/-- One JSON value. -/
def jsonValue : Nat → List Char → Option (Value × List Char)
  | 0, _ => none
  | fuel + 1, l =>
      match jsonSkipWs l with
      | 't' :: 'r' :: 'u' :: 'e' :: rest => some (vBool true, rest)
      | 'f' :: 'a' :: 'l' :: 's' :: 'e' :: rest => some (vBool false, rest)
      | 'n' :: 'u' :: 'l' :: 'l' :: rest => some (vNull, rest)
      | '"' :: rest => (jsonStringBody (rest.length + 1) rest).map fun (s, t) => (vStr s, t)
      | '[' :: rest =>
          (match jsonSkipWs rest with
            | ']' :: r => some (vArr [], r)
            | r => (jsonElems fuel r).map fun (es, t) => (vArr es, t))
      | '{' :: rest =>
          (match jsonSkipWs rest with
            | '}' :: r => some (vObj [], r)
            | r => (jsonMembers fuel r []).map fun (fs, t) => (vObj fs, t))
      | c :: rest =>
          if c = '-' ∨ c.isDigit then
            (jsonNumber (c :: rest)).map fun (q, t) => (vNum q, t)
          else none
      | [] => none

/-- Array elements after the first non-`]` character. -/
def jsonElems : Nat → List Char → Option (List Value × List Char)
  | 0, _ => none
  | fuel + 1, l =>
      match jsonValue fuel l with
      | some (v, rest) =>
          (match jsonSkipWs rest with
            | ',' :: r => (jsonElems fuel r).map fun (es, t) => (v :: es, t)
            | ']' :: r => some ([v], r)
            | _ => none)
      | none => none

/-- Object members; duplicate keys overwrite as `JSON.parse` does. -/
def jsonMembers : Nat → List Char → Ctx → Option (Ctx × List Char)
  | 0, _, _ => none
  | fuel + 1, l, acc =>
      match jsonSkipWs l with
      | '"' :: rest =>
          (match jsonStringBody (rest.length + 1) rest with
            | some (key, rest2) =>
                (match jsonSkipWs rest2 with
                  | ':' :: rest3 =>
                      (match jsonValue fuel rest3 with
                        | some (v, rest4) =>
                            let acc := ctxSet acc key v
                            (match jsonSkipWs rest4 with
                              | ',' :: r => jsonMembers fuel r acc
                              | '}' :: r => some (acc, r)
                              | _ => none)
                        | none => none)
                  | _ => none)
            | none => none)
      | _ => none
end

/-- `JSON.parse`: a single JSON value with only whitespace around it. -/
def jsonParse (s : String) : Option Value :=
  match jsonValue (s.toList.length + 1) s.toList with
  | some (v, rest) => if jsonSkipWs rest = [] then some v else none
  | none => none

/-! ## `parseSource`: the line-oriented statement parser -/

/-- A blank or comment-only line: `/^\s*(#.*)?$/`. -/
def isBlankOrComment (l : String) : Bool :=
  strTrim l = "" ∨ strStartsWith (strTrim l) "#"

/-- A `\w` word character (`[A-Za-z0-9_]`). -/
def isWordChar (c : Char) : Bool :=
  ('A' ≤ c ∧ c ≤ 'Z') ∨ ('a' ≤ c ∧ c ≤ 'z') ∨ c.isDigit ∨ c = '_'

/-- The directive test ending an `%in` payload:
`/^\s*(%model:|%out:|@|\+|->|\?|!|let\b)/` applied to the trimmed line.
Note that a following `%in:` line is *not* in the alternation. -/
def isPayloadStop (line : String) : Bool :=
  let t := strTrim line
  strStartsWith t "%model:" || strStartsWith t "%out:" || strStartsWith t "@" ||
  strStartsWith t "+" || strStartsWith t "->" || strStartsWith t "?" || strStartsWith t "!" ||
  (strStartsWith t "let" &&
    (match t.toList.drop 3 with
      | [] => true
      | c :: _ => ¬ isWordChar c))

/-- `readBlockPayload`, line-consumption part: the raw lines taken into the
payload and the remaining lines. -/
def readPayloadLines (lines : List String) : List String × List String :=
  (lines.takeWhile (fun p => ¬ isPayloadStop p),
   lines.dropWhile (fun p => ¬ isPayloadStop p))

/-- `readBlockPayload`: join the consumed lines, trim, reject an empty
payload, and `JSON.parse` the text. -/
def readBlockPayload (lines : List String) :
    Except String (Value × List String) :=
  let (buf, rest) := readPayloadLines lines
  let raw := strTrim (strIntercalateNL buf)
  if raw = "" then Except.error "Empty %in block"
  else
    match jsonParse raw with
    | some v => Except.ok (v, rest)
    | none => Except.error "Invalid %in JSON payload"

/-- Parse of a `%model:` line after the prefix check
(`^%model:([A-Za-z_][\w-]*)\s*(\{.*\})?\s*$`). -/
def parseModelLine (t : String) : Except String ModelSpec :=
  match t.toList with
  | '%' :: 'm' :: 'o' :: 'd' :: 'e' :: 'l' :: ':' :: rest =>
      (match takeIdent rest with
        | none => Except.error "Invalid model block"
        | some (mtype, rest2) =>
            let remT := strTrim (String.mk rest2)
            if remT = "" then Except.ok { type := mtype, args := [] }
            else if strStartsWith remT "\x7b" ∧ strEndsWith remT "\x7d" ∧ remT.toList.length ≥ 2 then
              let raw := remT
              let inner := strTrim (String.mk (raw.toList.drop 1 |>.dropLast))
              if inner = "" then Except.ok { type := mtype, args := [] }
              else
                let step := fun (acc : Except String Ctx) (kv : String) =>
                  match acc with
                  | Except.error e => Except.error e
                  | Except.ok args =>
                      match splitOnce kv '=' with
                      | (_, none) => Except.error ("Invalid model arg: " ++ kv)
                      | (k, some v) =>
                          if k = "" then Except.error ("Invalid model arg: " ++ kv)
                          else Except.ok (ctxSet args (strTrim k) (parseScalar (strTrim v)))
                (splitTopLevel inner ',').foldl step (Except.ok []) |>.map
                  fun args => { type := mtype, args := args }
            else Except.error "Invalid model block")
  | _ => Except.error "Invalid model block"

/-- Parse of an `%out:` line (`^%out:\s*([A-Za-z_][\w-]*)\s*$`). -/
def parseOutLine (t : String) : Except String String :=
  match t.toList with
  | '%' :: 'o' :: 'u' :: 't' :: ':' :: rest =>
      (match takeIdent (rest.dropWhile Char.isWhitespace) with
        | some (name, tail) =>
            if tail.dropWhile Char.isWhitespace = [] then Except.ok name
            else Except.error "Invalid out block"
        | none => Except.error "Invalid out block")
  | _ => Except.error "Invalid out block"

/-- Parse of a node line (`^\+([A-Za-z_][\w-]*):([A-Za-z_][\w-]*)(\[(.+?)\])?\s*$`). -/
def parseNodeLine (t : String) : Except String NodeDecl :=
  match t.toList with
  | '+' :: rest =>
      (match takeIdent rest with
        | some (name, ':' :: rest2) =>
            (match takeIdent rest2 with
              | some (ty, rest3) =>
                  if rest3.dropWhile Char.isWhitespace = [] then
                    Except.ok { name := name, type := ty, range := none }
                  else
                    (match rest3 with
                      | '[' :: body =>
                          let bodyT := String.mk (dropRightWhileChars Char.isWhitespace body)
                          let rng := String.mk bodyT.toList.dropLast
                          if strEndsWith bodyT "]" ∧ bodyT.toList.length ≥ 2 then
                            Except.ok { name := name, type := ty, range := some rng }
                          else Except.error ("Invalid node declaration: " ++ t)
                      | _ => Except.error ("Invalid node declaration: " ++ t))
              | none => Except.error ("Invalid node declaration: " ++ t))
        | _ => Except.error ("Invalid node declaration: " ++ t))
  | _ => Except.error ("Invalid node declaration: " ++ t)

/-- Parse of an edge line (`^->\s*([A-Za-z_][\w-]*)\s*=>\s*([A-Za-z_][\w-]*)\s*$`). -/
def parseEdgeLine (t : String) : Except String EdgeDecl :=
  match t.toList with
  | '-' :: '>' :: rest =>
      (match takeIdent (rest.dropWhile Char.isWhitespace) with
        | some (src, rest2) =>
            (match rest2.dropWhile Char.isWhitespace with
              | '=' :: '>' :: rest3 =>
                  (match takeIdent (rest3.dropWhile Char.isWhitespace) with
                    | some (dst, rest4) =>
                        if rest4.dropWhile Char.isWhitespace = [] then
                          Except.ok { from_ := src, to_ := dst }
                        else Except.error ("Invalid edge declaration: " ++ t)
                    | none => Except.error ("Invalid edge declaration: " ++ t))
              | _ => Except.error ("Invalid edge declaration: " ++ t))
        | none => Except.error ("Invalid edge declaration: " ++ t))
  | _ => Except.error ("Invalid edge declaration: " ++ t)

/-- Split of the body of an action statement (after `!\s*if\s+`) at the
first `\s+then\s+` with a nonempty tail, mirroring the lazy `(.+?)` of
`^!\s*if\s+(.+?)\s+then\s+(.+)\s*$` (both pieces are trimmed by the
caller, so where exactly surrounding whitespace lands is immaterial). -/
def splitAtThen : List Char → List Char → Option (String × String)
  | acc, c :: rest =>
      (if acc ≠ [] ∧ c.isWhitespace then
        -- candidate split: ws+ then `then` then ws+ then nonempty rest
        let afterWs := (c :: rest).dropWhile Char.isWhitespace
        match afterWs with
        | 't' :: 'h' :: 'e' :: 'n' :: tail =>
            (match tail with
              | d :: _ =>
                  if d.isWhitespace ∧ tail.dropWhile Char.isWhitespace ≠ [] then
                    some (String.mk acc.reverse,
                          String.mk (tail.dropWhile Char.isWhitespace))
                  else splitAtThen (c :: acc) rest
              | [] => splitAtThen (c :: acc) rest)
        | _ => splitAtThen (c :: acc) rest
      else splitAtThen (c :: acc) rest)
  | _, [] => none

/-- Parse of an action line (`^!\s*if\s+(.+?)\s+then\s+(.+)\s*$`),
yielding the condition and the action. -/
def parseActionLine (t : String) : Except String ActionStmt :=
  match t.toList with
  | '!' :: rest =>
      (match rest.dropWhile Char.isWhitespace with
        | 'i' :: 'f' :: rest2 =>
            (match rest2 with
              | c :: _ =>
                  if ¬ c.isWhitespace then Except.error ("Invalid action statement: " ++ t)
                  else
                    let body := rest2.dropWhile Char.isWhitespace
                    (match splitAtThen [] body with
                      | some (condTxt, actTxt) =>
                          (match parseCondition (strTrim condTxt) with
                            | Except.ok cond =>
                                (match parseAction (strTrim actTxt) with
                                  | Except.ok act =>
                                      Except.ok { condition := cond, action := act }
                                  | Except.error e => Except.error e)
                            | Except.error e => Except.error e)
                      | none => Except.error ("Invalid action statement: " ++ t))
              | [] => Except.error ("Invalid action statement: " ++ t))
        | _ => Except.error ("Invalid action statement: " ++ t))
  | _ => Except.error ("Invalid action statement: " ++ t)

/-- Parse of a let line (`^let\s+([A-Za-z_][\w-]*)\s*=\s*(.+)\s*$`),
reached only when the line starts with `"let "`. -/
def parseLetLine (t : String) : Except String LetStmt :=
  match t.toList with
  | 'l' :: 'e' :: 't' :: rest =>
      if rest.takeWhile Char.isWhitespace = [] then
        Except.error ("Invalid let statement: " ++ t)
      else
        match takeIdent (rest.dropWhile Char.isWhitespace) with
        | some (name, rest2) =>
            (match rest2.dropWhile Char.isWhitespace with
              | '=' :: rest3 =>
                  let exprTxt := rest3.dropWhile Char.isWhitespace
                  if exprTxt = [] then Except.error ("Invalid let statement: " ++ t)
                  else
                    (match parseExpression (String.mk exprTxt) with
                      | Except.ok e => Except.ok { name := name, expr := e }
                      | Except.error msg => Except.error msg)
              | _ => Except.error ("Invalid let statement: " ++ t))
        | none => Except.error ("Invalid let statement: " ++ t)
  | _ => Except.error ("Invalid let statement: " ++ t)

/-- The statement loop of `parseSource`: skip blank/comment lines, classify
the next line by prefix, parse it (consuming payload lines for `%in`),
and accumulate items in source order.  Fuel decreases once per statement;
each statement consumes at least one line, so `lines.length + 1` never
runs out. -/
def parseItems : Nat → List String → Except String (List Item)
  | 0, _ => Except.error "out of fuel"
  | fuel + 1, lines =>
      match lines.dropWhile isBlankOrComment with
      | [] => Except.ok []
      | line :: rest =>
          let t := strTrim line
          if strStartsWith t "%in:" then
            match readBlockPayload rest with
            | Except.ok (payload, rest2) =>
                (parseItems fuel rest2).map fun items => Item.input payload :: items
            | Except.error e => Except.error e
          else if strStartsWith t "%model:" then
            match parseModelLine t with
            | Except.ok m => (parseItems fuel rest).map fun items => Item.model m :: items
            | Except.error e => Except.error e
          else if strStartsWith t "%out:" then
            match parseOutLine t with
            | Except.ok o => (parseItems fuel rest).map fun items => Item.out o :: items
            | Except.error e => Except.error e
          else if strStartsWith t "+" then
            match parseNodeLine t with
            | Except.ok n => (parseItems fuel rest).map fun items => Item.node n :: items
            | Except.error e => Except.error e
          else if strStartsWith t "->" then
            match parseEdgeLine t with
            | Except.ok e => (parseItems fuel rest).map fun items => Item.edge e :: items
            | Except.error e => Except.error e
          else if strStartsWith t "?" then
            match parseCondition (strTrim (String.mk (t.toList.drop 1))) with
            | Except.ok c => (parseItems fuel rest).map fun items => Item.cond c :: items
            | Except.error e => Except.error e
          else if strStartsWith t "!" then
            match parseActionLine t with
            | Except.ok a => (parseItems fuel rest).map fun items => Item.action a :: items
            | Except.error e => Except.error e
          else if strStartsWith t "let " then
            match parseLetLine t with
            | Except.ok s => (parseItems fuel rest).map fun items => Item.letS s :: items
            | Except.error e => Except.error e
          else Except.error ("Unknown statement: " ++ t)

/-- The fold of parsed items into a `TaskAST`, with duplicate checks. -/
def foldItems (taskId : String) (items : List Item) : Except String TaskAST :=
  let step := fun (acc : Except String TaskAST) (it : Item) =>
    match acc with
    | Except.error e => Except.error e
    | Except.ok ast =>
        let ast := { ast with sourceOrder := ast.sourceOrder ++ [it] }
        match it with
        | Item.input v =>
            if ast.input.isSome then Except.error "Duplicate %in block"
            else Except.ok { ast with input := some v }
        | Item.model m =>
            if ast.model.isSome then Except.error "Duplicate %model block"
            else Except.ok { ast with model := some m }
        | Item.out o =>
            if ast.out.isSome then Except.error "Duplicate %out block"
            else Except.ok { ast with out := some o }
        | Item.node n => Except.ok { ast with nodes := ast.nodes ++ [n] }
        | Item.edge e => Except.ok { ast with edges := ast.edges ++ [e] }
        | Item.cond c => Except.ok { ast with conditions := ast.conditions ++ [c] }
        | Item.action a => Except.ok { ast with actions := ast.actions ++ [a] }
        | Item.letS _ => Except.ok ast
  items.foldl step (Except.ok { taskId := taskId })

/-- `parseSource`: normalize line endings, parse the mandatory task
declaration, run the statement loop and fold the items into an AST
(`validateAST` is a no-op in the source). -/
def parseSource (source : String) : Except String TaskAST :=
  let lines := splitOnNewline (normalizeNewlines source.toList)
  match lines.dropWhile isBlankOrComment with
  | [] => Except.error "Expected task declaration like \"@task_id:\""
  | first :: rest =>
      if ¬ strStartsWith (strTrim first) "@" then
        Except.error "Expected task declaration like \"@task_id:\""
      else
        match (strTrim first).toList with
        | '@' :: cs =>
            (match takeIdent cs with
              | some (taskId, ':' :: tail) =>
                  if tail.dropWhile Char.isWhitespace = [] then
                    match parseItems (rest.length + 1) rest with
                    | Except.ok items => foldItems taskId items
                    | Except.error e => Except.error e
                  else Except.error "Invalid task declaration"
              | _ => Except.error "Invalid task declaration")
        | _ => Except.error "Invalid task declaration"

/-! ## Tree-walking executor (`execute` and helpers) -/

/-- JS `a || b`. -/
def jsOr (a b : Value) : Value := if a.truthy then a else b

/-- The key extraction `getv` shared by both sorts:
`key ? x?.[key] : x` (the key, a scalar, is used as a property name). -/
def getv (key : Value) (x : Value) : Value :=
  if key.truthy then optProp x (toDisplayString key) else x

/-- One bubble pass over the first `limit` adjacent pairs, returning the
new list and whether any swap happened. -/
def bubblePass (key : Value) : List Value → Nat → List Value × Bool
  | l, 0 => (l, false)
  | x :: y :: t, k + 1 =>
      if jsGt (getv key x) (getv key y) then
        let (r, _) := bubblePass key (x :: t) k
        (y :: r, true)
      else
        let (r, sw) := bubblePass key (y :: t) k
        (x :: r, sw)
  | l, _ + 1 => (l, false)

/-- The outer loop of `bubbleSort`: passes with shrinking limits, stopping
early after a swap-free pass. -/
def bubbleAux (key : Value) : Nat → List Value → List Value
  | 0, l => l
  | limit + 1, l =>
      let (l', sw) := bubblePass key l (limit + 1)
      if sw then bubbleAux key limit l' else l'

/-- `bubbleSort`: adjacent-swap sort with early exit, comparing raw
elements or the configured key with JS `>`. -/
def bubbleSort (arr : List Value) (key : Value) : List Value :=
  bubbleAux key (arr.length - 1) arr

/-- The three-way comparator of `nativeSort` (and of the VM's `native`
branch, which is textually the same). -/
def nativeCmp (key : Value) (a b : Value) : Int :=
  if jsLt (getv key a) (getv key b) then -1
  else if jsGt (getv key a) (getv key b) then 1
  else 0

/-- Stable insertion used to model `Array.prototype.sort` (required to be
stable; the exact algorithm is engine-defined, a stable insertion sort is
a conforming model and both interpreters share it). -/
def insertCmp (cmp : Value → Value → Int) (x : Value) : List Value → List Value
  | [] => [x]
  | y :: t => if cmp x y < 0 then x :: y :: t else y :: insertCmp cmp x t

/-- `nativeSort`: stable comparison sort with the three-way comparator. -/
def nativeSort (arr : List Value) (key : Value) : List Value :=
  arr.foldl (fun acc x => insertCmp (nativeCmp key) x acc) []

/-- `inferListFromContext`: the input itself if it is an array, else an
array `list` context value, else the `list` field of an object input. -/
def inferListFromContext (ctx : Ctx) : Option (List Value) :=
  match ctxGet ctx "input" with
  | vArr l => some l
  | iv =>
      match ctxGet ctx "list" with
      | vArr l => some l
      | _ =>
          match iv with
          | vObj fields =>
              (match (fields.lookup "list").getD vUndef with
                | vArr l => some l
                | _ => none)
          | _ => none

/-- `applyModel`: dispatch on the model type (`sort` / `tool`). -/
def applyModel (m : ModelSpec) (ctx : Ctx) : Except String Ctx :=
  if m.type = "sort" then
    let algo := jsOr (ctxGet m.args "algorithm") (vStr "bubble")
    let key := jsOr (ctxGet m.args "key") (vStr "")
    match inferListFromContext ctx with
    | none => Except.error "Model \"sort\" requires an array input"
    | some list =>
        if algo = vStr "bubble" then
          Except.ok (ctxSet ctx "sorted" (vArr (bubbleSort list key)))
        else if algo = vStr "native" then
          Except.ok (ctxSet ctx "sorted" (vArr (nativeSort list key)))
        else Except.error ("Unknown sort algorithm: " ++ toDisplayString algo)
  else if m.type = "tool" then
    let req := vObj [("kind", vStr "tool"), ("args", vObj m.args)]
    let reqs := match ctxGet ctx "__requests" with
      | vArr l => l
      | _ => []
    let newReqs := vArr (reqs ++ [req])
    Except.ok (ctxSet (ctxSet ctx "__requests" newReqs) "plan" newReqs)
  else Except.error ("Unknown model type: " ++ m.type)

/-- `evalCondition`. -/
def evalCondition (cond : Condition) (ctx : Ctx) : Bool :=
  let lv := ctxGet ctx cond.left
  match cond.op with
  | none => lv.truthy
  | some op =>
      let rv := cond.right.getD vUndef
      match op with
      | CmpOp.opEq | CmpOp.opEqEq => jsLooseEq lv rv
      | CmpOp.opGe => jsGe lv rv
      | CmpOp.opLe => jsLe lv rv
      | CmpOp.opGt => jsGt lv rv
      | CmpOp.opLt => jsLt lv rv

/-- `evalExpression`. -/
def evalExpression (e : Expr) (ctx : Ctx) : Value :=
  match e with
  | Expr.num (some q) => vNum q
  | Expr.num none => vNaN
  | Expr.str s => vStr s
  | Expr.bool b => vBool b
  | Expr.null => vNull
  | Expr.ident n => ctxGet ctx n
  | Expr.member o p => optProp (evalExpression o ctx) p
  | Expr.binAdd l r => jsAdd (evalExpression l ctx) (evalExpression r ctx)
  | Expr.binSub l r => jsSub (evalExpression l ctx) (evalExpression r ctx)
  | Expr.binMul l r => jsMul (evalExpression l ctx) (evalExpression r ctx)
  | Expr.binDiv l r => jsDiv (evalExpression l ctx) (evalExpression r ctx)

/-- `selectPreferredValue`: `ctx.sorted ?? ctx.input ?? null`. -/
def selectPreferredValue (ctx : Ctx) : Value :=
  coalesce (ctxGet ctx "sorted") (coalesce (ctxGet ctx "input") vNull)

/-- `runAction`: the state effect on `(ctx, outputs)` (`log` only writes to
the console). -/
def runAction (a : Action) (ctx outputs : Ctx) : Ctx × Ctx :=
  match a with
  | Action.emit name =>
      let preferred :=
        coalesce (ctxGet ctx name) (coalesce (ctxGet ctx "sorted") (ctxGet ctx "input"))
      (ctx, ctxSet outputs name (cloneJSON preferred))
  | Action.log _ => (ctx, outputs)
  | Action.set name v => (ctxSet ctx name v, outputs)

/-- One step of the executor's `sourceOrder` walk. -/
def execStep (st : Ctx × Ctx) (it : Item) : Except String (Ctx × Ctx) :=
  let (ctx, outputs) := st
  match it with
  | Item.input _ => Except.ok (ctx, outputs)
  | Item.model m => (applyModel m ctx).map fun ctx => (ctx, outputs)
  | Item.out outName =>
      Except.ok (ctx, ctxSet outputs outName (cloneJSON (selectPreferredValue ctx)))
  | Item.cond _ => Except.ok (ctx, outputs)
  | Item.action act =>
      if evalCondition act.condition ctx then Except.ok (runAction act.action ctx outputs)
      else Except.ok (ctx, outputs)
  | Item.letS s => Except.ok (ctxSet ctx s.name (evalExpression s.expr ctx), outputs)
  | Item.node _ => Except.ok (ctx, outputs)
  | Item.edge _ => Except.ok (ctx, outputs)

/-- The context seeding shared by both interpreters: the raw input under
`input`, then the top-level fields of an object input merged in. -/
def seedCtx (ctx : Ctx) (input : Value) : Ctx :=
  let ctx := ctxSet ctx "input" input
  match input with
  | vObj fields => ctxAssign ctx fields
  | _ => ctx

/-- The statement loop of `execute` over a list of items. -/
def execSteps (st : Ctx × Ctx) (items : List Item) : Except String (Ctx × Ctx) :=
  items.foldl
    (fun acc it =>
      match acc with
      | Except.ok st => execStep st it
      | Except.error e => Except.error e)
    (Except.ok st)

/-- `execute`: seed the context and run `sourceOrder` in order. -/
def execute (ast : TaskAST) : Except String ExecutionResult :=
  let ctx0 := seedCtx [] (ast.input.getD vUndef)
  (execSteps (ctx0, ([] : Ctx)) ast.sourceOrder).map
    fun (ctx, outputs) => { outputs := outputs, context := ctx }

/-! ## Bytecode compiler (`bytecode.ts`)

The instruction byte stream (opcodes, little-endian `u32`/`i32` operands,
forward-jump patching) is modelled byte-exactly.  The binary framing
around it — magic tag, version byte, typed constant-pool entries, code
length — is a bijective serialization and is elided: a `Module` carries
the decoded constant pool (after its encode/decode round trip, which turns
a pooled `undefined` into the string `"undefined"` via the
`JSON.stringify` fallback) next to the code bytes. -/

/-- JS `typeof`. -/
def jsTypeof : Value → String
  | vUndef => "undefined"
  | vNull => "object"
  | vBool _ => "boolean"
  | vNum _ => "number"
  | vNaN => "number"
  | vStr _ => "string"
  | vArr _ => "object"
  | vObj _ => "object"

/-- JSON string escaping (quote, backslash, control characters). -/
def jsonEscape (s : String) : String :=
  s.toList.foldl
    (fun acc c =>
      if c = '"' then acc ++ "\\\""
      else if c = '\\' then acc ++ "\\\\"
      else if c = '\n' then acc ++ "\\n"
      else if c = '\t' then acc ++ "\\t"
      else if c = Char.ofNat 13 then acc ++ "\\r"
      else if c.toNat < 32 then acc ++ "\\u" ++ "00" ++
        String.mk [(if c.toNat / 16 < 10 then Char.ofNat ('0'.toNat + c.toNat / 16)
                    else Char.ofNat ('a'.toNat + c.toNat / 16 - 10)),
                   (if c.toNat % 16 < 10 then Char.ofNat ('0'.toNat + c.toNat % 16)
                    else Char.ofNat ('a'.toNat + c.toNat % 16 - 10))]
      else acc ++ String.mk [c])
    ""

mutual
/-- `JSON.stringify`; `none` encodes the JS `undefined` result. -/
def jsonStringify : Value → Option String
  | vUndef => none
  | vNull => some "null"
  | vBool b => some (if b then "true" else "false")
  | vNum q => some (numToString q)
  | vNaN => some "null"
  | vStr s => some ("\"" ++ jsonEscape s ++ "\"")
  | vArr l => some ("[" ++ jsonStringifyElems l ++ "]")
  | vObj fields => some ("\x7b" ++ jsonStringifyFields fields ++ "\x7d")

/-- Array elements (`undefined` renders as `null`), comma separated. -/
def jsonStringifyElems : List Value → String
  | [] => ""
  | [x] => (jsonStringify x).getD "null"
  | x :: xs => (jsonStringify x).getD "null" ++ "," ++ jsonStringifyElems xs

/-- Object fields (`undefined`-valued fields dropped), comma separated. -/
def jsonStringifyFields : List (String × Value) → String
  | [] => ""
  | (k, v) :: rest =>
      match jsonStringify v with
      | none => jsonStringifyFields rest
      | some sv =>
          let piece := "\"" ++ jsonEscape k ++ "\":" ++ sv
          let tail := jsonStringifyFields rest
          if tail = "" then piece else piece ++ "," ++ tail
end

/-- The deduplication key of `ConstPool.getId`:
`typeof val + ':' + (typeof val === 'string' ? val : JSON.stringify(val))`
(string concatenation renders an `undefined` serialization as
`"undefined"`). -/
def constKey (v : Value) : String :=
  jsTypeof v ++ ":" ++
    (match v with
      | vStr s => s
      | w => (jsonStringify w).getD "undefined")

/-- `ConstPool`: the value list and the key-to-index map. -/
structure ConstPool where
  list : List Value := []
  map : List (String × Nat) := []
  deriving Repr, DecidableEq

/-- `ConstPool.getId`: reuse the index of an already-seen key, else append. -/
def ConstPool.getId (pool : ConstPool) (v : Value) : Nat × ConstPool :=
  let key := constKey v
  match pool.map.lookup key with
  | some id => (id, pool)
  | none =>
      let id := pool.list.length
      (id, { list := pool.list ++ [v], map := pool.map ++ [(key, id)] })

/-- Opcode bytes. -/
def opCONST : Nat := 0x01
def opGET_CTX : Nat := 0x02
def opSET_CTX : Nat := 0x03
def opMEMBER : Nat := 0x04
def opADD : Nat := 0x10
def opSUB : Nat := 0x11
def opMUL : Nat := 0x12
def opDIV : Nat := 0x13
def opCMP_EQ : Nat := 0x20
def opCMP_GE : Nat := 0x21
def opCMP_LE : Nat := 0x22
def opCMP_GT : Nat := 0x23
def opCMP_LT : Nat := 0x24
def opJUMP_IF_FALSE : Nat := 0x30
def opSORT : Nat := 0x40
def opEMIT_PREFERRED : Nat := 0x50
def opEMIT_TOP : Nat := 0x51
def opEND : Nat := 0xFF

/-- Little-endian `u32` encoding (`setUint32(v >>> 0, true)`). -/
def u32Bytes (v : Nat) : List Nat :=
  let v := v % 2 ^ 32
  [v % 256, v / 256 % 256, v / 2 ^ 16 % 256, v / 2 ^ 24 % 256]

/-- Little-endian `i32` encoding (`setInt32(v | 0, true)`). -/
def i32Bytes (v : Int) : List Nat :=
  u32Bytes (v % 2 ^ 32).toNat

/-- In-place patch of 4 bytes at a position (`view.setInt32(at, ..., true)`). -/
def setI32At (code : List Nat) (pos : Nat) (v : Int) : List Nat :=
  code.take pos ++ i32Bytes v ++ code.drop (pos + 4)

/-- `compileExpr`: emit instructions that push the expression's value. -/
def compileExpr (e : Expr) (pool : ConstPool) (code : List Nat) :
    ConstPool × List Nat :=
  match e with
  | Expr.num q =>
      let (id, pool) := pool.getId (match q with | some x => vNum x | none => vNaN)
      (pool, code ++ [opCONST] ++ u32Bytes id)
  | Expr.str s =>
      let (id, pool) := pool.getId (vStr s)
      (pool, code ++ [opCONST] ++ u32Bytes id)
  | Expr.bool b =>
      let (id, pool) := pool.getId (vBool b)
      (pool, code ++ [opCONST] ++ u32Bytes id)
  | Expr.null =>
      let (id, pool) := pool.getId vNull
      (pool, code ++ [opCONST] ++ u32Bytes id)
  | Expr.ident n =>
      let (id, pool) := pool.getId (vStr n)
      (pool, code ++ [opGET_CTX] ++ u32Bytes id)
  | Expr.member o p =>
      let (pool, code) := compileExpr o pool code
      let (id, pool) := pool.getId (vStr p)
      (pool, code ++ [opMEMBER] ++ u32Bytes id)
  | Expr.binAdd l r =>
      let (pool, code) := compileExpr l pool code
      let (pool, code) := compileExpr r pool code
      (pool, code ++ [opADD])
  | Expr.binSub l r =>
      let (pool, code) := compileExpr l pool code
      let (pool, code) := compileExpr r pool code
      (pool, code ++ [opSUB])
  | Expr.binMul l r =>
      let (pool, code) := compileExpr l pool code
      let (pool, code) := compileExpr r pool code
      (pool, code ++ [opMUL])
  | Expr.binDiv l r =>
      let (pool, code) := compileExpr l pool code
      let (pool, code) := compileExpr r pool code
      (pool, code ++ [opDIV])

/-- `compileCond`: push the named context value and, when an operator is
present, the right-hand constant and a comparison. -/
def compileCond (cond : Condition) (pool : ConstPool) (code : List Nat) :
    ConstPool × List Nat :=
  let (id, pool) := pool.getId (vStr cond.left)
  let code := code ++ [opGET_CTX] ++ u32Bytes id
  match cond.op with
  | none => (pool, code)
  | some op =>
      let (rid, pool) := pool.getId (cond.right.getD vUndef)
      let code := code ++ [opCONST] ++ u32Bytes rid
      let cmp := match op with
        | CmpOp.opEq | CmpOp.opEqEq => opCMP_EQ
        | CmpOp.opGe => opCMP_GE
        | CmpOp.opLe => opCMP_LE
        | CmpOp.opGt => opCMP_GT
        | CmpOp.opLt => opCMP_LT
      (pool, code ++ [cmp])

/-- `compileAction`: the effect instructions of one action. -/
def compileAction (a : ActionStmt) (pool : ConstPool) (code : List Nat) :
    ConstPool × List Nat :=
  match a.action with
  | Action.emit name =>
      let (id, pool) := pool.getId (vStr name)
      (pool, code ++ [opEMIT_PREFERRED] ++ u32Bytes id)
  | Action.log _ => (pool, code)
  | Action.set name v =>
      let (vid, pool) := pool.getId v
      let code := code ++ [opCONST] ++ u32Bytes vid
      let (nid, pool) := pool.getId (vStr name)
      (pool, code ++ [opSET_CTX] ++ u32Bytes nid)

/-- One statement of the compiler's `sourceOrder` walk. -/
def compileStep (st : ConstPool × List Nat) (it : Item) : ConstPool × List Nat :=
  let (pool, code) := st
  match it with
  | Item.model m =>
      if m.type = "sort" then
        let algo := jsOr (ctxGet m.args "algorithm") (vStr "bubble")
        let key := jsOr (ctxGet m.args "key") (vStr "")
        let (aid, pool) := pool.getId algo
        let code := code ++ [opSORT] ++ u32Bytes aid
        if key.truthy then
          let (kid, pool) := pool.getId key
          (pool, code ++ u32Bytes kid)
        else (pool, code ++ u32Bytes 0xFFFFFFFF)
      else (pool, code) -- `tool` (and any other type) emits nothing
  | Item.out name =>
      let (id, pool) := pool.getId (vStr name)
      (pool, code ++ [opEMIT_PREFERRED] ++ u32Bytes id)
  | Item.letS s =>
      let (pool, code) := compileExpr s.expr pool code
      let (id, pool) := pool.getId (vStr s.name)
      (pool, code ++ [opSET_CTX] ++ u32Bytes id)
  | Item.action a =>
      let (pool, code) := compileCond a.condition pool code
      let code := code ++ [opJUMP_IF_FALSE]
      let pos := code.length
      let code := code ++ i32Bytes 0 -- patched below
      let (pool, code) := compileAction a pool code
      (pool, setI32At code pos (code.length - (pos + 4)))
  | _ => (pool, code) -- input / node / edge / cond emit nothing

/-- The full `sourceOrder` walk of the compiler. -/
def compileSteps (items : List Item) : ConstPool × List Nat :=
  items.foldl compileStep ({}, [])

/-- The encode/decode round trip of one constant-pool entry: scalars keep
their value (numbers travel as 8-byte floats, booleans and null as tags,
strings as UTF-8); anything else falls back to its `JSON.stringify` text,
which for a pooled `undefined` is the string `"undefined"`. -/
def serializedConst : Value → Value
  | vNull => vNull
  | vBool b => vBool b
  | vNum q => vNum q
  | vNaN => vNaN
  | vStr s => vStr s
  | w => vStr ((jsonStringify w).getD "undefined")

/-- A compiled module: decoded constant pool plus instruction bytes. -/
structure Module where
  consts : List Value
  code : List Nat
  deriving DecidableEq, Repr

/-- `compileToBytecode` (modulo the bijective binary framing): run the
compiler and serialize the pool. -/
def compileToBytecode (ast : TaskAST) : Module :=
  let (pool, code) := compileSteps ast.sourceOrder
  { consts := pool.list.map serializedConst, code := code }

/-! ## Bytecode virtual machine (`runBytecode`) -/

/-- One VM state: instruction pointer (an `Int`: crafted jumps may leave
the code range downwards, which makes the next read fail like a
`DataView` RangeError), operand stack, context and outputs. -/
structure VMState where
  ip : Int
  stack : List Value
  ctx : Ctx
  outs : Ctx
  deriving DecidableEq, Repr

/-- Bounds-checked byte read (`DataView.getUint8`). -/
def readU8At (code : List Nat) (o : Int) : Except String Nat :=
  if 0 ≤ o ∧ o + 1 ≤ (code.length : Int) then Except.ok (code.getD o.toNat 0)
  else Except.error "RangeError"

/-- Bounds-checked little-endian `u32` read. -/
def readU32At (code : List Nat) (o : Int) : Except String Nat :=
  if 0 ≤ o ∧ o + 4 ≤ (code.length : Int) then
    Except.ok (code.getD o.toNat 0 + code.getD (o.toNat + 1) 0 * 256 +
      code.getD (o.toNat + 2) 0 * 2 ^ 16 + code.getD (o.toNat + 3) 0 * 2 ^ 24)
  else Except.error "RangeError"

/-- Bounds-checked little-endian `i32` read. -/
def readI32At (code : List Nat) (o : Int) : Except String Int :=
  (readU32At code o).map fun u =>
    if u < 2 ^ 31 then (u : Int) else (u : Int) - 2 ^ 32

/-- `Array.prototype.pop`: `undefined` on an empty stack. -/
def popV : List Value → Value × List Value
  | [] => (vUndef, [])
  | x :: t => (x, t)

/-- One dispatch of the VM `while` loop (assumes `ip < codeEnd`). -/
def vmStep (consts : List Value) (code : List Nat) (s : VMState) :
    Except String VMState :=
  match readU8At code s.ip with
  | Except.error e => Except.error e
  | Except.ok op =>
    if op = opCONST then
      (readU32At code (s.ip + 1)).map fun idx =>
        { s with ip := s.ip + 5, stack := consts.getD idx vUndef :: s.stack }
    else if op = opGET_CTX then
      (readU32At code (s.ip + 1)).map fun idx =>
        let name := toDisplayString (consts.getD idx vUndef)
        { s with ip := s.ip + 5, stack := ctxGet s.ctx name :: s.stack }
    else if op = opSET_CTX then
      (readU32At code (s.ip + 1)).map fun idx =>
        let name := toDisplayString (consts.getD idx vUndef)
        let (v, stack) := popV s.stack
        { s with ip := s.ip + 5, stack := stack, ctx := ctxSet s.ctx name v }
    else if op = opMEMBER then
      (readU32At code (s.ip + 1)).map fun idx =>
        let prop := toDisplayString (consts.getD idx vUndef)
        let (obj, stack) := popV s.stack
        { s with ip := s.ip + 5, stack := optProp obj prop :: stack }
    else if op = opADD then
      let (b, stack) := popV s.stack
      let (a, stack) := popV stack
      Except.ok { s with ip := s.ip + 1, stack := jsAdd a b :: stack }
    else if op = opSUB then
      let (b, stack) := popV s.stack
      let (a, stack) := popV stack
      Except.ok { s with ip := s.ip + 1, stack := jsSub a b :: stack }
    else if op = opMUL then
      let (b, stack) := popV s.stack
      let (a, stack) := popV stack
      Except.ok { s with ip := s.ip + 1, stack := jsMul a b :: stack }
    else if op = opDIV then
      let (b, stack) := popV s.stack
      let (a, stack) := popV stack
      Except.ok { s with ip := s.ip + 1, stack := jsDiv a b :: stack }
    else if op = opCMP_EQ then
      let (b, stack) := popV s.stack
      let (a, stack) := popV stack
      let stack := vNum (if jsLooseEq a b then 1 else 0) :: stack
      Except.ok { s with ip := s.ip + 1, stack := stack }
    else if op = opCMP_GE then
      let (b, stack) := popV s.stack
      let (a, stack) := popV stack
      let stack := vNum (if jsGe a b then 1 else 0) :: stack
      Except.ok { s with ip := s.ip + 1, stack := stack }
    else if op = opCMP_LE then
      let (b, stack) := popV s.stack
      let (a, stack) := popV stack
      let stack := vNum (if jsLe a b then 1 else 0) :: stack
      Except.ok { s with ip := s.ip + 1, stack := stack }
    else if op = opCMP_GT then
      let (b, stack) := popV s.stack
      let (a, stack) := popV stack
      let stack := vNum (if jsGt a b then 1 else 0) :: stack
      Except.ok { s with ip := s.ip + 1, stack := stack }
    else if op = opCMP_LT then
      let (b, stack) := popV s.stack
      let (a, stack) := popV stack
      let stack := vNum (if jsLt a b then 1 else 0) :: stack
      Except.ok { s with ip := s.ip + 1, stack := stack }
    else if op = opJUMP_IF_FALSE then
      (readI32At code (s.ip + 1)).map fun rel =>
        let (v, stack) := popV s.stack
        { s with ip := (if v.truthy then s.ip + 5 else s.ip + 5 + rel), stack := stack }
    else if op = opSORT then
      match readU32At code (s.ip + 1), readU32At code (s.ip + 5) with
      | Except.ok algoIdx, Except.ok keyIdx =>
          let algo := consts.getD algoIdx vUndef
          let key := if keyIdx = 0xFFFFFFFF then vUndef else consts.getD keyIdx vUndef
          (match inferListFromContext s.ctx with
            | none => Except.error "Model \"sort\" requires an array input"
            | some list =>
                let res := if algo = vStr "native" then nativeSort list key
                  else bubbleSort list key
                Except.ok { s with ip := s.ip + 9, ctx := ctxSet s.ctx "sorted" (vArr res) })
      | Except.error e, _ => Except.error e
      | _, Except.error e => Except.error e
    else if op = opEMIT_PREFERRED then
      (readU32At code (s.ip + 1)).map fun idx =>
        let name := toDisplayString (consts.getD idx vUndef)
        let preferred := coalesce (ctxGet s.ctx name)
          (coalesce (ctxGet s.ctx "sorted") (ctxGet s.ctx "input"))
        { s with ip := s.ip + 5, outs := ctxSet s.outs name (cloneJSON preferred) }
    else if op = opEMIT_TOP then
      (readU32At code (s.ip + 1)).map fun idx =>
        let name := toDisplayString (consts.getD idx vUndef)
        let (v, stack) := popV s.stack
        { s with ip := s.ip + 5, stack := stack, outs := ctxSet s.outs name (cloneJSON v) }
    else
      -- unknown opcode (including a stray END): halt at the current position
      Except.ok { s with ip := (code.length : Int) }

/-- The VM `while` loop; the fuel only bounds the iteration count of a
loop that, on compiler-produced code, always moves forward, so
`code.length + 1` units can never be exhausted there. -/
def vmRun (consts : List Value) (code : List Nat) :
    Nat → VMState → Except String ExecutionResult
  | fuel, s =>
      if s.ip < (code.length : Int) then
        match fuel with
        | 0 => Except.error "out of fuel"
        | fuel + 1 =>
            match vmStep consts code s with
            | Except.ok s' => vmRun consts code fuel s'
            | Except.error e => Except.error e
      else Except.ok { outputs := s.outs, context := s.ctx }

/-- `runBytecode`: decode (elided), seed the context like the executor
when an input is given, and run the instruction stream. -/
def runBytecode (m : Module) (input : Option Value) :
    Except String ExecutionResult :=
  let ctx0 := match input with
    | none => ([] : Ctx)
    | some v => seedCtx [] v
  vmRun m.consts m.code (m.code.length + 1)
    { ip := 0, stack := [], ctx := ctx0, outs := [] }

/-! ## Definitions supporting the claim statements -/

/-- The output name written by an item, if any (an `%out` capture or a
bare `emit` action). -/
def itemWritesOut : Item → Option String
  | Item.out n => some n
  | Item.action a =>
      (match a.action with
        | Action.emit n => some n
        | _ => none)
  | _ => none

/-- The proposition that the instruction at the VM's current position is
an emit (preferred or top) targeting output name `k`. -/
def vmWritesOut (consts : List Value) (code : List Nat) (s : VMState) (k : String) : Prop :=
  ∃ op idx, readU8At code s.ip = Except.ok op ∧
    (op = opEMIT_PREFERRED ∨ op = opEMIT_TOP) ∧
    readU32At code (s.ip + 1) = Except.ok idx ∧
    toDisplayString (consts.getD idx vUndef) = k

/-- The payload boundary asserted by claim C9: a line beginning any
directive the parser recognizes — input, model, output, node, edge,
condition, action, or let statement. -/
def claimPayloadStop (line : String) : Bool :=
  let t := strTrim line
  strStartsWith t "%in:" || strStartsWith t "%model:" || strStartsWith t "%out:" ||
  strStartsWith t "+" || strStartsWith t "->" || strStartsWith t "?" || strStartsWith t "!" ||
  (strStartsWith t "let" &&
    (match t.toList.drop 3 with
      | [] => true
      | c :: _ => ¬ isWordChar c))

/-- Reading back the unsigned part of a `numToString` rendering
(integer, decimal, or `p/q` fallback). -/
def numFromStringCore (neg : Bool) (l : List Char) : Option ℚ :=
  if l.contains '/' then
    let ds := l.takeWhile (· ≠ '/')
    let rest := (l.dropWhile (· ≠ '/')).drop 1
    if ds ≠ [] ∧ ds.all Char.isDigit ∧ rest ≠ [] ∧ rest.all Char.isDigit then
      some (ratNormalize
        (if neg then -(digitsToNat ds : Int) else (digitsToNat ds : Int))
        (digitsToNat rest))
    else none
  else if l.contains '.' then
    let ds := l.takeWhile (· ≠ '.')
    let fr := (l.dropWhile (· ≠ '.')).drop 1
    if ds.all Char.isDigit ∧ fr ≠ [] ∧ fr.all Char.isDigit then
      some (decimalValue neg ds fr)
    else none
  else if l ≠ [] ∧ l.all Char.isDigit then
    some (ratNormalize
      (if neg then -(digitsToNat l : Int) else (digitsToNat l : Int)) 1)
  else none

/-- Reading back a `numToString` rendering (integer, decimal, or `p/q`
fallback); the left inverse used to show the rendering is injective. -/
def numFromString (s : String) : Option ℚ :=
  match s.toList with
  | '-' :: r => numFromStringCore true r
  | l => numFromStringCore false l

/-- Well-formedness of a constant pool: the map lists exactly the keys of
the pooled values, in order, with their indices, and keys never repeat. -/
def WFPool (p : ConstPool) : Prop :=
  p.map = p.list.enum.map (fun iv => (constKey iv.2, iv.1)) ∧
  (p.list.map constKey).Nodup

/-- Pool extension: the later pool's list extends the earlier one. -/
def PoolLE (p q : ConstPool) : Prop := ∃ suffix, q.list = p.list ++ suffix

/-- The serialized constant table the VM sees for a pool. -/
def poolConsts (p : ConstPool) : List Value := p.list.map serializedConst

/-- One accepted VM transition: the loop is running (`ip` inside the
code), the step succeeds, and the instruction pointer strictly advances
(true of every instruction the compiler emits). -/
def VMStepOk (consts : List Value) (code : List Nat) (a b : VMState) : Prop :=
  a.ip < (code.length : Int) ∧ vmStep consts code a = Except.ok b ∧ a.ip < b.ip

/-- Finitely many accepted VM transitions. -/
def VMSteps (consts : List Value) (code : List Nat) : VMState → VMState → Prop :=
  Relation.ReflTransGen (VMStepOk consts code)

/-- The pool values whose binary encode/decode round trip is the
identity: null, booleans, numbers (including `NaN`) and strings. -/
def isScalar : Value → Bool
  | vNull => true
  | vBool _ => true
  | vNum _ => true
  | vNaN => true
  | vStr _ => true
  | _ => false

/-- A pool holding only scalars. -/
def ScalarPool (p : ConstPool) : Prop := ∀ w ∈ p.list, isScalar w = true

/-- Pool invariant carried through compilation: well-formed and
scalar-only. -/
def GoodPool (p : ConstPool) : Prop := WFPool p ∧ ScalarPool p

/-- The per-statement conditions of the amended claim C1: models are
`sort` models with a known algorithm name and a scalar comparison key;
action conditions with a comparison operator carry a scalar right-hand
literal; `set` actions store scalars.  (Statements parsed from source
text satisfy all of these.) -/
def itemOk : Item → Bool
  | Item.model m =>
      (m.type == "sort") &&
      (jsOr (ctxGet m.args "algorithm") (vStr "bubble") == vStr "bubble" ||
       jsOr (ctxGet m.args "algorithm") (vStr "bubble") == vStr "native") &&
      isScalar (jsOr (ctxGet m.args "key") (vStr ""))
  | Item.action a =>
      (!a.condition.op.isSome || isScalar (a.condition.right.getD vUndef)) &&
      (match a.action with
        | Action.set _ v => isScalar v
        | _ => true)
  | _ => true

/-- A concrete program exercising the amended claim C1: object input,
a `sort` model with a truthy comparison key, `%out sorted`, and a
guarded `set` action. -/
def c1WitnessAst : TaskAST :=
  { taskId := "t",
    input := some (vObj [("list", vArr [vObj [("k", vNum 2)], vObj [("k", vNum 1)]])]),
    sourceOrder := [
      Item.input (vObj [("list", vArr [vObj [("k", vNum 2)], vObj [("k", vNum 1)]])]),
      Item.model { type := "sort",
                   args := [("algorithm", vStr "bubble"), ("key", vStr "k")] },
      Item.out "sorted",
      Item.action { condition := { left := "input", op := none, right := none },
                    action := Action.set "flag" (vNum 1) }] }

/-- The shared result of both execution paths on `c1WitnessAst`. -/
def c1WitnessRes : ExecutionResult :=
  { outputs := [("sorted", vArr [vObj [("k", vNum 1)], vObj [("k", vNum 2)]])],
    context := [("input",
                 vObj [("list", vArr [vObj [("k", vNum 2)], vObj [("k", vNum 1)]])]),
                ("list", vArr [vObj [("k", vNum 2)], vObj [("k", vNum 1)]]),
                ("sorted", vArr [vObj [("k", vNum 1)], vObj [("k", vNum 2)]]),
                ("flag", vNum 1)] }

/-- Numeric comparison key (claim C5's comparable case). -/
def NumKeyed (key x : Value) : Prop := ∃ q : ℚ, getv key x = vNum q

/-- The ascending-order relation used by the sort claims: the code's
comparison never ranks an earlier element strictly above a later one. -/
def KeyLe (key a b : Value) : Prop := ¬ jsGt (getv key a) (getv key b)

/-- Concrete program: `%out` of a name bound by the input object
(C1 counterexample). -/
def srcOutShadow : String := "@t:\n%in:\n\x7b\"x\":1\x7d\n%out: x"

/-- Concrete program whose `%in` payload is followed by a second `%in:`
line (C9): under the claimed boundary the payload would be the valid
literal `1`. -/
def srcInNotStop : String := "@t:\n%in:\n1\n%in: 2\n%out: input"

/-- Concrete program: sort with an unknown algorithm name (C3). -/
def srcQuickAlgo : String :=
  "@t:\n%in:\n[2,1]\n%model:sort{algorithm=quick}\n%out: sorted"

/-- The AST `srcQuickAlgo` parses to (checked in `c3_counterexample`). -/
def astQuick : TaskAST :=
  { taskId := "t",
    input := some (Value.vArr [Value.vNum 2, Value.vNum 1]),
    model := some { type := "sort", args := [("algorithm", Value.vStr "quick")] },
    out := some "sorted",
    nodes := [], edges := [], conditions := [], actions := [],
    sourceOrder :=
      [Item.input (Value.vArr [Value.vNum 2, Value.vNum 1]),
       Item.model { type := "sort", args := [("algorithm", Value.vStr "quick")] },
       Item.out "sorted"] }

/-- The module `astQuick` compiles to (checked in `c3_counterexample`):
`SORT algo=consts[0] key=0xFFFFFFFF; EMIT_PREFERRED consts[1]`. -/
def modQuick : Module :=
  { consts := [Value.vStr "quick", Value.vStr "sorted"],
    code := [64, 0, 0, 0, 0, 255, 255, 255, 255, 80, 1, 0, 0, 0] }

/-- The AST `srcOutShadow` parses to (checked in `c1_counterexample`). -/
def astOutShadow : TaskAST :=
  { taskId := "t",
    input := some (vObj [("x", vNum 1)]),
    model := none,
    out := some "x",
    nodes := [], edges := [], conditions := [], actions := [],
    sourceOrder := [Item.input (vObj [("x", vNum 1)]), Item.out "x"] }

/-- The module `astOutShadow` compiles to: one `EMIT_PREFERRED consts[0]`
instruction (checked in `c1_counterexample`). -/
def modOutShadow : Module :=
  { consts := [vStr "x"], code := [80, 0, 0, 0, 0] }

/-! ## Generic lemmas about the store and the interpreters -/

/-- Decidable equality for `Except` results. -/
def exceptDecEq {ε α : Type} [DecidableEq ε] [DecidableEq α] :
    (a b : Except ε α) → Decidable (a = b)
  | Except.ok x, Except.ok y =>
      match decEq x y with
      | isTrue h => isTrue (by rw [h])
      | isFalse h => isFalse (by intro hh; exact h (Except.ok.inj hh))
  | Except.error x, Except.error y =>
      match decEq x y with
      | isTrue h => isTrue (by rw [h])
      | isFalse h => isFalse (by intro hh; exact h (Except.error.inj hh))
  | Except.ok _, Except.error _ => isFalse nofun
  | Except.error _, Except.ok _ => isFalse nofun

instance {ε α : Type} [DecidableEq ε] [DecidableEq α] : DecidableEq (Except ε α) :=
  exceptDecEq

theorem exceptMap_error_ne_ok {α β : Type} (f : α → β) (e : String) (b : β) :
    ¬ (Except.map f (Except.error e : Except String α) = Except.ok b) := by
  simp [Except.map]

theorem vmStep_read8_error {consts : List Value} {code : List Nat} {s : VMState}
    {e : String} (h8 : readU8At code s.ip = Except.error e) :
    vmStep consts code s = Except.error e := by
  unfold vmStep
  rw [h8]

theorem lookup_ctxSet (ctx : Ctx) (k k' : String) (v : Value) :
    ((ctxSet ctx k v).lookup k') = if k' = k then some v else ctx.lookup k' := by
  induction ctx with
  | nil =>
      by_cases h : k' = k
      · simp [ctxSet, List.lookup, beq_iff_eq.mpr h, h]
      · simp [ctxSet, List.lookup, beq_eq_false_iff_ne.mpr h, h]
  | cons kv rest ih =>
      obtain ⟨k0, w⟩ := kv
      by_cases h0 : k0 = k
      · subst h0
        by_cases h1 : k' = k0
        · simp [ctxSet, List.lookup, beq_iff_eq.mpr h1, h1]
        · simp [ctxSet, List.lookup, beq_eq_false_iff_ne.mpr h1, h1]
      · by_cases h1 : k' = k0
        · subst h1
          simp [ctxSet, List.lookup, h0, beq_iff_eq.mpr rfl]
        · simp [ctxSet, List.lookup, h0, beq_eq_false_iff_ne.mpr h1, ih]

theorem ctxGet_ctxSet (ctx : Ctx) (k k' : String) (v : Value) :
    ctxGet (ctxSet ctx k v) k' = if k' = k then v else ctxGet ctx k' := by
  by_cases h : k' = k <;> simp [ctxGet, lookup_ctxSet, h]

theorem ctxGet_ctxSet_self (ctx : Ctx) (k : String) (v : Value) :
    ctxGet (ctxSet ctx k v) k = v := by
  simp [ctxGet_ctxSet]

theorem ctxGet_ctxSet_ne (ctx : Ctx) {k k' : String} (v : Value) (h : k' ≠ k) :
    ctxGet (ctxSet ctx k v) k' = ctxGet ctx k' := by
  simp [ctxGet_ctxSet, h]

theorem lookup_ctxSet_ne (ctx : Ctx) {k k' : String} (v : Value) (h : k' ≠ k) :
    ((ctxSet ctx k v).lookup k') = ctx.lookup k' := by
  simp [lookup_ctxSet, h]

/-- Writing `sorted` does not change the inferred list. -/
theorem inferList_ctxSet_sorted (ctx : Ctx) (w : Value) :
    inferListFromContext (ctxSet ctx "sorted" w) = inferListFromContext ctx := by
  unfold inferListFromContext
  rw [ctxGet_ctxSet_ne ctx w (by decide), ctxGet_ctxSet_ne ctx w (by decide)]

/-! ### Dispatch characterizations of `vmStep`, one per opcode -/

theorem vmStep_const {consts : List Value} {code : List Nat} {s : VMState}
    (h8 : readU8At code s.ip = Except.ok opCONST) :
    vmStep consts code s = (readU32At code (s.ip + 1)).map fun idx =>
      { s with
          ip := s.ip + 5,
          stack := consts.getD idx vUndef :: s.stack } := by
  simp [vmStep, h8, opCONST, opGET_CTX, opSET_CTX, opMEMBER, opADD, opSUB, opMUL,
    opDIV, opCMP_EQ, opCMP_GE, opCMP_LE, opCMP_GT, opCMP_LT, opJUMP_IF_FALSE,
    opSORT, opEMIT_PREFERRED, opEMIT_TOP]

theorem vmStep_get_ctx {consts : List Value} {code : List Nat} {s : VMState}
    (h8 : readU8At code s.ip = Except.ok opGET_CTX) :
    vmStep consts code s = (readU32At code (s.ip + 1)).map fun idx =>
      { s with
          ip := s.ip + 5,
          stack := ctxGet s.ctx (toDisplayString (consts.getD idx vUndef)) :: s.stack } := by
  simp [vmStep, h8, opCONST, opGET_CTX, opSET_CTX, opMEMBER, opADD, opSUB, opMUL,
    opDIV, opCMP_EQ, opCMP_GE, opCMP_LE, opCMP_GT, opCMP_LT, opJUMP_IF_FALSE,
    opSORT, opEMIT_PREFERRED, opEMIT_TOP]

theorem vmStep_set_ctx {consts : List Value} {code : List Nat} {s : VMState}
    (h8 : readU8At code s.ip = Except.ok opSET_CTX) :
    vmStep consts code s = (readU32At code (s.ip + 1)).map fun idx =>
      { s with
          ip := s.ip + 5,
          stack := (popV s.stack).2,
          ctx := ctxSet s.ctx (toDisplayString (consts.getD idx vUndef)) (popV s.stack).1 } := by
  simp [vmStep, h8, opCONST, opGET_CTX, opSET_CTX, opMEMBER, opADD, opSUB, opMUL,
    opDIV, opCMP_EQ, opCMP_GE, opCMP_LE, opCMP_GT, opCMP_LT, opJUMP_IF_FALSE,
    opSORT, opEMIT_PREFERRED, opEMIT_TOP]

theorem vmStep_member {consts : List Value} {code : List Nat} {s : VMState}
    (h8 : readU8At code s.ip = Except.ok opMEMBER) :
    vmStep consts code s = (readU32At code (s.ip + 1)).map fun idx =>
      { s with
          ip := s.ip + 5,
          stack := optProp (popV s.stack).1 (toDisplayString (consts.getD idx vUndef))
            :: (popV s.stack).2 } := by
  simp [vmStep, h8, opCONST, opGET_CTX, opSET_CTX, opMEMBER, opADD, opSUB, opMUL,
    opDIV, opCMP_EQ, opCMP_GE, opCMP_LE, opCMP_GT, opCMP_LT, opJUMP_IF_FALSE,
    opSORT, opEMIT_PREFERRED, opEMIT_TOP]

theorem vmStep_add {consts : List Value} {code : List Nat} {s : VMState}
    (h8 : readU8At code s.ip = Except.ok opADD) :
    vmStep consts code s = Except.ok
      { s with
          ip := s.ip + 1,
          stack := jsAdd (popV (popV s.stack).2).1 (popV s.stack).1
            :: (popV (popV s.stack).2).2 } := by
  simp [vmStep, h8, opCONST, opGET_CTX, opSET_CTX, opMEMBER, opADD, opSUB, opMUL,
    opDIV, opCMP_EQ, opCMP_GE, opCMP_LE, opCMP_GT, opCMP_LT, opJUMP_IF_FALSE,
    opSORT, opEMIT_PREFERRED, opEMIT_TOP]

theorem vmStep_sub {consts : List Value} {code : List Nat} {s : VMState}
    (h8 : readU8At code s.ip = Except.ok opSUB) :
    vmStep consts code s = Except.ok
      { s with
          ip := s.ip + 1,
          stack := jsSub (popV (popV s.stack).2).1 (popV s.stack).1
            :: (popV (popV s.stack).2).2 } := by
  simp [vmStep, h8, opCONST, opGET_CTX, opSET_CTX, opMEMBER, opADD, opSUB, opMUL,
    opDIV, opCMP_EQ, opCMP_GE, opCMP_LE, opCMP_GT, opCMP_LT, opJUMP_IF_FALSE,
    opSORT, opEMIT_PREFERRED, opEMIT_TOP]

theorem vmStep_mul {consts : List Value} {code : List Nat} {s : VMState}
    (h8 : readU8At code s.ip = Except.ok opMUL) :
    vmStep consts code s = Except.ok
      { s with
          ip := s.ip + 1,
          stack := jsMul (popV (popV s.stack).2).1 (popV s.stack).1
            :: (popV (popV s.stack).2).2 } := by
  simp [vmStep, h8, opCONST, opGET_CTX, opSET_CTX, opMEMBER, opADD, opSUB, opMUL,
    opDIV, opCMP_EQ, opCMP_GE, opCMP_LE, opCMP_GT, opCMP_LT, opJUMP_IF_FALSE,
    opSORT, opEMIT_PREFERRED, opEMIT_TOP]

theorem vmStep_div {consts : List Value} {code : List Nat} {s : VMState}
    (h8 : readU8At code s.ip = Except.ok opDIV) :
    vmStep consts code s = Except.ok
      { s with
          ip := s.ip + 1,
          stack := jsDiv (popV (popV s.stack).2).1 (popV s.stack).1
            :: (popV (popV s.stack).2).2 } := by
  simp [vmStep, h8, opCONST, opGET_CTX, opSET_CTX, opMEMBER, opADD, opSUB, opMUL,
    opDIV, opCMP_EQ, opCMP_GE, opCMP_LE, opCMP_GT, opCMP_LT, opJUMP_IF_FALSE,
    opSORT, opEMIT_PREFERRED, opEMIT_TOP]

theorem vmStep_cmp_eq {consts : List Value} {code : List Nat} {s : VMState}
    (h8 : readU8At code s.ip = Except.ok opCMP_EQ) :
    vmStep consts code s = Except.ok
      { s with
          ip := s.ip + 1,
          stack := vNum (if jsLooseEq (popV (popV s.stack).2).1 (popV s.stack).1 then 1 else 0)
            :: (popV (popV s.stack).2).2 } := by
  simp [vmStep, h8, opCONST, opGET_CTX, opSET_CTX, opMEMBER, opADD, opSUB, opMUL,
    opDIV, opCMP_EQ, opCMP_GE, opCMP_LE, opCMP_GT, opCMP_LT, opJUMP_IF_FALSE,
    opSORT, opEMIT_PREFERRED, opEMIT_TOP]

theorem vmStep_cmp_ge {consts : List Value} {code : List Nat} {s : VMState}
    (h8 : readU8At code s.ip = Except.ok opCMP_GE) :
    vmStep consts code s = Except.ok
      { s with
          ip := s.ip + 1,
          stack := vNum (if jsGe (popV (popV s.stack).2).1 (popV s.stack).1 then 1 else 0)
            :: (popV (popV s.stack).2).2 } := by
  simp [vmStep, h8, opCONST, opGET_CTX, opSET_CTX, opMEMBER, opADD, opSUB, opMUL,
    opDIV, opCMP_EQ, opCMP_GE, opCMP_LE, opCMP_GT, opCMP_LT, opJUMP_IF_FALSE,
    opSORT, opEMIT_PREFERRED, opEMIT_TOP]

theorem vmStep_cmp_le {consts : List Value} {code : List Nat} {s : VMState}
    (h8 : readU8At code s.ip = Except.ok opCMP_LE) :
    vmStep consts code s = Except.ok
      { s with
          ip := s.ip + 1,
          stack := vNum (if jsLe (popV (popV s.stack).2).1 (popV s.stack).1 then 1 else 0)
            :: (popV (popV s.stack).2).2 } := by
  simp [vmStep, h8, opCONST, opGET_CTX, opSET_CTX, opMEMBER, opADD, opSUB, opMUL,
    opDIV, opCMP_EQ, opCMP_GE, opCMP_LE, opCMP_GT, opCMP_LT, opJUMP_IF_FALSE,
    opSORT, opEMIT_PREFERRED, opEMIT_TOP]

theorem vmStep_cmp_gt {consts : List Value} {code : List Nat} {s : VMState}
    (h8 : readU8At code s.ip = Except.ok opCMP_GT) :
    vmStep consts code s = Except.ok
      { s with
          ip := s.ip + 1,
          stack := vNum (if jsGt (popV (popV s.stack).2).1 (popV s.stack).1 then 1 else 0)
            :: (popV (popV s.stack).2).2 } := by
  simp [vmStep, h8, opCONST, opGET_CTX, opSET_CTX, opMEMBER, opADD, opSUB, opMUL,
    opDIV, opCMP_EQ, opCMP_GE, opCMP_LE, opCMP_GT, opCMP_LT, opJUMP_IF_FALSE,
    opSORT, opEMIT_PREFERRED, opEMIT_TOP]

theorem vmStep_cmp_lt {consts : List Value} {code : List Nat} {s : VMState}
    (h8 : readU8At code s.ip = Except.ok opCMP_LT) :
    vmStep consts code s = Except.ok
      { s with
          ip := s.ip + 1,
          stack := vNum (if jsLt (popV (popV s.stack).2).1 (popV s.stack).1 then 1 else 0)
            :: (popV (popV s.stack).2).2 } := by
  simp [vmStep, h8, opCONST, opGET_CTX, opSET_CTX, opMEMBER, opADD, opSUB, opMUL,
    opDIV, opCMP_EQ, opCMP_GE, opCMP_LE, opCMP_GT, opCMP_LT, opJUMP_IF_FALSE,
    opSORT, opEMIT_PREFERRED, opEMIT_TOP]

theorem vmStep_jump_if_false {consts : List Value} {code : List Nat} {s : VMState}
    (h8 : readU8At code s.ip = Except.ok opJUMP_IF_FALSE) :
    vmStep consts code s = (readI32At code (s.ip + 1)).map fun rel =>
      { s with
          ip := (if (popV s.stack).1.truthy then s.ip + 5 else s.ip + 5 + rel),
          stack := (popV s.stack).2 } := by
  simp [vmStep, h8, opCONST, opGET_CTX, opSET_CTX, opMEMBER, opADD, opSUB, opMUL,
    opDIV, opCMP_EQ, opCMP_GE, opCMP_LE, opCMP_GT, opCMP_LT, opJUMP_IF_FALSE,
    opSORT, opEMIT_PREFERRED, opEMIT_TOP]

theorem vmStep_sort {consts : List Value} {code : List Nat} {s : VMState}
    (h8 : readU8At code s.ip = Except.ok opSORT) :
    vmStep consts code s =
      (match readU32At code (s.ip + 1), readU32At code (s.ip + 5) with
        | Except.ok algoIdx, Except.ok keyIdx =>
            (match inferListFromContext s.ctx with
              | none => Except.error "Model \"sort\" requires an array input"
              | some list =>
                  Except.ok
                    { s with
                        ip := s.ip + 9,
                        ctx := ctxSet s.ctx "sorted" (vArr
                          (if consts.getD algoIdx vUndef = vStr "native" then
                            nativeSort list (if keyIdx = 0xFFFFFFFF then vUndef
                              else consts.getD keyIdx vUndef)
                          else bubbleSort list (if keyIdx = 0xFFFFFFFF then vUndef
                              else consts.getD keyIdx vUndef))) })
        | Except.error e, _ => Except.error e
        | _, Except.error e => Except.error e) := by
  simp [vmStep, h8, opCONST, opGET_CTX, opSET_CTX, opMEMBER, opADD, opSUB, opMUL,
    opDIV, opCMP_EQ, opCMP_GE, opCMP_LE, opCMP_GT, opCMP_LT, opJUMP_IF_FALSE,
    opSORT, opEMIT_PREFERRED, opEMIT_TOP]

theorem vmStep_emit_preferred {consts : List Value} {code : List Nat} {s : VMState}
    (h8 : readU8At code s.ip = Except.ok opEMIT_PREFERRED) :
    vmStep consts code s = (readU32At code (s.ip + 1)).map fun idx =>
      { s with
          ip := s.ip + 5,
          outs := ctxSet s.outs (toDisplayString (consts.getD idx vUndef))
            (cloneJSON (coalesce (ctxGet s.ctx (toDisplayString (consts.getD idx vUndef)))
              (coalesce (ctxGet s.ctx "sorted") (ctxGet s.ctx "input")))) } := by
  simp [vmStep, h8, opCONST, opGET_CTX, opSET_CTX, opMEMBER, opADD, opSUB, opMUL,
    opDIV, opCMP_EQ, opCMP_GE, opCMP_LE, opCMP_GT, opCMP_LT, opJUMP_IF_FALSE,
    opSORT, opEMIT_PREFERRED, opEMIT_TOP]

theorem vmStep_emit_top {consts : List Value} {code : List Nat} {s : VMState}
    (h8 : readU8At code s.ip = Except.ok opEMIT_TOP) :
    vmStep consts code s = (readU32At code (s.ip + 1)).map fun idx =>
      { s with
          ip := s.ip + 5,
          stack := (popV s.stack).2,
          outs := ctxSet s.outs (toDisplayString (consts.getD idx vUndef))
            (cloneJSON (popV s.stack).1) } := by
  simp [vmStep, h8, opCONST, opGET_CTX, opSET_CTX, opMEMBER, opADD, opSUB, opMUL,
    opDIV, opCMP_EQ, opCMP_GE, opCMP_LE, opCMP_GT, opCMP_LT, opJUMP_IF_FALSE,
    opSORT, opEMIT_PREFERRED, opEMIT_TOP]

theorem vmStep_unknown {consts : List Value} {code : List Nat} {s : VMState} {op : Nat}
    (h8 : readU8At code s.ip = Except.ok op)
    (n1 : op ≠ opCONST) (n2 : op ≠ opGET_CTX) (n3 : op ≠ opSET_CTX)
    (n4 : op ≠ opMEMBER) (n5 : op ≠ opADD) (n6 : op ≠ opSUB) (n7 : op ≠ opMUL)
    (n8 : op ≠ opDIV) (n9 : op ≠ opCMP_EQ) (n10 : op ≠ opCMP_GE)
    (n11 : op ≠ opCMP_LE) (n12 : op ≠ opCMP_GT) (n13 : op ≠ opCMP_LT)
    (n14 : op ≠ opJUMP_IF_FALSE) (n15 : op ≠ opSORT)
    (n16 : op ≠ opEMIT_PREFERRED) (n17 : op ≠ opEMIT_TOP) :
    vmStep consts code s = Except.ok { s with ip := (code.length : Int) } := by
  simp [vmStep, h8, n1, n2, n3, n4, n5, n6, n7, n8, n9, n10, n11, n12, n13, n14,
    n15, n16, n17]

/-! ## Claim C2: the value captured by `%out` and bare `emit` -/

/-- C2 counterexample.  The claim says the value captured by a bare `emit`
is `ctx.sorted` if present, else the raw input, else null (the
`selectPreferredValue` formula).  But `runAction` consults `ctx[name]`
first: with `x` bound to `1` and a `sorted` value present, `emit x`
captures `1`, not the sorted value. -/
theorem c2_counterexample :
    ctxGet ((runAction (Action.emit "x")
        [("x", vNum 1), ("sorted", vArr [vNum 2]), ("input", vArr [vNum 3])] []).2) "x"
      = vNum 1 ∧
    cloneJSON (selectPreferredValue
        [("x", vNum 1), ("sorted", vArr [vNum 2]), ("input", vArr [vNum 3])])
      = vArr [vNum 2] ∧
    (vNum 1 : Value) ≠ vArr [vNum 2] := by
  decide

/-- C2 as amended: an `%out` statement captures
`ctx.sorted ?? ctx.input ?? null` (the claimed formula), but a bare `emit`
— in the executor and as the `EMIT_PREFERRED` instruction in the VM —
captures `ctx[name] ?? ctx.sorted ?? ctx.input`: the claimed formula only
when the emitted name is not itself bound (non-nullishly) in the context,
and `undefined` (not null) when nothing is available. -/
theorem c2_amended :
    ∀ (ctx outputs : Ctx) (name : String),
    execStep (ctx, outputs) (Item.out name) =
      Except.ok (ctx, ctxSet outputs name (cloneJSON (selectPreferredValue ctx))) ∧
    runAction (Action.emit name) ctx outputs =
      (ctx, ctxSet outputs name (cloneJSON (coalesce (ctxGet ctx name)
        (coalesce (ctxGet ctx "sorted") (ctxGet ctx "input"))))) ∧
    ((ctxGet ctx name).nullish = true →
      (runAction (Action.emit name) ctx outputs).2 =
        ctxSet outputs name (cloneJSON
          (coalesce (ctxGet ctx "sorted") (ctxGet ctx "input")))) ∧
    (∀ (consts : List Value) (code : List Nat) (s : VMState) (idx : Nat),
      readU8At code s.ip = Except.ok opEMIT_PREFERRED →
      readU32At code (s.ip + 1) = Except.ok idx →
      vmStep consts code s = Except.ok
        { s with
            ip := s.ip + 5,
            outs := ctxSet s.outs (toDisplayString (consts.getD idx vUndef))
              (cloneJSON (coalesce (ctxGet s.ctx (toDisplayString (consts.getD idx vUndef)))
                (coalesce (ctxGet s.ctx "sorted") (ctxGet s.ctx "input")))) }) := by
  intro ctx outputs name
  refine ⟨rfl, rfl, ?_, ?_⟩
  · intro h
    simp [runAction, coalesce, h]
  · intro consts code s idx h8 h32
    simp [vmStep, h8, h32, opCONST, opGET_CTX, opSET_CTX, opMEMBER, opADD, opSUB,
      opMUL, opDIV, opCMP_EQ, opCMP_GE, opCMP_LE, opCMP_GT, opCMP_LT,
      opJUMP_IF_FALSE, opSORT, opEMIT_PREFERRED, Except.map]

/-- C2 amended, witnessed on a concrete state: an unbound name `r` with
input `7` emits the input. -/
theorem c2_amended_witness :
    (runAction (Action.emit "r") [("input", vNum 7)] ([] : Ctx)).2 = [("r", vNum 7)] := by
  have h := (c2_amended [("input", vNum 7)] [] "r").2.2.1 (by decide)
  rw [h]; decide

/-! ## Claim C6: the reserved `input` context key -/

/-- C6 counterexample.  Seeding merges an object input's top-level fields
*after* writing the reserved key, so an object with a field named `input`
shadows it: with input `{"input": 5}` the context's `input` key holds `5`,
not the raw object, on both paths. -/
theorem c6_counterexample :
    ctxGet (seedCtx [] (vObj [("input", vNum 5)])) "input" = vNum 5 ∧
    (execute
      { taskId := "t",
        input := some (vObj [("input", vNum 5)]),
        sourceOrder := [Item.input (vObj [("input", vNum 5)])] }).map
        (fun r => ctxGet r.context "input") = Except.ok (vNum 5) ∧
    (runBytecode { consts := [], code := [] } (some (vObj [("input", vNum 5)]))).map
        (fun r => ctxGet r.context "input") = Except.ok (vNum 5) ∧
    (vNum 5 : Value) ≠ vObj [("input", vNum 5)] := by
  refine ⟨by decide, rfl, rfl, by decide⟩

/-- C6 as amended: after seeding (the same logic on both paths), the
reserved `input` key holds the raw input value whenever the input is not
an object that itself contains a top-level `input` field; such a field is
merged over the reserved key and shadows it. -/
theorem c6_amended :
    ∀ (v : Value),
    (match v with
      | vObj fields => fields.lookup "input" = none
      | _ => True) →
    ctxGet (seedCtx [] v) "input" = v := by
  intro v hv
  match v with
  | vObj fields =>
      show ctxGet (ctxAssign (ctxSet [] "input" (vObj fields)) fields) "input" = vObj fields
      have key : ∀ (ctx : Ctx) (fs : List (String × Value)), fs.lookup "input" = none →
          ctxGet (ctxAssign ctx fs) "input" = ctxGet ctx "input" := by
        intro ctx fs
        induction fs generalizing ctx with
        | nil => intro _; rfl
        | cons kv rest ih =>
            intro hlk
            obtain ⟨k, w⟩ := kv
            have hk : k ≠ "input" := by
              intro hh
              subst hh
              simp [List.lookup] at hlk
            have hrest : rest.lookup "input" = none := by
              simpa [List.lookup, beq_eq_false_iff_ne.mpr (fun hh => hk hh.symm)] using hlk
            show ctxGet (ctxAssign (ctxSet ctx k w) rest) "input" = ctxGet ctx "input"
            rw [ih (ctxSet ctx k w) hrest,
              ctxGet_ctxSet_ne ctx w (fun hh => hk hh.symm)]
      rw [key _ fields hv, ctxGet_ctxSet_self]
  | vUndef => rfl
  | vNull => rfl
  | vBool b => rfl
  | vNum q => rfl
  | vNaN => rfl
  | vStr s => rfl
  | vArr l => rfl

/-- C6 amended, witnessed: a plain object input without an `input` field
keeps the raw input under the reserved key. -/
theorem c6_amended_witness :
    ctxGet (seedCtx [] (vObj [("x", vNum 1)])) "input" = vObj [("x", vNum 1)] :=
  c6_amended (vObj [("x", vNum 1)]) (by decide)

/-! ## Claim C7: sorting leaves the original list untouched -/

/-- C7: a successful `sort` model application — in the executor and as the
VM's `SORT` instruction — only (re)writes the `sorted` context key: every
other key, and in particular the inferred list (the array input, the
`list` context value, or the object input's `list` field), is unchanged;
the stored result is a freshly built array. -/
theorem c7_sort_frame :
    (∀ (m : ModelSpec) (ctx ctx' : Ctx), m.type = "sort" →
      applyModel m ctx = Except.ok ctx' →
      (∀ k, k ≠ "sorted" → ctxGet ctx' k = ctxGet ctx k) ∧
      inferListFromContext ctx' = inferListFromContext ctx ∧
      ∃ res, ctx' = ctxSet ctx "sorted" (vArr res)) ∧
    (∀ (consts : List Value) (code : List Nat) (s s' : VMState),
      readU8At code s.ip = Except.ok opSORT →
      vmStep consts code s = Except.ok s' →
      (∀ k, k ≠ "sorted" → ctxGet s'.ctx k = ctxGet s.ctx k) ∧
      inferListFromContext s'.ctx = inferListFromContext s.ctx ∧
      ∃ res, s'.ctx = ctxSet s.ctx "sorted" (vArr res)) := by
  constructor
  · intro m ctx ctx' htype happ
    simp only [applyModel, htype, if_pos] at happ
    rcases hinf : inferListFromContext ctx with _ | list
    · rw [hinf] at happ
      exact absurd happ (by simp)
    · rw [hinf] at happ
      split_ifs at happ with h1 h2
      · obtain rfl := Except.ok.inj happ
        exact ⟨fun k hk => ctxGet_ctxSet_ne ctx _ hk,
          (inferList_ctxSet_sorted ctx _).trans hinf, _, rfl⟩
      · obtain rfl := Except.ok.inj happ
        exact ⟨fun k hk => ctxGet_ctxSet_ne ctx _ hk,
          (inferList_ctxSet_sorted ctx _).trans hinf, _, rfl⟩
  · intro consts code s s' h8 hstep
    rw [vmStep_sort h8] at hstep
    rcases h1 : readU32At code (s.ip + 1) with e1 | idx1 <;> rw [h1] at hstep
    · exact absurd hstep (by simp)
    · rcases h2 : readU32At code (s.ip + 5) with e2 | idx2 <;> rw [h2] at hstep
      · exact absurd hstep (by simp)
      · rcases hinf : inferListFromContext s.ctx with _ | list <;>
          simp only [hinf] at hstep
        · exact absurd hstep (by simp)
        · obtain rfl := Except.ok.inj hstep
          exact ⟨fun k hk => ctxGet_ctxSet_ne s.ctx _ hk,
            (inferList_ctxSet_sorted s.ctx _).trans hinf, _, rfl⟩

/-! ## Claim C4: emitted outputs are immune to later mutation -/

/-- The executor's fold absorbs an error accumulator. -/
theorem foldSteps_error (rest : List Item) (e : String) :
    rest.foldl
      (fun acc it =>
        match acc with
        | Except.ok st => execStep st it
        | Except.error e => Except.error e)
      (Except.error e) = Except.error e := by
  induction rest with
  | nil => rfl
  | cons it rest ih => rw [List.foldl_cons]; exact ih

/-- Unfolding of the executor's fold over a cons cell. -/
theorem execSteps_cons (st : Ctx × Ctx) (it : Item) (rest : List Item) :
    execSteps st (it :: rest) =
      (match execStep st it with
        | Except.ok st' => execSteps st' rest
        | Except.error e => Except.error e) := by
  rcases h : execStep st it with e | st'
  · show List.foldl _ (execStep st it) rest = _
    rw [h]
    exact foldSteps_error rest e
  · show List.foldl _ (execStep st it) rest = _
    rw [h]
    rfl

/-- C4: on both paths, an Outputs entry, once written, is changed by no
later statement or instruction except an explicit re-emit under the same
name — in particular no context mutation can retroactively change it.
Clause 1: one executor step; clause 2: any run of remaining statements
none of which emits to the name; clause 3: one VM instruction. -/
theorem c4_outputs_persist :
    (∀ (st : Ctx × Ctx) (it : Item) (st' : Ctx × Ctx) (k : String) (v : Value),
      execStep st it = Except.ok st' → (st.2).lookup k = some v →
      (st'.2).lookup k = some v ∨ itemWritesOut it = some k) ∧
    (∀ (items : List Item) (st st' : Ctx × Ctx) (k : String) (v : Value),
      execSteps st items = Except.ok st' → (st.2).lookup k = some v →
      (∀ it ∈ items, itemWritesOut it ≠ some k) → (st'.2).lookup k = some v) ∧
    (∀ (consts : List Value) (code : List Nat) (s s' : VMState) (k : String) (v : Value),
      vmStep consts code s = Except.ok s' → (s.outs).lookup k = some v →
      (s'.outs).lookup k = some v ∨ vmWritesOut consts code s k) := by
  have step1 : ∀ (st : Ctx × Ctx) (it : Item) (st' : Ctx × Ctx) (k : String) (v : Value),
      execStep st it = Except.ok st' → (st.2).lookup k = some v →
      (st'.2).lookup k = some v ∨ itemWritesOut it = some k := by
    intro ⟨ctx, outputs⟩ it st' k v hstep hlk
    cases it with
    | input _ => obtain rfl := Except.ok.inj hstep; exact Or.inl hlk
    | cond _ => obtain rfl := Except.ok.inj hstep; exact Or.inl hlk
    | node _ => obtain rfl := Except.ok.inj hstep; exact Or.inl hlk
    | edge _ => obtain rfl := Except.ok.inj hstep; exact Or.inl hlk
    | letS s => obtain rfl := Except.ok.inj hstep; exact Or.inl hlk
    | model m =>
        rcases h : applyModel m ctx with e | c'
        · rw [show execStep (ctx, outputs) (Item.model m)
              = (applyModel m ctx).map (fun ctx => (ctx, outputs)) from rfl, h] at hstep
          exact absurd hstep (exceptMap_error_ne_ok _ _ _)
        · rw [show execStep (ctx, outputs) (Item.model m)
              = (applyModel m ctx).map (fun ctx => (ctx, outputs)) from rfl, h] at hstep
          obtain rfl := Except.ok.inj hstep
          exact Or.inl hlk
    | out n =>
        obtain rfl := Except.ok.inj hstep
        by_cases hk : k = n
        · exact Or.inr (by simp [itemWritesOut, hk])
        · exact Or.inl (by rwa [lookup_ctxSet_ne _ _ hk])
    | action a =>
        by_cases hc : evalCondition a.condition ctx
        · rw [show execStep (ctx, outputs) (Item.action a)
              = (if evalCondition a.condition ctx then Except.ok (runAction a.action ctx outputs)
                 else Except.ok (ctx, outputs)) from rfl, if_pos hc] at hstep
          obtain rfl := Except.ok.inj hstep
          cases ha : a.action with
          | emit n =>
              by_cases hk : k = n
              · exact Or.inr (by simp [itemWritesOut, ha, hk])
              · refine Or.inl ?_
                simp only [runAction]
                rwa [lookup_ctxSet_ne _ _ hk]
          | log m =>
              refine Or.inl ?_
              simp only [runAction]
              exact hlk
          | set n w =>
              refine Or.inl ?_
              simp only [runAction]
              exact hlk
        · rw [show execStep (ctx, outputs) (Item.action a)
              = (if evalCondition a.condition ctx then Except.ok (runAction a.action ctx outputs)
                 else Except.ok (ctx, outputs)) from rfl, if_neg hc] at hstep
          obtain rfl := Except.ok.inj hstep
          exact Or.inl hlk
  refine ⟨step1, ?_, ?_⟩
  · intro items
    induction items with
    | nil =>
        intro st st' k v hrun hlk _
        obtain rfl := Except.ok.inj hrun
        exact hlk
    | cons it rest ih =>
        intro st st' k v hrun hlk hnw
        rw [execSteps_cons] at hrun
        rcases h : execStep st it with e | st1 <;> rw [h] at hrun
        · exact absurd hrun (by simp)
        · rcases step1 st it st1 k v h hlk with h1 | h1
          · exact ih st1 st' k v hrun h1 (fun i hi => hnw i (List.mem_cons_of_mem _ hi))
          · exact absurd h1 (hnw it (List.mem_cons_self _ _))
  · intro consts code s s' k v hstep hlk
    rcases h8 : readU8At code s.ip with e | op
    · rw [vmStep_read8_error h8] at hstep
      exact absurd hstep (by simp)
    · by_cases hc : op = opCONST
      · subst hc
        rw [vmStep_const h8] at hstep
        rcases h32 : readU32At code (s.ip + 1) with e | idx <;> rw [h32] at hstep
        · exact absurd hstep (exceptMap_error_ne_ok _ _ _)
        · obtain rfl := Except.ok.inj hstep
          exact Or.inl hlk
      · by_cases hc2 : op = opGET_CTX
        · subst hc2
          rw [vmStep_get_ctx h8] at hstep
          rcases h32 : readU32At code (s.ip + 1) with e | idx <;> rw [h32] at hstep
          · exact absurd hstep (exceptMap_error_ne_ok _ _ _)
          · obtain rfl := Except.ok.inj hstep
            exact Or.inl hlk
        · by_cases hc3 : op = opSET_CTX
          · subst hc3
            rw [vmStep_set_ctx h8] at hstep
            rcases h32 : readU32At code (s.ip + 1) with e | idx <;> rw [h32] at hstep
            · exact absurd hstep (exceptMap_error_ne_ok _ _ _)
            · obtain rfl := Except.ok.inj hstep
              exact Or.inl hlk
          · by_cases hc4 : op = opMEMBER
            · subst hc4
              rw [vmStep_member h8] at hstep
              rcases h32 : readU32At code (s.ip + 1) with e | idx <;> rw [h32] at hstep
              · exact absurd hstep (exceptMap_error_ne_ok _ _ _)
              · obtain rfl := Except.ok.inj hstep
                exact Or.inl hlk
            · by_cases hc5 : op = opADD
              · subst hc5
                rw [vmStep_add h8] at hstep
                obtain rfl := Except.ok.inj hstep
                exact Or.inl hlk
              · by_cases hc6 : op = opSUB
                · subst hc6
                  rw [vmStep_sub h8] at hstep
                  obtain rfl := Except.ok.inj hstep
                  exact Or.inl hlk
                · by_cases hc7 : op = opMUL
                  · subst hc7
                    rw [vmStep_mul h8] at hstep
                    obtain rfl := Except.ok.inj hstep
                    exact Or.inl hlk
                  · by_cases hc8 : op = opDIV
                    · subst hc8
                      rw [vmStep_div h8] at hstep
                      obtain rfl := Except.ok.inj hstep
                      exact Or.inl hlk
                    · by_cases hc9 : op = opCMP_EQ
                      · subst hc9
                        rw [vmStep_cmp_eq h8] at hstep
                        obtain rfl := Except.ok.inj hstep
                        exact Or.inl hlk
                      · by_cases hc10 : op = opCMP_GE
                        · subst hc10
                          rw [vmStep_cmp_ge h8] at hstep
                          obtain rfl := Except.ok.inj hstep
                          exact Or.inl hlk
                        · by_cases hc11 : op = opCMP_LE
                          · subst hc11
                            rw [vmStep_cmp_le h8] at hstep
                            obtain rfl := Except.ok.inj hstep
                            exact Or.inl hlk
                          · by_cases hc12 : op = opCMP_GT
                            · subst hc12
                              rw [vmStep_cmp_gt h8] at hstep
                              obtain rfl := Except.ok.inj hstep
                              exact Or.inl hlk
                            · by_cases hc13 : op = opCMP_LT
                              · subst hc13
                                rw [vmStep_cmp_lt h8] at hstep
                                obtain rfl := Except.ok.inj hstep
                                exact Or.inl hlk
                              · by_cases hc14 : op = opJUMP_IF_FALSE
                                · subst hc14
                                  rw [vmStep_jump_if_false h8] at hstep
                                  rcases h32 : readI32At code (s.ip + 1) with e | rel <;>
                                    rw [h32] at hstep
                                  · exact absurd hstep (exceptMap_error_ne_ok _ _ _)
                                  · obtain rfl := Except.ok.inj hstep
                                    exact Or.inl hlk
                                · by_cases hc15 : op = opSORT
                                  · subst hc15
                                    rw [vmStep_sort h8] at hstep
                                    rcases h1 : readU32At code (s.ip + 1) with e | i1 <;>
                                      rw [h1] at hstep
                                    · exact absurd hstep (by simp)
                                    · rcases h2 : readU32At code (s.ip + 5) with e | i2 <;>
                                        rw [h2] at hstep
                                      · exact absurd hstep (by simp)
                                      · rcases hinf : inferListFromContext s.ctx with _ | l <;>
                                          simp only [hinf] at hstep
                                        · exact absurd hstep (by simp)
                                        · obtain rfl := Except.ok.inj hstep
                                          exact Or.inl hlk
                                  · by_cases hc16 : op = opEMIT_PREFERRED
                                    · subst hc16
                                      rw [vmStep_emit_preferred h8] at hstep
                                      rcases h32 : readU32At code (s.ip + 1) with e | idx <;>
                                        rw [h32] at hstep
                                      · exact absurd hstep (exceptMap_error_ne_ok _ _ _)
                                      · by_cases hk : toDisplayString (consts.getD idx vUndef) = k
                                        · exact Or.inr ⟨opEMIT_PREFERRED, idx, h8, Or.inl rfl, h32, hk⟩
                                        · obtain rfl := Except.ok.inj hstep
                                          refine Or.inl ?_
                                          rwa [lookup_ctxSet_ne _ _ (fun hh => hk hh.symm)]
                                    · by_cases hc17 : op = opEMIT_TOP
                                      · subst hc17
                                        rw [vmStep_emit_top h8] at hstep
                                        rcases h32 : readU32At code (s.ip + 1) with e | idx <;>
                                          rw [h32] at hstep
                                        · exact absurd hstep (exceptMap_error_ne_ok _ _ _)
                                        · by_cases hk : toDisplayString (consts.getD idx vUndef) = k
                                          · exact Or.inr ⟨opEMIT_TOP, idx, h8, Or.inr rfl, h32, hk⟩
                                          · obtain rfl := Except.ok.inj hstep
                                            refine Or.inl ?_
                                            rwa [lookup_ctxSet_ne _ _ (fun hh => hk hh.symm)]
                                      · rw [vmStep_unknown h8 hc hc2 hc3 hc4 hc5 hc6 hc7 hc8
                                          hc9 hc10 hc11 hc12 hc13 hc14 hc15 hc16 hc17] at hstep
                                        obtain rfl := Except.ok.inj hstep
                                        exact Or.inl hlk

/-- C4, witnessed: an already-written entry `("a", 1)` survives an
executor step that mutates the context (a `let` statement). -/
theorem c4_outputs_persist_witness :
    ([("a", vNum 1)] : Ctx).lookup "a" = some (vNum 1) := by
  have h := c4_outputs_persist.1 (([] : Ctx), ([("a", vNum 1)] : Ctx))
    (Item.letS { name := "x", expr := Expr.null })
    (ctxSet [] "x" vNull, [("a", vNum 1)]) "a" (vNum 1) rfl (by decide)
  rcases h with h | h
  · exact h
  · exact absurd h (by decide)

/-! ## Claim C3: unknown sort algorithm names -/

/-- C3 counterexample.  The claim says an unknown algorithm fails on
either path even with an array input available.  The tree-walking
executor indeed fails, but the VM's `SORT` case treats every non-`native`
algorithm as bubble sort: running the bytecode compiled from
`%model:sort{algorithm=quick}` over `[2,1]` succeeds and emits `[1,2]`. -/
theorem c3_counterexample :
    parseSource srcQuickAlgo = Except.ok astQuick ∧
    execute astQuick = Except.error "Unknown sort algorithm: quick" ∧
    compileToBytecode astQuick = modQuick ∧
    runBytecode modQuick astQuick.input =
      Except.ok
        { outputs := [("sorted", Value.vArr [Value.vNum 1, Value.vNum 2])],
          context := [("input", Value.vArr [Value.vNum 2, Value.vNum 1]),
                      ("sorted", Value.vArr [Value.vNum 1, Value.vNum 2])] } :=
  ⟨by decide, by decide, by decide, by decide⟩

/-- C3 as amended: with an array-shaped input available, a `sort` model
whose algorithm name is neither `bubble` nor `native` makes the
tree-walking executor fail with the runtime error, while the VM's `SORT`
instruction silently falls back to bubble sort for any non-`native`
algorithm and succeeds. -/
theorem c3_amended :
    (∀ (m : ModelSpec) (ctx : Ctx) (l : List Value), m.type = "sort" →
      jsOr (ctxGet m.args "algorithm") (vStr "bubble") ≠ vStr "bubble" →
      jsOr (ctxGet m.args "algorithm") (vStr "bubble") ≠ vStr "native" →
      inferListFromContext ctx = some l →
      applyModel m ctx = Except.error ("Unknown sort algorithm: "
        ++ toDisplayString (jsOr (ctxGet m.args "algorithm") (vStr "bubble")))) ∧
    (∀ (consts : List Value) (code : List Nat) (s : VMState)
        (algoIdx keyIdx : Nat) (list : List Value),
      readU8At code s.ip = Except.ok opSORT →
      readU32At code (s.ip + 1) = Except.ok algoIdx →
      readU32At code (s.ip + 5) = Except.ok keyIdx →
      consts.getD algoIdx vUndef ≠ vStr "native" →
      inferListFromContext s.ctx = some list →
      vmStep consts code s = Except.ok
        { s with
            ip := s.ip + 9,
            ctx := ctxSet s.ctx "sorted" (vArr (bubbleSort list
              (if keyIdx = 0xFFFFFFFF then vUndef else consts.getD keyIdx vUndef))) }) := by
  constructor
  · intro m ctx l htype hnb hnn hinf
    simp only [applyModel, htype, if_pos, hinf]
    rw [if_neg hnb, if_neg hnn]
  · intro consts code s algoIdx keyIdx list h8 h1 h2 halgo hinf
    rw [vmStep_sort h8, h1, h2]
    simp only [hinf, if_neg halgo]

/-- C3 amended, witnessed: algorithm `quick` over the context seeded with
`[3,2]` errors in the executor and bubble-sorts in the VM. -/
theorem c3_amended_witness :
    applyModel { type := "sort", args := [("algorithm", vStr "quick")] }
      [("input", vArr [vNum 3, vNum 2])] =
      Except.error "Unknown sort algorithm: quick" ∧
    vmStep [vStr "quick"] ([opSORT] ++ u32Bytes 0 ++ u32Bytes 0xFFFFFFFF)
      { ip := 0, stack := [], ctx := [("input", vArr [vNum 3, vNum 2])], outs := [] } =
      Except.ok
        { ip := 9, stack := [],
          ctx := [("input", vArr [vNum 3, vNum 2]),
                  ("sorted", vArr [vNum 2, vNum 3])], outs := [] } := by
  constructor
  · exact c3_amended.1 { type := "sort", args := [("algorithm", vStr "quick")] }
      [("input", vArr [vNum 3, vNum 2])] [vNum 3, vNum 2]
      rfl (by decide) (by decide) (by decide)
  · have h := c3_amended.2 [vStr "quick"] ([opSORT] ++ u32Bytes 0 ++ u32Bytes 0xFFFFFFFF)
      { ip := 0, stack := [], ctx := [("input", vArr [vNum 3, vNum 2])], outs := [] }
      0 0xFFFFFFFF [vNum 3, vNum 2] (by decide) (by decide) (by decide)
      (by decide) (by decide)
    rw [h]
    decide

/-! ## Claim C9: the `%in:` payload boundary -/

/-- C9 counterexample.  The claim's stop set includes every directive the
parser recognizes, `%in:` among them, but the code's stop regex
(`%model:|%out:|@|\+|->|\?|!|let\b`) omits `%in:`: a following `%in:`
line is consumed into the payload, so the source
`@t:` / `%in:` / `1` / `%in: 2` / `%out: input` — whose payload would be
the valid literal `1` under the claimed boundary — is a parse error. -/
theorem c9_counterexample :
    claimPayloadStop "%in: 2" = true ∧
    isPayloadStop "%in: 2" = false ∧
    readPayloadLines ["1", "%in: 2", "%out: input"] =
      (["1", "%in: 2"], ["%out: input"]) ∧
    parseSource srcInNotStop = Except.error "Invalid %in JSON payload" :=
  ⟨by decide, by decide, by decide, by decide⟩

/-- C9 as amended: the payload consumes raw lines exactly until the
first line matching the code's stop set — `%model:`, `%out:`, `@`, `+`,
`->`, `?`, `!` or a `let` statement, but *not* a further `%in:` — or end
of input (consumed and remaining lines partition the input, no consumed
line is a stop line, the first remaining line if any is); the joined,
trimmed payload errors when empty, parses as one JSON literal when
valid, errors otherwise; a payload error propagates out of the
statement loop, so the source yields no program. -/
theorem c9_amended :
    (∀ lines : List String,
      lines = (readPayloadLines lines).1 ++ (readPayloadLines lines).2 ∧
      (∀ l ∈ (readPayloadLines lines).1, isPayloadStop l = false) ∧
      ((readPayloadLines lines).2 = [] ∨
        ∃ l rest, (readPayloadLines lines).2 = l :: rest ∧ isPayloadStop l = true)) ∧
    (∀ lines buf rest, readPayloadLines lines = (buf, rest) →
      strTrim (strIntercalateNL buf) = "" →
      readBlockPayload lines = Except.error "Empty %in block") ∧
    (∀ lines buf rest v, readPayloadLines lines = (buf, rest) →
      strTrim (strIntercalateNL buf) ≠ "" →
      jsonParse (strTrim (strIntercalateNL buf)) = some v →
      readBlockPayload lines = Except.ok (v, rest)) ∧
    (∀ lines buf rest, readPayloadLines lines = (buf, rest) →
      strTrim (strIntercalateNL buf) ≠ "" →
      jsonParse (strTrim (strIntercalateNL buf)) = none →
      readBlockPayload lines = Except.error "Invalid %in JSON payload") ∧
    (∀ (fuel : Nat) (line : String) (rest : List String) (e : String),
      isBlankOrComment line = false →
      strStartsWith (strTrim line) "%in:" = true →
      readBlockPayload rest = Except.error e →
      parseItems (fuel + 1) (line :: rest) = Except.error e) := by
  refine ⟨?_, ?_, ?_, ?_, ?_⟩
  · intro lines
    refine ⟨?_, ?_, ?_⟩
    · simp only [readPayloadLines]
      exact (List.takeWhile_append_dropWhile _ _).symm
    · simp only [readPayloadLines]
      intro l hl
      have := List.mem_takeWhile_imp hl
      simpa using this
    · simp only [readPayloadLines]
      induction lines with
      | nil => exact Or.inl rfl
      | cons a as ih =>
          by_cases h : isPayloadStop a = true
          · exact Or.inr ⟨a, as, by simp [List.dropWhile_cons, h], h⟩
          · simpa [List.dropWhile_cons, h] using ih
  · intro lines buf rest h he
    simp only [readBlockPayload]
    rw [h]
    simp [he]
  · intro lines buf rest v h hne hj
    simp only [readBlockPayload]
    rw [h]
    simp [hne, hj]
  · intro lines buf rest h hne hj
    simp only [readBlockPayload]
    rw [h]
    simp [hne, hj]
  · intro fuel line rest e hbc hin hrb
    simp only [parseItems, List.dropWhile_cons, hbc]
    simp [hbc, hin, hrb]

/-- C9 amended, witnessed: a valid one-object payload stopping at
`%out:`, the counterexample payload that swallows `%in: 2`, and an empty
payload erroring out of the statement loop. -/
theorem c9_amended_witness :
    readBlockPayload ["\x7b\"a\":1\x7d", "%out: x"] =
      Except.ok (Value.vObj [("a", Value.vNum 1)], ["%out: x"]) ∧
    readBlockPayload ["1", "%in: 2", "%out: x"] =
      Except.error "Invalid %in JSON payload" ∧
    parseItems 2 ["%in:", "%model:sort"] = Except.error "Empty %in block" :=
  ⟨c9_amended.2.2.1 ["\x7b\"a\":1\x7d", "%out: x"] ["\x7b\"a\":1\x7d"] ["%out: x"]
      (Value.vObj [("a", Value.vNum 1)]) (by decide) (by decide) (by decide),
   c9_amended.2.2.2.1 ["1", "%in: 2", "%out: x"] ["1", "%in: 2"] ["%out: x"]
      (by decide) (by decide) (by decide),
   c9_amended.2.2.2.2 1 "%in:" ["%model:sort"] "Empty %in block"
      (by decide) (by decide) (by decide)⟩

/-! ## Claim C10: conditions without a comparison operator -/

/-- `takeWhile` passes over a prefix wholly satisfying the predicate. -/
theorem takeWhile_append_of_all {α : Type} (p : α → Bool) (l1 l2 : List α)
    (h : ∀ a ∈ l1, p a = true) :
    (l1 ++ l2).takeWhile p = l1 ++ l2.takeWhile p := by
  induction l1 with
  | nil => simp
  | cons a t ih =>
      simp [List.takeWhile_cons, h a (List.mem_cons_self a t),
        ih (fun b hb => h b (List.mem_cons_of_mem a hb))]

/-- `dropWhile` drops a prefix wholly satisfying the predicate. -/
theorem dropWhile_append_of_all {α : Type} (p : α → Bool) (l1 l2 : List α)
    (h : ∀ a ∈ l1, p a = true) :
    (l1 ++ l2).dropWhile p = l2.dropWhile p := by
  induction l1 with
  | nil => simp
  | cons a t ih =>
      simp [List.dropWhile_cons, h a (List.mem_cons_self a t),
        ih (fun b hb => h b (List.mem_cons_of_mem a hb))]

/-- No whitespace character continues an identifier. -/
theorem whitespace_not_identCont (c : Char) (h : c.isWhitespace = true) :
    isIdentCont c = false := by
  simp [Char.isWhitespace] at h
  rcases h with ((h | h) | h) | h <;> subst h <;> decide

/-- The operator alternation fails on any head besides `=`, `>`, `<`. -/
theorem takeCmpOp_none (r : Char) (rt : List Char)
    (h1 : r ≠ '=') (h2 : r ≠ '>') (h3 : r ≠ '<') :
    takeCmpOp (r :: rt) = none := by
  unfold takeCmpOp
  split <;> simp_all

/-- C10, confirmed: a condition text made of an identifier, whitespace
and further text that opens with no operator character (`=`, `>`, `<`)
parses without a syntax error into a condition with no operator (the
trailing text is still captured as its scalar right-hand side), and
evaluating that condition returns the truthiness of the named context
variable alone — the right-hand side is ignored. -/
theorem c10_condition_no_operator :
    ∀ (name : String) (w : Char) (wt : List Char) (r : Char) (rt : List Char) (ctx : Ctx),
      isIdent name = true →
      w.isWhitespace = true → (∀ c ∈ wt, c.isWhitespace = true) →
      r ≠ '=' → r ≠ '>' → r ≠ '<' → r.isWhitespace = false →
      parseCondition (String.mk (name.toList ++ (w :: wt) ++ (r :: rt))) =
        Except.ok { left := name, op := none,
                    right := some (parseScalar (strTrim (String.mk (r :: rt)))) } ∧
      evalCondition { left := name, op := none,
                      right := some (parseScalar (strTrim (String.mk (r :: rt)))) } ctx =
        (ctxGet ctx name).truthy := by
  intro name w wt r rt ctx hname hw hwt hr1 hr2 hr3 hr4
  obtain ⟨data⟩ := name
  refine ⟨?_, rfl⟩
  cases data with
  | nil => simp [isIdent, takeIdent] at hname
  | cons c cs =>
  by_cases hstart : isIdentStart c = true
  · cases hd : List.dropWhile isIdentCont cs with
    | cons d ds => simp [isIdent, takeIdent, hstart, hd] at hname
    | nil =>
        have hall : ∀ x ∈ cs, isIdentCont x = true :=
          List.dropWhile_eq_nil_iff.mp hd
        have htake : List.takeWhile isIdentCont cs = cs := by
          have h2 := List.takeWhile_append_dropWhile (p := isIdentCont) (l := cs)
          rw [hd, List.append_nil] at h2
          exact h2
        have hwall : ∀ x ∈ w :: wt, x.isWhitespace = true := by
          intro x hx
          rcases List.mem_cons.mp hx with h | h
          · subst h; exact hw
          · exact hwt x h
        have hcontw : isIdentCont w = false := whitespace_not_identCont w hw
        have hTI : takeIdent (c :: (cs ++ w :: (wt ++ r :: rt)))
            = some (String.mk (c :: cs), w :: (wt ++ r :: rt)) := by
          simp only [takeIdent, hstart, if_true]
          rw [show cs ++ w :: (wt ++ r :: rt) = cs ++ ((w :: wt) ++ (r :: rt)) by simp]
          rw [takeWhile_append_of_all _ _ _ hall, dropWhile_append_of_all _ _ _ hall]
          simp [List.takeWhile_cons, List.dropWhile_cons, hcontw, htake]
        have hdw : List.dropWhile Char.isWhitespace (w :: (wt ++ r :: rt)) = r :: rt := by
          have h3 := dropWhile_append_of_all Char.isWhitespace (w :: wt) (r :: rt) hwall
          rw [List.cons_append] at h3
          rw [h3, List.dropWhile_cons, hr4]
          simp
        simp only [parseCondition]
        rw [show ({ data := (String.mk (c :: cs)).toList ++ (w :: wt) ++ (r :: rt) } : String).toList
              = c :: (cs ++ w :: (wt ++ r :: rt)) from by simp]
        rw [hTI]
        simp only [hdw, takeCmpOp_none r rt hr1 hr2 hr3]
        simp [List.dropWhile_cons, hr4]
  · simp [isIdent, takeIdent, hstart] at hname

/-- C10, witnessed on the claim's own example: `confidence 0.8` parses
to the operatorless condition and evaluates to the truthiness of
`confidence`. -/
theorem c10_condition_no_operator_witness :
    parseCondition "confidence 0.8" =
      Except.ok { left := "confidence", op := none,
                  right := some (Value.vNum (ratNormalize 4 5)) } ∧
    evalCondition { left := "confidence", op := none,
                    right := some (Value.vNum (ratNormalize 4 5)) }
      [("confidence", Value.vNum (ratNormalize 4 5))] = true := by
  have h := c10_condition_no_operator "confidence" ' ' [] '0' ['.', '8']
      [("confidence", Value.vNum (ratNormalize 4 5))]
      (by decide) (by decide) (by decide) (by decide) (by decide) (by decide) (by decide)
  constructor
  · have hs : ("confidence 0.8" : String)
        = String.mk ("confidence".toList ++ (' ' :: []) ++ ('0' :: ['.', '8'])) := rfl
    rw [hs, h.1]
    decide
  · decide

/-! ## Claim C5: bubble sort -/

/-- One bubble pass permutes the list. -/
theorem bubblePass_perm (key : Value) :
    ∀ (k : Nat) (l : List Value), (bubblePass key l k).1.Perm l := by
  intro k
  induction k with
  | zero => intro l; simp [bubblePass]
  | succ k ih =>
      intro l
      match l with
      | [] => simp [bubblePass]
      | [x] => simp [bubblePass]
      | x :: y :: t =>
          rcases hr : bubblePass key (x :: t) k with ⟨r, sw1⟩
          rcases hr2 : bubblePass key (y :: t) k with ⟨r2, sw2⟩
          by_cases h : jsGt (getv key x) (getv key y) = true
          · simp only [bubblePass, h, if_true, hr]
            have ihx := ih (x :: t)
            rw [hr] at ihx
            exact (ihx.cons y).trans (List.Perm.swap x y t)
          · simp only [bubblePass, h, if_false, hr2, Bool.false_eq_true]
            have ihy := ih (y :: t)
            rw [hr2] at ihy
            exact ihy.cons x

/-- A pass over the first `k` adjacent pairs leaves positions past `k`
untouched. -/
theorem bubblePass_drop (key : Value) :
    ∀ (k : Nat) (l : List Value), (bubblePass key l k).1.drop (k + 1) = l.drop (k + 1) := by
  intro k
  induction k with
  | zero => intro l; simp [bubblePass]
  | succ k ih =>
      intro l
      match l with
      | [] => simp [bubblePass]
      | [x] => simp [bubblePass]
      | x :: y :: t =>
          rcases hr : bubblePass key (x :: t) k with ⟨r, sw1⟩
          rcases hr2 : bubblePass key (y :: t) k with ⟨r2, sw2⟩
          by_cases h : jsGt (getv key x) (getv key y) = true
          · simp only [bubblePass, h, if_true, hr]
            have ihx := ih (x :: t)
            rw [hr] at ihx
            simpa using ihx
          · simp only [bubblePass, h, if_false, Bool.false_eq_true, hr2]
            have ihy := ih (y :: t)
            rw [hr2] at ihy
            simpa using ihy

/-- Permuted lists with an identical suffix have permuted prefixes. -/
theorem take_perm_of_perm_of_drop_eq (n : Nat) {l l' : List Value}
    (hp : l'.Perm l) (hd : l'.drop n = l.drop n) : (l'.take n).Perm (l.take n) := by
  have h1 := List.take_append_drop n l'
  have h2 := List.take_append_drop n l
  have hp2 : (l'.take n ++ l.drop n).Perm (l.take n ++ l.drop n) := by
    rw [← hd] at *
    rw [h1, h2]
    exact hp
  exact (List.perm_append_right_iff _).mp hp2

/-- On numeric comparison keys, the code's ordering is `≤` on `ℚ`. -/
theorem keyLe_num {key a b : Value} {qa qb : ℚ}
    (ha : getv key a = vNum qa) (hb : getv key b = vNum qb) :
    KeyLe key a b ↔ qa ≤ qb := by
  unfold KeyLe
  rw [ha, hb]
  simp only [jsGt, jsCompare, toPrimitive, toNumber, decide_eq_true_eq,
    Option.some.injEq, compare_gt_iff_gt]
  exact not_lt


/-- A swap-free pass returns its input, whose compared region is then
adjacent-sorted. -/
theorem bubblePass_noswap (key : Value) :
    ∀ (k : Nat) (l l' : List Value), bubblePass key l k = (l', false) →
      l' = l ∧ List.Chain' (fun a b => KeyLe key a b) (l.take (k + 1)) := by
  intro k
  induction k with
  | zero =>
      intro l l' h
      simp [bubblePass] at h
      refine ⟨by simp_all, ?_⟩
      match l with
      | [] => simp
      | a :: t => simp [List.take]
  | succ k ih =>
      intro l l' h
      match l with
      | [] =>
          simp [bubblePass] at h
          exact ⟨by simp_all, by simp⟩
      | [x] =>
          simp [bubblePass] at h
          exact ⟨by simp_all, by simp [List.take]⟩
      | x :: y :: t =>
          by_cases hgt : jsGt (getv key x) (getv key y) = true
          · rcases hr : bubblePass key (x :: t) k with ⟨r, sw1⟩
            simp only [bubblePass, hgt, if_true, hr] at h
            exact absurd (congrArg Prod.snd h) (by simp)
          · rcases hr : bubblePass key (y :: t) k with ⟨r, sw⟩
            simp only [bubblePass, hgt, if_false, Bool.false_eq_true, hr] at h
            rw [Prod.mk.injEq] at h
            obtain ⟨h1, h2⟩ := h
            obtain ⟨hre, hchain⟩ := ih (y :: t) r (by rw [hr, h2])
            subst hre
            refine ⟨h1.symm, ?_⟩
            rw [List.take_succ_cons]
            rw [List.take_succ_cons] at hchain ⊢
            exact List.Chain'.cons hgt hchain


/-- Adjacent sortedness is global sortedness when the comparison keys
are numeric (where the key order is transitive). -/
theorem chain'_pairwise_num (key : Value) :
    ∀ (l : List Value), (∀ x ∈ l, NumKeyed key x) →
      List.Chain' (fun a b => KeyLe key a b) l → l.Pairwise (KeyLe key) := by
  intro l
  induction l with
  | nil => intro _ _; exact List.Pairwise.nil
  | cons a t ih =>
      intro hnum hchain
      match t, hchain with
      | [], _ => simp
      | b :: t2, hchain =>
          rw [List.chain'_cons] at hchain
          obtain ⟨hab, hchain2⟩ := hchain
          have hnum2 : ∀ x ∈ b :: t2, NumKeyed key x :=
            fun x hx => hnum x (List.mem_cons_of_mem a hx)
          have hp2 := ih hnum2 hchain2
          refine List.Pairwise.cons ?_ hp2
          intro y hy
          obtain ⟨qa, hqa⟩ := hnum a (List.mem_cons_self a _)
          obtain ⟨qb, hqb⟩ := hnum b (List.mem_cons_of_mem a (List.mem_cons_self b _))
          rcases List.mem_cons.mp hy with h | h
          · subst h; exact hab
          · obtain ⟨qy, hqy⟩ := hnum2 y (List.mem_cons_of_mem b h)
            have h1 : qa ≤ qb := (keyLe_num hqa hqb).mp hab
            have h2 : qb ≤ qy := (keyLe_num hqb hqy).mp
              ((List.pairwise_cons.mp hp2).1 y h)
            exact (keyLe_num hqa hqy).mpr (h1.trans h2)

/-- After a pass over `k` pairs with numeric keys, the last element of
the compared region bounds the whole region from above. -/
theorem bubblePass_champion (key : Value) :
    ∀ (k : Nat) (l l' : List Value) (sw : Bool), bubblePass key l k = (l', sw) →
      (∀ x ∈ l, NumKeyed key x) →
      ∀ x ∈ l'.take (k + 1), ∀ c, (l'.take (k + 1)).getLast? = some c →
        KeyLe key x c := by
  intro k
  induction k with
  | zero =>
      intro l l' sw h hnum x hx c hc
      simp [bubblePass] at h
      obtain ⟨rfl, rfl⟩ := h
      match l, hx, hc with
      | a :: t, hx, hc =>
          simp [List.take] at hx hc
          subst hx; subst hc
          obtain ⟨q, hq⟩ := hnum x (List.mem_cons_self x _)
          exact (keyLe_num hq hq).mpr le_rfl
  | succ k ih =>
      intro l l' sw h hnum x hx c hc
      match l with
      | [] => simp [bubblePass] at h; obtain ⟨rfl, rfl⟩ := h; simp at hx
      | [a] =>
          simp [bubblePass] at h
          obtain ⟨rfl, rfl⟩ := h
          simp [List.take] at hx hc
          subst hx; subst hc
          obtain ⟨q, hq⟩ := hnum x (List.mem_cons_self x _)
          exact (keyLe_num hq hq).mpr le_rfl
      | a :: b :: t =>
          by_cases hgt : jsGt (getv key a) (getv key b) = true
          · rcases hr : bubblePass key (a :: t) k with ⟨r, sw1⟩
            simp only [bubblePass, hgt, if_true, hr] at h
            rw [Prod.mk.injEq] at h
            obtain ⟨h1, _⟩ := h
            subst h1
            have hperm : r.Perm (a :: t) := by
              have hp := bubblePass_perm key k (a :: t)
              rw [hr] at hp
              exact hp
            have hnumat : ∀ u ∈ a :: t, NumKeyed key u := by
              intro u hu
              rcases List.mem_cons.mp hu with h | h
              · subst h; exact hnum u (List.mem_cons_self _ _)
              · exact hnum u (List.mem_cons_of_mem _ (List.mem_cons_of_mem _ h))
            have htp : (r.take (k + 1)).Perm ((a :: t).take (k + 1)) := by
              refine take_perm_of_perm_of_drop_eq (k + 1) hperm ?_
              have hd := bubblePass_drop key k (a :: t)
              rw [hr] at hd
              exact hd
            match r, hperm with
            | [], hperm => exact absurd hperm.symm.eq_nil (List.cons_ne_nil _ _)
            | rh :: rt, hperm =>
            simp only [List.take_succ_cons] at hx hc htp
            rw [List.getLast?_cons_cons] at hc
            have ihr := ih (a :: t) (rh :: rt) sw1 hr hnumat
            simp only [List.take_succ_cons] at ihr
            have hcmem : c ∈ a :: t := by
              have h1 : c ∈ rh :: List.take k rt := List.mem_of_mem_getLast? hc
              have h2 : c ∈ a :: List.take k t := htp.subset h1
              rcases List.mem_cons.mp h2 with h3 | h3
              · exact h3 ▸ List.mem_cons_self _ _
              · exact List.mem_cons_of_mem _ (List.take_subset _ _ h3)
            rcases List.mem_cons.mp hx with hxb | hxr
            · subst hxb
              have hamem : a ∈ rh :: List.take k rt :=
                htp.symm.subset (List.mem_cons_self _ _)
              have hac := ihr a hamem c hc
              obtain ⟨qa, hqa⟩ := hnum a (List.mem_cons_self _ _)
              obtain ⟨qb, hqb⟩ := hnum x (List.mem_cons_of_mem _ (List.mem_cons_self _ _))
              obtain ⟨qc, hqc⟩ := hnumat c hcmem
              have h1 : qa ≤ qc := (keyLe_num hqa hqc).mp hac
              have h2 : qb ≤ qa := by
                have : ¬ KeyLe key a x := by
                  unfold KeyLe
                  simp [hgt]
                rw [keyLe_num hqa hqb] at this
                exact le_of_lt (not_le.mp this)
              exact (keyLe_num hqb hqc).mpr (h2.trans h1)
            · exact ihr x hxr c hc
          · rcases hr : bubblePass key (b :: t) k with ⟨r, sw1⟩
            simp only [bubblePass, hgt, if_false, Bool.false_eq_true, hr] at h
            rw [Prod.mk.injEq] at h
            obtain ⟨h1, _⟩ := h
            subst h1
            have hperm : r.Perm (b :: t) := by
              have hp := bubblePass_perm key k (b :: t)
              rw [hr] at hp
              exact hp
            have hnumbt : ∀ u ∈ b :: t, NumKeyed key u := by
              intro u hu
              exact hnum u (List.mem_cons_of_mem _ hu)
            have htp : (r.take (k + 1)).Perm ((b :: t).take (k + 1)) := by
              refine take_perm_of_perm_of_drop_eq (k + 1) hperm ?_
              have hd := bubblePass_drop key k (b :: t)
              rw [hr] at hd
              exact hd
            match r, hperm with
            | [], hperm => exact absurd hperm.symm.eq_nil (List.cons_ne_nil _ _)
            | rh :: rt, hperm =>
            simp only [List.take_succ_cons] at hx hc htp
            rw [List.getLast?_cons_cons] at hc
            have ihr := ih (b :: t) (rh :: rt) sw1 hr hnumbt
            simp only [List.take_succ_cons] at ihr
            have hcmem : c ∈ b :: t := by
              have h1 : c ∈ rh :: List.take k rt := List.mem_of_mem_getLast? hc
              have h2 : c ∈ b :: List.take k t := htp.subset h1
              rcases List.mem_cons.mp h2 with h3 | h3
              · exact h3 ▸ List.mem_cons_self _ _
              · exact List.mem_cons_of_mem _ (List.take_subset _ _ h3)
            rcases List.mem_cons.mp hx with hxa | hxr
            · subst hxa
              have hbmem : b ∈ rh :: List.take k rt :=
                htp.symm.subset (List.mem_cons_self _ _)
              have hbc := ihr b hbmem c hc
              obtain ⟨qa, hqa⟩ := hnum x (List.mem_cons_self _ _)
              obtain ⟨qb, hqb⟩ := hnum b (List.mem_cons_of_mem _ (List.mem_cons_self _ _))
              obtain ⟨qc, hqc⟩ := hnumbt c hcmem
              have h1 : qb ≤ qc := (keyLe_num hqb hqc).mp hbc
              have h2 : qa ≤ qb := by
                have hk : KeyLe key x b := by
                  unfold KeyLe
                  simp [hgt]
                exact (keyLe_num hqa hqb).mp hk
              exact (keyLe_num hqa hqc).mpr (h2.trans h1)
            · exact ihr x hxr c hc


/-- The pass loop permutes the list. -/
theorem bubbleAux_perm (key : Value) :
    ∀ (limit : Nat) (l : List Value), (bubbleAux key limit l).Perm l := by
  intro limit
  induction limit with
  | zero => intro l; exact List.Perm.refl l
  | succ limit ih =>
      intro l
      rcases hp : bubblePass key l (limit + 1) with ⟨l', sw⟩
      have hperm : l'.Perm l := by
        have h := bubblePass_perm key (limit + 1) l
        rw [hp] at h
        exact h
      simp only [bubbleAux, hp]
      cases sw with
      | true => simpa using (ih l').trans hperm
      | false => simpa using hperm

/-- Invariant proof of the pass loop: if the suffix beyond the compared
region is sorted and dominates it, the loop sorts the whole list
(numeric keys). -/
theorem bubbleAux_sorted (key : Value) :
    ∀ (limit : Nat) (l : List Value),
      (∀ x ∈ l, NumKeyed key x) →
      (l.drop (limit + 1)).Pairwise (KeyLe key) →
      (∀ x ∈ l.take (limit + 1), ∀ y ∈ l.drop (limit + 1), KeyLe key x y) →
      (bubbleAux key limit l).Pairwise (KeyLe key) := by
  intro limit
  induction limit with
  | zero =>
      intro l hnum hpair hcross
      show l.Pairwise (KeyLe key)
      rw [← List.take_append_drop 1 l, List.pairwise_append]
      refine ⟨?_, hpair, hcross⟩
      match l with
      | [] => simp
      | a :: t => simp [List.take]
  | succ limit ih =>
      intro l hnum hpair hcross
      rcases hp : bubblePass key l (limit + 1) with ⟨l', sw⟩
      simp only [bubbleAux, hp]
      have hperm : l'.Perm l := by
        have h := bubblePass_perm key (limit + 1) l
        rw [hp] at h
        exact h
      have hdrop : l'.drop (limit + 2) = l.drop (limit + 2) := by
        have h := bubblePass_drop key (limit + 1) l
        rw [hp] at h
        exact h
      have hnum' : ∀ x ∈ l', NumKeyed key x := fun x hx => hnum x (hperm.subset hx)
      have htp : (l'.take (limit + 2)).Perm (l.take (limit + 2)) :=
        take_perm_of_perm_of_drop_eq _ hperm hdrop
      have hchamp := bubblePass_champion key (limit + 1) l l' sw hp hnum
      cases sw with
      | true =>
          simp only [if_true]
          by_cases hlen : l'.length ≤ limit + 1
          · refine ih l' hnum' ?_ ?_
            · rw [List.drop_eq_nil_of_le hlen]
              exact List.Pairwise.nil
            · intro x hx y hy
              rw [List.drop_eq_nil_of_le hlen] at hy
              exact absurd hy (List.not_mem_nil y)
          · have hlt : limit + 1 < l'.length := Nat.lt_of_not_le hlen
            have hdc : l'.drop (limit + 1) = l'[limit + 1] :: l'.drop (limit + 2) :=
              List.drop_eq_getElem_cons hlt
            have htk : l'.take (limit + 2) = l'.take (limit + 1) ++ [l'[limit + 1]] := by
              rw [List.take_succ, List.getElem?_eq_getElem hlt]
              rfl
            have hlast : (l'.take (limit + 2)).getLast? = some l'[limit + 1] := by
              rw [htk]
              exact List.getLast?_concat _
            have hc0mem : l'[limit + 1] ∈ l'.take (limit + 2) := by
              rw [htk]
              exact List.mem_append_right _ (List.mem_cons_self _ _)
            refine ih l' hnum' ?_ ?_
            · rw [hdc]
              refine List.pairwise_cons.mpr ⟨?_, ?_⟩
              · intro y hy
                rw [hdrop] at hy
                exact hcross l'[limit + 1] (htp.subset hc0mem) y hy
              · rw [hdrop]
                exact hpair
            · intro x hx y hy
              rw [hdc] at hy
              have hxtk : x ∈ l'.take (limit + 2) := by
                rw [htk]
                exact List.mem_append_left _ hx
              rcases List.mem_cons.mp hy with h | h
              · subst h
                exact hchamp x hxtk _ hlast
              · rw [hdrop] at h
                exact hcross x (htp.subset hxtk) y h
      | false =>
          simp only [Bool.false_eq_true, if_false]
          obtain ⟨he, hchain⟩ := bubblePass_noswap key (limit + 1) l l' hp
          rw [he, ← List.take_append_drop (limit + 2) l, List.pairwise_append]
          refine ⟨?_, hpair, hcross⟩
          exact chain'_pairwise_num key _
            (fun x hx => hnum x (List.take_subset _ _ hx)) hchain


/-- C5 counterexample.  The claim promises ascending order for *every*
input array, but JS `>` is partial across types: over `[2, "a", 1]`
every adjacent comparison is `false` (NaN), the first pass swaps
nothing, the early exit fires, and the array comes back unchanged —
with `2` before `1`, not ascending. -/
theorem c5_counterexample :
    bubbleSort [vNum 2, vStr "a", vNum 1] vUndef = [vNum 2, vStr "a", vNum 1] ∧
    ¬ ([vNum 2, vStr "a", vNum 1].Pairwise (KeyLe vUndef)) ∧
    jsGt (getv vUndef (vNum 2)) (getv vUndef (vNum 1)) = true := by
  refine ⟨by decide, ?_, by decide⟩
  intro h
  have := (List.pairwise_cons.mp h).1 (vNum 1) (by simp)
  exact this (by decide)

/-- C5 as amended: `bubbleSort` always returns a permutation of its
input; when every element's comparison key is numeric the result is
ascending (no earlier element ranks strictly above a later one); and
the claim's concrete example sorts as stated.  For mixed-type keys the
ordering clause fails (see the counterexample). -/
theorem c5_amended :
    (∀ (arr : List Value) (key : Value), (bubbleSort arr key).Perm arr) ∧
    (∀ (arr : List Value) (key : Value),
      (∀ x ∈ arr, NumKeyed key x) →
      (bubbleSort arr key).Pairwise (KeyLe key)) ∧
    bubbleSort [vNum 9, vNum 1, vNum 5, vNum 6, vNum 2, vNum 5] vUndef
      = [vNum 1, vNum 2, vNum 5, vNum 5, vNum 6, vNum 9] := by
  refine ⟨?_, ?_, by decide⟩
  · intro arr key
    exact bubbleAux_perm key _ arr
  · intro arr key hnum
    refine bubbleAux_sorted key (arr.length - 1) arr hnum ?_ ?_
    · rw [List.drop_eq_nil_of_le (by omega)]
      exact List.Pairwise.nil
    · intro x hx y hy
      rw [List.drop_eq_nil_of_le (by omega)] at hy
      exact absurd hy (List.not_mem_nil y)

/-- C5 amended, witnessed on `[3,1,2]`: the sort is a permutation and
is ascending. -/
theorem c5_amended_witness :
    (bubbleSort [vNum 3, vNum 1, vNum 2] vUndef).Perm [vNum 3, vNum 1, vNum 2] ∧
    (bubbleSort [vNum 3, vNum 1, vNum 2] vUndef).Pairwise (KeyLe vUndef) :=
  ⟨c5_amended.1 [vNum 3, vNum 1, vNum 2] vUndef,
   c5_amended.2.1 [vNum 3, vNum 1, vNum 2] vUndef (by
      intro x hx
      simp only [List.mem_cons, List.not_mem_nil, or_false] at hx
      rcases hx with h | h | h <;> subst h <;> exact ⟨_, rfl⟩)⟩

/-! ## Claim C8: compiler determinism and constant-pool dedup -/

/-- A key with no lookup hit is absent from the association list. -/
theorem lookup_none_not_mem_fst {m : List (String × Nat)} {k : String}
    (h : m.lookup k = none) : k ∉ m.map Prod.fst := by
  induction m with
  | nil => simp
  | cons a t ih =>
      simp only [List.lookup] at h
      by_cases hk : k = a.1
      · rw [hk] at h
        simp at h
      · simp only [beq_eq_false_iff_ne.mpr hk] at h
        simp only [List.map_cons, List.mem_cons]
        push_neg
        exact ⟨hk, ih h⟩

/-- Lookup skips a front block that misses the key. -/
theorem lookup_append_of_none {m1 m2 : List (String × Nat)} {k : String}
    (h : m1.lookup k = none) : (m1 ++ m2).lookup k = m2.lookup k := by
  induction m1 with
  | nil => simp
  | cons a t ih =>
      simp only [List.lookup] at h ⊢
      by_cases hk : k = a.1
      · rw [hk] at h; simp at h
      · simp only [beq_eq_false_iff_ne.mpr hk] at h ⊢
        exact ih h

/-- `getId` on an already-pooled key returns the existing index and
leaves the pool untouched. -/
theorem getId_of_lookup_some {p : ConstPool} {v : Value} {i : Nat}
    (hl : p.map.lookup (constKey v) = some i) : p.getId v = (i, p) := by
  simp only [ConstPool.getId, hl]

/-- `getId` on a fresh key appends the value and maps the key to the
new index. -/
theorem getId_of_lookup_none {p : ConstPool} {v : Value}
    (hl : p.map.lookup (constKey v) = none) :
    p.getId v = (p.list.length,
      { list := p.list ++ [v], map := p.map ++ [(constKey v, p.list.length)] }) := by
  simp only [ConstPool.getId, hl]

/-- In a well-formed pool the map's keys are the pooled values' keys. -/
theorem map_fst_of_WFPool {p : ConstPool} (h : WFPool p) :
    p.map.map Prod.fst = p.list.map constKey := by
  rw [h.1, List.map_map]
  rw [show (Prod.fst ∘ fun iv : Nat × Value => (constKey iv.2, iv.1))
        = constKey ∘ Prod.snd from rfl]
  rw [← List.map_map, List.enum_map_snd]

/-- `getId` preserves pool well-formedness. -/
theorem WFPool_getId {p : ConstPool} (v : Value) (h : WFPool p) :
    WFPool (p.getId v).2 := by
  cases hl : p.map.lookup (constKey v) with
  | some i => rw [getId_of_lookup_some hl]; exact h
  | none =>
      rw [getId_of_lookup_none hl]
      constructor
      · show p.map ++ [(constKey v, p.list.length)]
            = (p.list ++ [v]).enum.map fun iv => (constKey iv.2, iv.1)
        rw [List.enum_append, List.map_append, ← h.1]
        rfl
      · show ((p.list ++ [v]).map constKey).Nodup
        rw [List.map_append]
        refine List.Nodup.append h.2 (List.nodup_singleton _) ?_
        intro a ha hb
        simp only [List.map_cons, List.map_nil, List.mem_singleton] at hb
        subst hb
        exact lookup_none_not_mem_fst hl (map_fst_of_WFPool h ▸ ha)

/-- After `getId`, the value's key resolves to the returned index. -/
theorem getId_lookup_after (p : ConstPool) (v : Value) :
    ((p.getId v).2).map.lookup (constKey v) = some (p.getId v).1 := by
  cases hl : p.map.lookup (constKey v) with
  | some i => rw [getId_of_lookup_some hl]; exact hl
  | none =>
      rw [getId_of_lookup_none hl]
      simp only
      rw [lookup_append_of_none hl]
      simp [List.lookup]


/-- Expression compilation preserves pool well-formedness. -/
theorem WFPool_compileExpr : ∀ (e : Expr) (p : ConstPool) (code : List Nat),
    WFPool p → WFPool (compileExpr e p code).1 := by
  intro e
  induction e with
  | num q => intro p code h; exact WFPool_getId _ h
  | str s => intro p code h; exact WFPool_getId _ h
  | bool b => intro p code h; exact WFPool_getId _ h
  | null => intro p code h; exact WFPool_getId _ h
  | ident n => intro p code h; exact WFPool_getId _ h
  | member o pr iho => intro p code h; exact WFPool_getId _ (iho p code h)
  | binAdd l r ihl ihr => intro p code h; exact ihr _ _ (ihl p code h)
  | binSub l r ihl ihr => intro p code h; exact ihr _ _ (ihl p code h)
  | binMul l r ihl ihr => intro p code h; exact ihr _ _ (ihl p code h)
  | binDiv l r ihl ihr => intro p code h; exact ihr _ _ (ihl p code h)

/-- Condition compilation preserves pool well-formedness. -/
theorem WFPool_compileCond (cond : Condition) (p : ConstPool) (code : List Nat)
    (h : WFPool p) : WFPool (compileCond cond p code).1 := by
  unfold compileCond
  cases cond.op with
  | none => exact WFPool_getId _ h
  | some op => exact WFPool_getId _ (WFPool_getId _ h)

/-- Action compilation preserves pool well-formedness. -/
theorem WFPool_compileAction (a : ActionStmt) (p : ConstPool) (code : List Nat)
    (h : WFPool p) : WFPool (compileAction a p code).1 := by
  unfold compileAction
  cases a.action with
  | emit name => exact WFPool_getId _ h
  | log m => exact h
  | set name v => exact WFPool_getId _ (WFPool_getId _ h)

/-- One statement of the compiler walk preserves pool well-formedness. -/
theorem WFPool_compileStep (st : ConstPool × List Nat) (it : Item)
    (h : WFPool st.1) : WFPool (compileStep st it).1 := by
  unfold compileStep
  cases it with
  | model m =>
      by_cases hm : m.type = "sort"
      · simp only [hm, if_true]
        by_cases hk : (jsOr (ctxGet m.args "key") (vStr "")).truthy = true
        · simp only [hk, if_true]
          exact WFPool_getId _ (WFPool_getId _ h)
        · simp only [hk]
          simp only [Bool.not_eq_true] at hk
          simp only [hk, Bool.false_eq_true, if_false]
          exact WFPool_getId _ h
      · simp only [hm, if_false]
        exact h
  | out name => exact WFPool_getId _ h
  | letS s => exact WFPool_getId _ (WFPool_compileExpr _ _ _ h)
  | input v => exact h
  | node n => exact h
  | edge e => exact h
  | cond c => exact h
  | action a =>
      exact WFPool_compileAction _ _ _ (WFPool_compileCond _ _ _ h)


/-- The empty pool is well-formed. -/
theorem WFPool_empty : WFPool {} := ⟨rfl, List.nodup_nil⟩

/-- The compiler fold preserves pool well-formedness. -/
theorem WFPool_compileFrom (items : List Item) :
    ∀ (st : ConstPool × List Nat), WFPool st.1 →
      WFPool (items.foldl compileStep st).1 := by
  induction items with
  | nil => intro st h; exact h
  | cons it rest ih =>
      intro st h
      exact ih (compileStep st it) (WFPool_compileStep st it h)

/-- The pool produced by a full compilation is well-formed. -/
theorem WFPool_compileSteps (items : List Item) : WFPool (compileSteps items).1 :=
  WFPool_compileFrom items ({}, []) WFPool_empty

/-- C8, confirmed: compilation is deterministic (the module is a
function of the parsed program, so compiling the same source twice
gives byte-identical output); `getId` returns the existing pool index
for a key already pooled and for a literal whose (runtime-type,
serialized-value) key equals an already-encoded one, leaving the pool
unchanged; and the final pool of every compilation holds no two entries
with the same key. -/
theorem c8_pool_dedup :
    (∀ (src : String) (ast ast' : TaskAST),
      parseSource src = Except.ok ast → parseSource src = Except.ok ast' →
      compileToBytecode ast = compileToBytecode ast') ∧
    (∀ (p : ConstPool) (v : Value) (i : Nat),
      p.map.lookup (constKey v) = some i → p.getId v = (i, p)) ∧
    (∀ (p : ConstPool) (v w : Value), constKey w = constKey v →
      ((p.getId v).2).getId w = ((p.getId v).1, (p.getId v).2)) ∧
    (∀ ast : TaskAST, (((compileSteps ast.sourceOrder).1).list.map constKey).Nodup) := by
  refine ⟨?_, ?_, ?_, ?_⟩
  · intro src ast ast' h1 h2
    rw [h1] at h2
    rw [Except.ok.inj h2]
  · intro p v i hl
    exact getId_of_lookup_some hl
  · intro p v w hk
    have h := getId_lookup_after p v
    rw [← hk] at h
    exact getId_of_lookup_some h
  · intro ast
    exact (WFPool_compileSteps ast.sourceOrder).2

/-- C8, witnessed: a pooled `\"x\"` is reused at index 0, and re-encoding
the literal `1` right after pooling it returns its index with the pool
unchanged. -/
theorem c8_pool_dedup_witness :
    ConstPool.getId { list := [Value.vStr "x"], map := [("string:x", 0)] } (Value.vStr "x")
      = (0, { list := [Value.vStr "x"], map := [("string:x", 0)] }) ∧
    (ConstPool.getId {} (Value.vNum 1)).2.getId (Value.vNum 1)
      = ((ConstPool.getId {} (Value.vNum 1)).1, (ConstPool.getId {} (Value.vNum 1)).2) :=
  ⟨c8_pool_dedup.2.1 { list := [Value.vStr "x"], map := [("string:x", 0)] } (Value.vStr "x") 0 (by decide),
   c8_pool_dedup.2.2.1 {} (Value.vNum 1) (Value.vNum 1) rfl⟩

/-! ## Claim C1: executor/VM output equivalence -/

/-- A lookup hit is a member of the association list. -/
theorem mem_of_lookup_eq_some {m : List (String × Nat)} {k : String} {i : Nat}
    (h : m.lookup k = some i) : (k, i) ∈ m := by
  induction m with
  | nil => simp [List.lookup] at h
  | cons a t ih =>
      obtain ⟨k0, v0⟩ := a
      simp only [List.lookup] at h
      by_cases hk : k = k0
      · rw [hk] at h ⊢
        simp only [beq_self_eq_true] at h
        obtain rfl : v0 = i := Option.some.inj h
        exact List.mem_cons_self _ _
      · simp only [show (k == k0) = false from beq_eq_false_iff_ne.mpr hk] at h
        exact List.mem_cons_of_mem _ (ih h)

/-- `getD` at an in-range index is a member. -/
theorem getD_mem_of_lt {l : List Value} {i : Nat} (h : i < l.length) :
    l.getD i vUndef ∈ l := by
  rw [List.getD_eq_getElem?_getD, List.getElem?_eq_getElem h]
  exact List.getElem_mem h

/-- String concatenation cancels on the left. -/
theorem strAppend_cancel_left {s t u : String} (h : s ++ t = s ++ u) : t = u := by
  have hd : s.data ++ t.data = s.data ++ u.data := congrArg String.data h
  have := List.append_cancel_left hd
  cases t; cases u; simp_all [String.data]

/-- Two strings with the same pool key are equal. -/
theorem constKey_str_inj {t s : String}
    (h : constKey (vStr t) = constKey (vStr s)) : t = s := by
  simp only [constKey, jsTypeof] at h
  exact strAppend_cancel_left h

/-- In a well-formed pool a map hit returns an in-range index whose
pooled value carries the looked-up key. -/
theorem lookup_some_WFPool {p : ConstPool} {k : String} {i : Nat}
    (hwf : WFPool p) (h : p.map.lookup k = some i) :
    i < p.list.length ∧ constKey (p.list.getD i vUndef) = k := by
  have hmem := mem_of_lookup_eq_some h
  rw [hwf.1] at hmem
  rw [List.mem_map] at hmem
  obtain ⟨iv, hiv, heq⟩ := hmem
  obtain ⟨h1, h2⟩ := Prod.mk.injEq .. ▸ heq
  rw [List.mem_enum_iff_getElem?] at hiv
  have hlt : iv.1 < p.list.length := by
    by_contra hge
    rw [List.getElem?_eq_none (by omega)] at hiv
    exact Option.noConfusion hiv
  subst h2
  refine ⟨hlt, ?_⟩
  rw [← h1]
  congr 1
  rw [List.getD_eq_getElem?_getD, hiv]
  rfl

/-- `getId` only ever extends the pool. -/
theorem getId_poolLE (p : ConstPool) (v : Value) : PoolLE p (p.getId v).2 := by
  cases hl : p.map.lookup (constKey v) with
  | some i => rw [getId_of_lookup_some hl]; exact ⟨[], by simp⟩
  | none => rw [getId_of_lookup_none hl]; exact ⟨[v], rfl⟩

/-- `getId` returns an index into the resulting pool. -/
theorem getId_lt {p : ConstPool} (hwf : WFPool p) (v : Value) :
    (p.getId v).1 < (p.getId v).2.list.length := by
  cases hl : p.map.lookup (constKey v) with
  | some i =>
      rw [getId_of_lookup_some hl]
      exact (lookup_some_WFPool hwf hl).1
  | none =>
      rw [getId_of_lookup_none hl]
      simp

/-- `getId` grows the pool by at most one entry. -/
theorem getId_len_le (p : ConstPool) (v : Value) :
    (p.getId v).2.list.length ≤ p.list.length + 1 := by
  cases hl : p.map.lookup (constKey v) with
  | some i => rw [getId_of_lookup_some hl]; exact Nat.le_succ _
  | none =>
      rw [getId_of_lookup_none hl]
      simp

/-- Indices into a pool prefix read the same value in any extension. -/
theorem getD_of_poolLE {p q : ConstPool} (h : PoolLE p q) {i : Nat}
    (hi : i < p.list.length) : q.list.getD i vUndef = p.list.getD i vUndef := by
  obtain ⟨suffix, hs⟩ := h
  rw [hs]
  rw [List.getD_eq_getElem?_getD, List.getD_eq_getElem?_getD,
    List.getElem?_append, if_pos hi]

/-- Reading the serialized table is serializing the read. -/
theorem getD_map_serialized {l : List Value} {i : Nat} (hi : i < l.length) :
    (l.map serializedConst).getD i vUndef = serializedConst (l.getD i vUndef) := by
  rw [List.getD_eq_getElem?_getD, List.getD_eq_getElem?_getD,
    List.getElem?_map]
  rw [List.getElem?_eq_getElem hi]
  rfl

/-- Over a pool of strings, `getId` of a string resolves to exactly
that string (key hits recover the string from the key). -/
theorem getId_str_resolve {p : ConstPool} (hwf : WFPool p)
    (hstr : ∀ w ∈ p.list, ∃ t, w = vStr t) (s : String) :
    (p.getId (vStr s)).2.list.getD (p.getId (vStr s)).1 vUndef = vStr s ∧
    (∀ w ∈ (p.getId (vStr s)).2.list, ∃ t, w = vStr t) := by
  cases hl : p.map.lookup (constKey (vStr s)) with
  | some i =>
      rw [getId_of_lookup_some hl]
      obtain ⟨hlt, hkey⟩ := lookup_some_WFPool hwf hl
      refine ⟨?_, hstr⟩
      obtain ⟨t, ht⟩ := hstr _ (getD_mem_of_lt hlt)
      rw [ht] at hkey ⊢
      rw [constKey_str_inj hkey]
  | none =>
      rw [getId_of_lookup_none hl]
      constructor
      · show (p.list ++ [vStr s]).getD p.list.length vUndef = vStr s
        rw [List.getD_eq_getElem?_getD, List.getElem?_append_right (le_refl _)]
        simp
      · intro w hw
        rcases List.mem_append.mp hw with h | h
        · exact hstr w h
        · simp only [List.mem_singleton] at h
          exact ⟨s, h⟩

/-- A bubble pass only sees the key through `getv`. -/
theorem bubblePass_key_congr {k1 k2 : Value} (h : ∀ x, getv k1 x = getv k2 x) :
    ∀ (n : Nat) (l : List Value), bubblePass k1 l n = bubblePass k2 l n := by
  intro n
  induction n with
  | zero =>
      intro l
      match l with
      | [] => rfl
      | [x] => rfl
      | x :: y :: t => rfl
  | succ n ih =>
      intro l
      match l with
      | [] => rfl
      | [x] => rfl
      | x :: y :: t =>
          simp only [bubblePass, h, ih]

/-- The pass loop only sees the key through `getv`. -/
theorem bubbleAux_congr {k1 k2 : Value} (h : ∀ x, getv k1 x = getv k2 x) :
    ∀ (n : Nat) (l : List Value), bubbleAux k1 n l = bubbleAux k2 n l := by
  intro n
  induction n with
  | zero => intro l; rfl
  | succ n ih =>
      intro l
      simp only [bubbleAux, bubblePass_key_congr h, ih]

/-- `bubbleSort` only sees the key through `getv`. -/
theorem bubbleSort_congr {k1 k2 : Value} (h : ∀ x, getv k1 x = getv k2 x)
    (l : List Value) : bubbleSort l k1 = bubbleSort l k2 := by
  simp only [bubbleSort, bubbleAux_congr h]

/-- `nativeSort` only sees the key through `getv`. -/
theorem nativeSort_congr {k1 k2 : Value} (h : ∀ x, getv k1 x = getv k2 x)
    (l : List Value) : nativeSort l k1 = nativeSort l k2 := by
  have hc : nativeCmp k1 = nativeCmp k2 := by
    funext a b
    simp only [nativeCmp, h]
  simp only [nativeSort, hc]

/-- A falsy key makes `getv` the identity. -/
theorem getv_falsy {k : Value} (h : k.truthy = false) (x : Value) : getv k x = x := by
  simp [getv, h]


/-- One successful in-range step unrolls one unit of fuel. -/
theorem vmRun_step {consts : List Value} {code : List Nat} {s s' : VMState} {fuel : Nat}
    (hip : s.ip < (code.length : Int))
    (hstep : vmStep consts code s = Except.ok s') :
    vmRun consts code (fuel + 1) s = vmRun consts code fuel s' := by
  conv_lhs => unfold vmRun
  rw [if_pos hip, hstep]

/-- The VM loop stops once the instruction pointer leaves the code. -/
theorem vmRun_done {consts : List Value} {code : List Nat} {fuel : Nat} {s : VMState}
    (hip : ¬ s.ip < (code.length : Int)) :
    vmRun consts code fuel s = Except.ok { outputs := s.outs, context := s.ctx } := by
  unfold vmRun
  rw [if_neg hip]

/-- C1 counterexample.  The claim asserts identical Outputs for every
valid tool-free program, but `%out x` compiles to `EMIT_PREFERRED x`,
whose runtime rule `ctx[name] ?? sorted ?? input` differs from the
executor's `sorted ?? input ?? null`: with input `{"x":1}` (whose field
`x` is merged into the context) the executor captures the whole input
object while the VM captures `1`. -/
theorem c1_counterexample :
    parseSource srcOutShadow = Except.ok astOutShadow ∧
    compileToBytecode astOutShadow = modOutShadow ∧
    (execute astOutShadow).map (fun r => r.outputs)
      = Except.ok [("x", vObj [("x", vNum 1)])] ∧
    (runBytecode modOutShadow astOutShadow.input).map (fun r => r.outputs)
      = Except.ok [("x", vNum 1)] ∧
    ([("x", vObj [("x", vNum 1)])] : Ctx) ≠ [("x", vNum 1)] :=
  ⟨by decide, by decide, by decide, by decide, by decide⟩

/-- C7, witnessed on a concrete sort: sorting `[2,1]` from an array input
leaves `input` bound to the original `[2,1]`. -/
theorem c7_sort_frame_witness :
    ctxGet (ctxSet [("input", vArr [vNum 2, vNum 1])] "sorted"
      (vArr [vNum 1, vNum 2])) "input" = vArr [vNum 2, vNum 1] := by
  have h := (c7_sort_frame.1 { type := "sort", args := [] }
    [("input", vArr [vNum 2, vNum 1])]
    (ctxSet [("input", vArr [vNum 2, vNum 1])] "sorted" (vArr [vNum 1, vNum 2]))
    rfl (by decide)).1 "input" (by decide)
  rw [h]; decide

theorem digitChar10_toNat {d : Nat} (h : d < 10) : (digitChar10 d).toNat = 48 + d := by
  interval_cases d <;> decide

theorem digitChar10_isDigit {d : Nat} (h : d < 10) : (digitChar10 d).isDigit = true := by
  interval_cases d <;> decide

theorem foldl_digits (a : Nat) (l : List Char) :
    l.foldl (fun n c => n * 10 + (c.toNat - '0'.toNat)) a
      = a * 10 ^ l.length + digitsToNat l := by
  induction l generalizing a with
  | nil => simp [digitsToNat]
  | cons c t ih =>
      simp only [List.foldl_cons, List.length_cons, digitsToNat]
      rw [ih, ih (0 * 10 + (c.toNat - '0'.toNat))]
      ring

theorem digitsToNat_append (xs ys : List Char) :
    digitsToNat (xs ++ ys) = digitsToNat xs * 10 ^ ys.length + digitsToNat ys := by
  unfold digitsToNat
  rw [List.foldl_append]
  rw [foldl_digits]
  rfl

theorem natToDigitsF_spec : ∀ (fuel n : Nat), n < fuel →
    digitsToNat (natToDigitsF fuel n) = n ∧
    (∀ c ∈ natToDigitsF fuel n, ∃ d, d < 10 ∧ c = digitChar10 d) ∧
    natToDigitsF fuel n ≠ [] := by
  intro fuel
  induction fuel with
  | zero => intro n h; omega
  | succ fuel ih =>
      intro n h
      by_cases h10 : n < 10
      · refine ⟨?_, ?_, ?_⟩
        · simp [natToDigitsF, h10, digitsToNat, digitChar10_toNat h10]
        · intro c hc
          simp [natToDigitsF, h10] at hc
          exact ⟨n, h10, hc⟩
        · simp [natToDigitsF, h10]
      · have hd : n / 10 < fuel := by omega
        obtain ⟨ih1, ih2, ih3⟩ := ih (n / 10) hd
        have heq : natToDigitsF (fuel + 1) n
            = natToDigitsF fuel (n / 10) ++ [digitChar10 (n % 10)] := by
          simp [natToDigitsF, h10]
        refine ⟨?_, ?_, ?_⟩
        · rw [heq, digitsToNat_append, ih1]
          have hm : n % 10 < 10 := Nat.mod_lt _ (by omega)
          simp [digitsToNat, digitChar10_toNat hm]
          omega
        · intro c hc
          rw [heq] at hc
          rcases List.mem_append.mp hc with h1 | h1
          · exact ih2 c h1
          · simp at h1
            exact ⟨n % 10, Nat.mod_lt _ (by omega), h1⟩
        · rw [heq]
          simp
  
theorem digitsToNat_natToDigits (n : Nat) : digitsToNat (natToDigits n) = n :=
  (natToDigitsF_spec (n + 1) n (Nat.lt_succ_self n)).1

theorem natToDigits_digits {n : Nat} {c : Char} (h : c ∈ natToDigits n) :
    ∃ d, d < 10 ∧ c = digitChar10 d :=
  (natToDigitsF_spec (n + 1) n (Nat.lt_succ_self n)).2.1 c h

theorem natToDigits_ne_nil (n : Nat) : natToDigits n ≠ [] :=
  (natToDigitsF_spec (n + 1) n (Nat.lt_succ_self n)).2.2


theorem natToDigits_isDigit {n : Nat} {c : Char} (h : c ∈ natToDigits n) :
    c.isDigit = true := by
  obtain ⟨d, hd, rfl⟩ := natToDigits_digits h
  exact digitChar10_isDigit hd

theorem digit_ne_slash {c : Char} (h : c.isDigit = true) : c ≠ '/' := by
  intro he
  subst he
  simp [Char.isDigit] at h

theorem digit_ne_dot {c : Char} (h : c.isDigit = true) : c ≠ '.' := by
  intro he
  subst he
  simp [Char.isDigit] at h

theorem natToDigitsF_length_le : ∀ (fuel n : Nat), n < fuel → ∀ (j : Nat), 0 < j →
    n < 10 ^ j → (natToDigitsF fuel n).length ≤ j := by
  intro fuel
  induction fuel with
  | zero => intro n h; omega
  | succ fuel ih =>
      intro n h j hj hnj
      by_cases h10 : n < 10
      · simp [natToDigitsF, h10]
        omega
      · have heq : natToDigitsF (fuel + 1) n
            = natToDigitsF fuel (n / 10) ++ [digitChar10 (n % 10)] := by
          simp [natToDigitsF, h10]
        have hj2 : 2 ≤ j := by
          by_contra hlt
          have : j = 1 := by omega
          subst this
          simp at hnj
          omega
        have hrec : n / 10 < 10 ^ (j - 1) := by
          have hpow : 10 ^ j = 10 ^ (j - 1) * 10 := by
            rw [← pow_succ]
            congr 1
            omega
          rw [hpow] at hnj
          omega
        have := ih (n / 10) (by omega) (j - 1) (by omega) hrec
        rw [heq]
        simp only [List.length_append, List.length_singleton]
        omega

theorem natToDigits_length_le {j n : Nat} (hj : 0 < j) (h : n < 10 ^ j) :
    (natToDigits n).length ≤ j :=
  natToDigitsF_length_le (n + 1) n (Nat.lt_succ_self n) j hj h

theorem digitsToNat_replicate_zero (k : Nat) :
    digitsToNat (List.replicate k '0') = 0 := by
  induction k with
  | zero => rfl
  | succ k ih =>
      rw [List.replicate_succ]
      show digitsToNat ('0' :: List.replicate k '0') = 0
      unfold digitsToNat at *
      simp only [List.foldl_cons]
      simpa using ih

theorem digitsToNat_padZeros (k : Nat) (ds : List Char) :
    digitsToNat (padZeros k ds) = digitsToNat ds := by
  unfold padZeros
  rw [digitsToNat_append, digitsToNat_replicate_zero]
  simp

theorem padZeros_length {k : Nat} {ds : List Char} (h : ds.length ≤ k) :
    (padZeros k ds).length = k := by
  unfold padZeros
  simp
  omega


theorem dropTrailingZeros_decomp (l : List Char) :
    l = dropTrailingZeros l
      ++ List.replicate (l.reverse.takeWhile (fun c => c = '0')).length '0' := by
  have hall : ∀ b ∈ l.reverse.takeWhile (fun c => decide (c = '0')), b = '0' := by
    intro b hb
    have := List.mem_takeWhile_imp hb
    simpa using this
  have h1 : (l.reverse.takeWhile (fun c => decide (c = '0'))).reverse
      = List.replicate (l.reverse.takeWhile (fun c => decide (c = '0'))).length '0' := by
    conv_lhs => rw [List.eq_replicate_of_mem hall]
    simp
  calc l = l.reverse.reverse := (List.reverse_reverse l).symm
    _ = ((l.reverse.takeWhile (fun c => decide (c = '0')))
          ++ (l.reverse.dropWhile (fun c => decide (c = '0')))).reverse := by
        rw [List.takeWhile_append_dropWhile]
    _ = (l.reverse.dropWhile (fun c => decide (c = '0'))).reverse
          ++ (l.reverse.takeWhile (fun c => decide (c = '0'))).reverse := by
        rw [List.reverse_append]
    _ = dropTrailingZeros l
          ++ List.replicate (l.reverse.takeWhile (fun c => c = '0')).length '0' := by
        rw [h1]
        rfl

theorem digitsToNat_dropTrailingZeros (l : List Char) :
    digitsToNat l = digitsToNat (dropTrailingZeros l)
      * 10 ^ (l.reverse.takeWhile (fun c => c = '0')).length := by
  conv_lhs => rw [dropTrailingZeros_decomp l]
  rw [digitsToNat_append, digitsToNat_replicate_zero]
  simp

theorem length_dropTrailingZeros (l : List Char) :
    l.length = (dropTrailingZeros l).length
      + (l.reverse.takeWhile (fun c => c = '0')).length := by
  conv_lhs => rw [dropTrailingZeros_decomp l]
  simp

theorem dropTrailingZeros_ne_nil {l : List Char} (h : digitsToNat l ≠ 0) :
    dropTrailingZeros l ≠ [] := by
  intro he
  rw [digitsToNat_dropTrailingZeros l, he] at h
  simp [digitsToNat] at h

theorem mem_dropTrailingZeros {l : List Char} {c : Char}
    (h : c ∈ dropTrailingZeros l) : c ∈ l := by
  have hd := dropTrailingZeros_decomp l
  rw [hd]
  exact List.mem_append_left _ h


theorem natAbs_ediv_of_dvd {z : Int} {g : Nat} (h : (g : Int) ∣ z) (hg : g ≠ 0) :
    (z / (g : Int)).natAbs = z.natAbs / g := by
  rcases h with ⟨c, rfl⟩
  rw [Int.mul_ediv_cancel_left _ (by exact_mod_cast hg)]
  rw [Int.natAbs_mul]
  simp [Nat.mul_div_cancel_left _ (Nat.pos_of_ne_zero hg)]

theorem div_gcd_div_eq {n : Int} {d G : Nat} (hG : G ≠ 0)
    (h1 : (G : Int) ∣ n) (h2 : G ∣ d) :
    ((n / (G : Int) : Int) : ℚ) / ((d / G : Nat) : ℚ) = (n : ℚ) / (d : ℚ) := by
  rcases h1 with ⟨c, rfl⟩
  rcases h2 with ⟨e, rfl⟩
  rw [Int.mul_ediv_cancel_left _ (by exact_mod_cast hG)]
  rw [Nat.mul_div_cancel_left _ (Nat.pos_of_ne_zero hG)]
  push_cast
  rw [mul_div_mul_left _ _ (by exact_mod_cast hG : ((G : ℚ)) ≠ 0)]

theorem ratNormalize_eq_div (n : Int) (d : Nat) (hd : d ≠ 0) :
    ratNormalize n d = (n : ℚ) / (d : ℚ) := by
  have hgg : fgcd n.natAbs d = Nat.gcd n.natAbs d := fgcd_eq_gcd _ _
  have hgpos : 0 < Nat.gcd n.natAbs d := Nat.gcd_pos_of_pos_right _ (Nat.pos_of_ne_zero hd)
  have hgz : Nat.gcd n.natAbs d ≠ 0 := by omega
  have hdvd_n : ((Nat.gcd n.natAbs d : Int)) ∣ n :=
    Int.ofNat_dvd_left.mpr (Nat.gcd_dvd_left _ _)
  have hdvd_d : Nat.gcd n.natAbs d ∣ d := Nat.gcd_dvd_right _ _
  have habs : (n / (Nat.gcd n.natAbs d : Int)).natAbs = n.natAbs / Nat.gcd n.natAbs d :=
    natAbs_ediv_of_dvd hdvd_n hgz
  have hd' : d / Nat.gcd n.natAbs d ≠ 0 := by
    have h1 := Nat.le_of_dvd (Nat.pos_of_ne_zero hd) hdvd_d
    have h2 := Nat.div_pos h1 hgpos
    omega
  have hcop : Nat.Coprime (n.natAbs / Nat.gcd n.natAbs d) (d / Nat.gcd n.natAbs d) :=
    Nat.coprime_div_gcd_div_gcd hgpos
  have hcond : d / fgcd n.natAbs d ≠ 0 ∧
      fgcd ((n / (fgcd n.natAbs d : Int)).natAbs) (d / fgcd n.natAbs d) = 1 := by
    rw [hgg]
    refine ⟨hd', ?_⟩
    rw [fgcd_eq_gcd, habs]
    exact hcop
  unfold ratNormalize
  rw [dif_neg hd]
  simp only []
  rw [dif_pos hcond]
  rw [Rat.mk'_eq_divInt, Rat.divInt_eq_div]
  rw [hgg]
  push_cast
  exact div_gcd_div_eq hgz hdvd_n hdvd_d


theorem mk_append (a b : List Char) : String.mk a ++ String.mk b = String.mk (a ++ b) := rfl

theorem dash_mk (l : List Char) : "-" ++ String.mk l = String.mk ('-' :: l) := rfl


theorem digit_ne_minus {c : Char} (h : c.isDigit = true) : c ≠ '-' := by
  intro he; subst he; simp [Char.isDigit] at h


theorem nfs_mk_minus (r : List Char) :
    numFromString (String.mk ('-' :: r)) = numFromStringCore true r := rfl

theorem nfs_mk_of_head_ne {l : List Char} (h : ∀ r, l ≠ '-' :: r) :
    numFromString (String.mk l) = numFromStringCore false l := by
  unfold numFromString
  split
  · rename_i r heq
    exact absurd heq (h r)
  · rfl

theorem contains_eq_false_of_not_mem {l : List Char} {c : Char} (h : c ∉ l) :
    l.contains c = false := by
  induction l with
  | nil => rfl
  | cons a t ih =>
      have hne : c ≠ a := fun he => h (he ▸ List.mem_cons_self a t)
      have hnm : c ∉ t := fun hm => h (List.mem_cons_of_mem a hm)
      simp [List.contains_cons, hne, hnm]

theorem contains_eq_true_of_mem {l : List Char} {c : Char} (h : c ∈ l) :
    l.contains c = true := by
  induction l with
  | nil => cases h
  | cons a t ih =>
      rcases List.mem_cons.mp h with h1 | h2
      · simp [List.contains_cons, h1]
      · simp [List.contains_cons, h2]


theorem nfsCore_int (neg : Bool) {l : List Char} (hne : l ≠ [])
    (hd : ∀ x ∈ l, x.isDigit = true) :
    numFromStringCore neg l =
      some (ratNormalize
        (if neg then -(digitsToNat l : Int) else (digitsToNat l : Int)) 1) := by
  have h1 : '/' ∉ l := fun hm => digit_ne_slash (hd _ hm) rfl
  have h2 : '.' ∉ l := fun hm => digit_ne_dot (hd _ hm) rfl
  simp [numFromStringCore, h1, h2, hne]
  exact hd

theorem nfsCore_frac (neg : Bool) {ds rest : List Char}
    (hds : ds ≠ []) (hdd : ∀ x ∈ ds, x.isDigit = true)
    (hrs : rest ≠ []) (hrd : ∀ x ∈ rest, x.isDigit = true) :
    numFromStringCore neg (ds ++ '/' :: rest) =
      some (ratNormalize
        (if neg then -(digitsToNat ds : Int) else (digitsToNat ds : Int))
        (digitsToNat rest)) := by
  have hm : '/' ∈ ds ++ '/' :: rest :=
    List.mem_append_right _ (List.mem_cons_self _ _)
  have hne : ∀ x ∈ ds, (fun c => !decide (c = '/')) x = true := by
    intro x hx
    simp [digit_ne_slash (hdd x hx)]
  have htw : List.takeWhile (fun c => !decide (c = '/')) (ds ++ '/' :: rest) = ds := by
    rw [takeWhile_append_of_all _ _ _ hne]
    simp [List.takeWhile_cons]
  have hdw : (List.dropWhile (fun c => !decide (c = '/')) (ds ++ '/' :: rest)).tail
      = rest := by
    rw [dropWhile_append_of_all _ _ _ hne]
    simp [List.dropWhile_cons]
  simp [numFromStringCore, hm, htw, hdw, hds, hrs]
  exact ⟨hdd, hrd⟩

theorem nfsCore_dec (neg : Bool) {ds fr : List Char}
    (hdd : ∀ x ∈ ds, x.isDigit = true)
    (hfr : fr ≠ []) (hfd : ∀ x ∈ fr, x.isDigit = true) :
    numFromStringCore neg (ds ++ '.' :: fr) = some (decimalValue neg ds fr) := by
  have hnos : '/' ∉ ds ++ '.' :: fr := by
    intro hm
    rcases List.mem_append.mp hm with h1 | h2
    · exact digit_ne_slash (hdd _ h1) rfl
    · rcases List.mem_cons.mp h2 with h3 | h4
      · exact absurd h3 (by decide)
      · exact digit_ne_slash (hfd _ h4) rfl
  have hm : '.' ∈ ds ++ '.' :: fr :=
    List.mem_append_right _ (List.mem_cons_self _ _)
  have hne : ∀ x ∈ ds, (fun c => !decide (c = '.')) x = true := by
    intro x hx
    simp [digit_ne_dot (hdd x hx)]
  have htw : List.takeWhile (fun c => !decide (c = '.')) (ds ++ '.' :: fr) = ds := by
    rw [takeWhile_append_of_all _ _ _ hne]
    simp [List.takeWhile_cons]
  have hdw : (List.dropWhile (fun c => !decide (c = '.')) (ds ++ '.' :: fr)).tail
      = fr := by
    rw [dropWhile_append_of_all _ _ _ hne]
    simp [List.dropWhile_cons]
  simp [numFromStringCore, hnos, hm, htw, hdw, hfr]
  exact ⟨hdd, hfd⟩


theorem ratNormalize_int_one (z : Int) : ratNormalize z 1 = (z : ℚ) := by
  rw [ratNormalize_eq_div z 1 one_ne_zero]
  simp

theorem numFromString_intToString (i : Int) :
    numFromString (intToString i) = some (i : ℚ) := by
  by_cases hi : i < 0
  · rw [intToString, if_pos hi, natToString, dash_mk, nfs_mk_minus]
    rw [nfsCore_int true (natToDigits_ne_nil _) (fun c hc => natToDigits_isDigit hc)]
    rw [digitsToNat_natToDigits]
    simp only [if_pos]
    rw [ratNormalize_int_one]
    have hcast : -(i.natAbs : Int) = i := by omega
    exact congrArg some (by exact_mod_cast congrArg (fun z : Int => (z : ℚ)) hcast)
  · rw [intToString, if_neg hi, natToString]
    have hhd : ∀ r, natToDigits i.natAbs ≠ '-' :: r := by
      intro r he
      have hm : '-' ∈ natToDigits i.natAbs := he ▸ List.mem_cons_self _ _
      have := natToDigits_isDigit hm
      exact absurd this (by decide)
    rw [nfs_mk_of_head_ne hhd]
    rw [nfsCore_int false (natToDigits_ne_nil _) (fun c hc => natToDigits_isDigit hc)]
    rw [digitsToNat_natToDigits]
    simp only [Bool.false_eq_true, if_neg, if_false]
    rw [ratNormalize_int_one]
    have hcast : ((i.natAbs : Int)) = i := by omega
    exact congrArg some (by exact_mod_cast congrArg (fun z : Int => (z : ℚ)) hcast)

theorem num_cast_of_den_one {q : ℚ} (hden : q.den = 1) : ((q.num : ℚ)) = q := by
  have h := Rat.num_div_den q
  rw [hden] at h
  simpa using h

theorem roundtrip_int {q : ℚ} (hden : q.den = 1) :
    numFromString (numToString q) = some q := by
  rw [numToString, if_pos hden, numFromString_intToString]
  exact congrArg some (num_cast_of_den_one hden)


theorem slash_str_eq : "/" = String.mk ['/'] := rfl

theorem dot_str_eq : "." = String.mk ['.'] := rfl

theorem digits_append_head_ne (d1 x : List Char) (h1 : d1 ≠ [])
    (hd : ∀ c ∈ d1, c.isDigit = true) : ∀ r, d1 ++ x ≠ '-' :: r := by
  intro r he
  cases d1 with
  | nil => exact h1 rfl
  | cons c t =>
      have hc : c = '-' := by
        have := congrArg (fun l => l.head?) he
        simpa using this
      exact digit_ne_minus (hd c (List.mem_cons_self _ _)) hc

theorem roundtrip_frac {q : ℚ} (hden : q.den ≠ 1)
    (hnp : q.den ≠ 2 ^ pow2In q.den * 5 ^ pow5In q.den) :
    numFromString (numToString q) = some q := by
  have hdnz : q.den ≠ 0 := Nat.pos_iff_ne_zero.mp q.pos
  rw [numToString, if_neg hden]
  simp only [if_neg hnp]
  by_cases hneg : q.num < 0
  · have hs : intToString q.num ++ "/" ++ natToString q.den
        = String.mk ('-' :: (natToDigits q.num.natAbs ++ '/' :: natToDigits q.den)) := by
      rw [intToString, if_pos hneg, natToString, natToString, dash_mk, slash_str_eq,
        mk_append, mk_append]
      exact congrArg String.mk (by simp)
    rw [hs, nfs_mk_minus]
    rw [nfsCore_frac true (natToDigits_ne_nil _) (fun c hc => natToDigits_isDigit hc)
      (natToDigits_ne_nil _) (fun c hc => natToDigits_isDigit hc)]
    rw [digitsToNat_natToDigits, digitsToNat_natToDigits]
    simp only [if_pos]
    rw [ratNormalize_eq_div _ _ hdnz]
    have h1 : ((-(q.num.natAbs : Int) : Int) : ℚ) = ((q.num : Int) : ℚ) := by
      have : -(q.num.natAbs : Int) = q.num := by omega
      exact_mod_cast congrArg (fun z : Int => (z : ℚ)) this
    rw [h1, Rat.num_div_den]
  · have hs : intToString q.num ++ "/" ++ natToString q.den
        = String.mk (natToDigits q.num.natAbs ++ '/' :: natToDigits q.den) := by
      rw [intToString, if_neg hneg, natToString, natToString, slash_str_eq,
        mk_append, mk_append]
      exact congrArg String.mk (by simp)
    rw [hs, nfs_mk_of_head_ne (digits_append_head_ne _ _ (natToDigits_ne_nil _)
      (fun c hc => natToDigits_isDigit hc))]
    rw [nfsCore_frac false (natToDigits_ne_nil _) (fun c hc => natToDigits_isDigit hc)
      (natToDigits_ne_nil _) (fun c hc => natToDigits_isDigit hc)]
    rw [digitsToNat_natToDigits, digitsToNat_natToDigits]
    simp only [Bool.false_eq_true, if_neg, if_false]
    rw [ratNormalize_eq_div _ _ hdnz]
    have h1 : (((q.num.natAbs : Int) : Int) : ℚ) = ((q.num : Int) : ℚ) := by
      have : ((q.num.natAbs : Int)) = q.num := by omega
      exact_mod_cast congrArg (fun z : Int => (z : ℚ)) this
    rw [h1, Rat.num_div_den]


theorem dec_key {m k t fl dtF den na : Nat}
    (hk : k = fl + t)
    (hfv : m % 10 ^ k = dtF * 10 ^ t)
    (hmden : m * den = na * 10 ^ k) :
    (m / 10 ^ k * 10 ^ fl + dtF) * den = na * 10 ^ fl := by
  have hN10 : (m / 10 ^ k * 10 ^ fl + dtF) * 10 ^ t = m := by
    have h1 : (10 : Nat) ^ fl * 10 ^ t = 10 ^ k := by rw [← pow_add, hk]
    calc (m / 10 ^ k * 10 ^ fl + dtF) * 10 ^ t
        = m / 10 ^ k * (10 ^ fl * 10 ^ t) + dtF * 10 ^ t := by ring
      _ = m / 10 ^ k * 10 ^ k + m % 10 ^ k := by rw [h1, hfv]
      _ = m := Nat.div_add_mod' m (10 ^ k)
  have h2 : ((m / 10 ^ k * 10 ^ fl + dtF) * den) * 10 ^ t = (na * 10 ^ fl) * 10 ^ t := by
    calc ((m / 10 ^ k * 10 ^ fl + dtF) * den) * 10 ^ t
        = ((m / 10 ^ k * 10 ^ fl + dtF) * 10 ^ t) * den := by ring
      _ = m * den := by rw [hN10]
      _ = na * 10 ^ k := hmden
      _ = (na * 10 ^ fl) * 10 ^ t := by rw [mul_assoc, ← pow_add, hk]
  exact Nat.eq_of_mul_eq_mul_right (by positivity) h2


theorem empty_append_mk (l : List Char) : "" ++ String.mk l = String.mk l := rfl

theorem dec_render_roundtrip {q : ℚ} (k : Nat) (hk : 0 < k)
    (hdvd : q.den ∣ 10 ^ k) (hden : q.den ≠ 1) :
    numFromString ((if q.num < 0 then "-" else "") ++
      String.mk (natToDigits (q.num.natAbs * (10 ^ k / q.den) / 10 ^ k)) ++ "." ++
      String.mk (dropTrailingZeros (padZeros k
        (natToDigits (q.num.natAbs * (10 ^ k / q.den) % 10 ^ k))))) = some q := by
  have hdnz : q.den ≠ 0 := Nat.pos_iff_ne_zero.mp q.pos
  have hdq : ((q.den : ℚ)) ≠ 0 := Nat.cast_ne_zero.mpr hdnz
  have hc : q.den * (10 ^ k / q.den) = 10 ^ k := Nat.mul_div_cancel' hdvd
  have hcnz : 10 ^ k / q.den ≠ 0 := by
    intro h0
    rw [h0, Nat.mul_zero] at hc
    exact absurd hc.symm (by positivity)
  have hm_den : q.num.natAbs * (10 ^ k / q.den) * q.den = q.num.natAbs * 10 ^ k := by
    rw [Nat.mul_assoc, Nat.mul_comm (10 ^ k / q.den) q.den, hc]
  have hmod : q.num.natAbs * (10 ^ k / q.den) % 10 ^ k ≠ 0 := by
    intro h0
    have hdvd10 : 10 ^ k ∣ q.num.natAbs * (10 ^ k / q.den) := Nat.dvd_of_mod_eq_zero h0
    have h1 : q.den * (10 ^ k / q.den) ∣ q.num.natAbs * (10 ^ k / q.den) := by
      rw [hc]
      exact hdvd10
    have h2 : q.den ∣ q.num.natAbs :=
      (Nat.mul_dvd_mul_iff_right (Nat.pos_of_ne_zero hcnz)).mp h1
    have h3 : q.den ∣ Nat.gcd q.num.natAbs q.den := Nat.dvd_gcd h2 dvd_rfl
    have h4 : Nat.gcd q.num.natAbs q.den = 1 := q.reduced
    rw [h4] at h3
    exact hden (Nat.dvd_one.mp h3)
  obtain ⟨m, hmq⟩ : ∃ m, q.num.natAbs * (10 ^ k / q.den) = m := ⟨_, rfl⟩
  rw [hmq] at hm_den hmod ⊢
  have hple : (natToDigits (m % 10 ^ k)).length ≤ k :=
    natToDigits_length_le hk (Nat.mod_lt _ (by positivity))
  have hplen : (padZeros k (natToDigits (m % 10 ^ k))).length = k := padZeros_length hple
  have hpval : digitsToNat (padZeros k (natToDigits (m % 10 ^ k))) = m % 10 ^ k := by
    rw [digitsToNat_padZeros, digitsToNat_natToDigits]
  have hpdig : ∀ c ∈ padZeros k (natToDigits (m % 10 ^ k)), c.isDigit = true := by
    intro c hcm
    simp only [padZeros] at hcm
    rcases List.mem_append.mp hcm with h1 | h1
    · rw [List.eq_of_mem_replicate h1]
      decide
    · exact natToDigits_isDigit h1
  obtain ⟨padded, hpad⟩ : ∃ p, padZeros k (natToDigits (m % 10 ^ k)) = p := ⟨_, rfl⟩
  rw [hpad] at hplen hpval hpdig ⊢
  have hfrval := digitsToNat_dropTrailingZeros padded
  have hlen := length_dropTrailingZeros padded
  have hfrne : dropTrailingZeros padded ≠ [] := by
    refine dropTrailingZeros_ne_nil ?_
    rw [hpval]
    exact hmod
  have hfrdig : ∀ c ∈ dropTrailingZeros padded, c.isDigit = true :=
    fun c hcm => hpdig c (mem_dropTrailingZeros hcm)
  obtain ⟨t, ht⟩ : ∃ t, (padded.reverse.takeWhile (fun c => c = '0')).length = t := ⟨_, rfl⟩
  rw [ht] at hfrval hlen
  obtain ⟨fr, hfr⟩ : ∃ f, dropTrailingZeros padded = f := ⟨_, rfl⟩
  rw [hfr] at hfrval hlen hfrne hfrdig ⊢
  have hkk : k = fr.length + t := by
    rw [← hplen]
    exact hlen
  have hfv : m % 10 ^ k = digitsToNat fr * 10 ^ t := by
    rw [← hpval]
    exact hfrval
  have hkey : (m / 10 ^ k * 10 ^ fr.length + digitsToNat fr) * q.den
      = q.num.natAbs * 10 ^ fr.length := dec_key hkk hfv hm_den
  obtain ⟨dd, hdd⟩ : ∃ dd, m / 10 ^ k = dd := ⟨_, rfl⟩
  rw [hdd] at hkey ⊢
  have hkeyQ : (((dd * 10 ^ fr.length + digitsToNat fr) * q.den : Nat) : ℚ)
      = ((q.num.natAbs * 10 ^ fr.length : Nat) : ℚ) :=
    congrArg (fun n : Nat => (n : ℚ)) hkey
  push_cast at hkeyQ
  have hcast1 : (((q.num.natAbs : Int)) : ℚ) = ((q.num.natAbs : Nat) : ℚ) := by
    push_cast
    rw [Int.cast_natAbs, Int.cast_abs]
  by_cases hneg : q.num < 0
  · rw [if_pos hneg]
    have hs : "-" ++ String.mk (natToDigits dd) ++ "." ++ String.mk fr
        = String.mk ('-' :: (natToDigits dd ++ '.' :: fr)) := by
      rw [dash_mk, dot_str_eq, mk_append, mk_append]
      exact congrArg String.mk (by simp)
    rw [hs, nfs_mk_minus]
    rw [nfsCore_dec true (fun c hc => natToDigits_isDigit hc) hfrne hfrdig]
    refine congrArg some ?_
    simp only [decimalValue, if_pos]
    rw [digitsToNat_natToDigits]
    rw [ratNormalize_eq_div _ _ (by positivity)]
    conv_rhs => rw [← Rat.num_div_den q]
    rw [div_eq_div_iff (by positivity) hdq]
    have hnum : ((q.num : Int) : ℚ) = -((q.num.natAbs : Nat) : ℚ) := by
      rw [← hcast1, ← Int.cast_neg]
      exact congrArg (fun z : Int => (z : ℚ)) (by omega)
    rw [hnum]
    push_cast
    linear_combination -hkeyQ
  · rw [if_neg hneg]
    have hs : "" ++ String.mk (natToDigits dd) ++ "." ++ String.mk fr
        = String.mk (natToDigits dd ++ '.' :: fr) := by
      rw [empty_append_mk, dot_str_eq, mk_append, mk_append]
      exact congrArg String.mk (by simp)
    rw [hs, nfs_mk_of_head_ne (digits_append_head_ne _ _ (natToDigits_ne_nil _)
      (fun c hc => natToDigits_isDigit hc))]
    rw [nfsCore_dec false (fun c hc => natToDigits_isDigit hc) hfrne hfrdig]
    refine congrArg some ?_
    simp only [decimalValue, Bool.false_eq_true, if_neg, if_false]
    rw [digitsToNat_natToDigits]
    rw [ratNormalize_eq_div _ _ (by positivity)]
    conv_rhs => rw [← Rat.num_div_den q]
    rw [div_eq_div_iff (by positivity) hdq]
    have hnum : ((q.num : Int) : ℚ) = ((q.num.natAbs : Nat) : ℚ) := by
      rw [← hcast1]
      exact congrArg (fun z : Int => (z : ℚ)) (by omega)
    rw [hnum]
    push_cast
    linear_combination hkeyQ


theorem roundtrip_dec {q : ℚ} (hden : q.den ≠ 1)
    (hp : q.den = 2 ^ pow2In q.den * 5 ^ pow5In q.den) :
    numFromString (numToString q) = some q := by
  have hk : 0 < max (pow2In q.den) (pow5In q.den) := by
    rcases Nat.eq_zero_or_pos (max (pow2In q.den) (pow5In q.den)) with h0 | h0
    · have h2 := Nat.max_eq_zero_iff.mp h0
      rw [h2.1, h2.2] at hp
      simp at hp
      exact absurd hp hden
    · exact h0
  have h10 : (10 : Nat) ^ max (pow2In q.den) (pow5In q.den)
      = 2 ^ max (pow2In q.den) (pow5In q.den) * 5 ^ max (pow2In q.den) (pow5In q.den) := by
    rw [← Nat.mul_pow]
  have hdvd : q.den ∣ 10 ^ max (pow2In q.den) (pow5In q.den) := by
    conv_lhs => rw [hp]
    rw [h10]
    exact mul_dvd_mul (pow_dvd_pow 2 (Nat.le_max_left _ _))
      (pow_dvd_pow 5 (Nat.le_max_right _ _))
  have hmain := dec_render_roundtrip (max (pow2In q.den) (pow5In q.den)) hk hdvd hden
  simp only [numToString, if_neg hden, if_pos hp]
  exact hmain

theorem numFromString_numToString (q : ℚ) : numFromString (numToString q) = some q := by
  by_cases h1 : q.den = 1
  · exact roundtrip_int h1
  · by_cases h2 : q.den = 2 ^ pow2In q.den * 5 ^ pow5In q.den
    · exact roundtrip_dec h1 h2
    · exact roundtrip_frac h1 h2

theorem numToString_inj {a b : ℚ} (h : numToString a = numToString b) : a = b := by
  have ha := numFromString_numToString a
  rw [h, numFromString_numToString b] at ha
  exact (Option.some_inj.mp ha).symm

theorem numToString_ne_null (q : ℚ) : numToString q ≠ "null" := by
  intro h
  have hq := numFromString_numToString q
  rw [h] at hq
  have hnone : numFromString "null" = none := rfl
  rw [hnone] at hq
  exact Option.noConfusion hq




/-- Serialization is the identity on scalars. -/
theorem serializedConst_scalar {v : Value} (h : isScalar v = true) :
    serializedConst v = v := by
  cases v <;> simp [isScalar] at h <;> rfl


/-- The deduplication key is injective on scalars. -/
theorem constKey_scalar_inj {v w : Value} (hv : isScalar v = true)
    (hw : isScalar w = true) (h : constKey v = constKey w) : v = w := by
  cases v <;> cases w <;>
      simp only [isScalar, Bool.false_eq_true] at hv hw <;>
      simp only [constKey, jsTypeof, jsonStringify, Option.getD] at h <;>
      first
        | rfl
        | exact absurd h (by decide)
        | exact congrArg vNum (numToString_inj (strAppend_cancel_left h))
        | exact congrArg vStr (strAppend_cancel_left h)
        | exact absurd (strAppend_cancel_left h) (numToString_ne_null _)
        | exact absurd (strAppend_cancel_left h).symm (numToString_ne_null _)
        | exact absurd (Option.some.inj (congrArg (fun s : String => s.data.head?) h))
            (by decide)
        | (rename_i b c
           cases b <;> cases c <;> first | rfl | exact absurd h (by decide))



/-- Over a scalar pool, `getId` of a scalar resolves to exactly that
value, and the pool stays scalar. -/
theorem getId_scalar_resolve {p : ConstPool} (hwf : WFPool p)
    (hsc : ScalarPool p) {v : Value} (hv : isScalar v = true) :
    (p.getId v).2.list.getD (p.getId v).1 vUndef = v ∧ ScalarPool (p.getId v).2 := by
  cases hl : p.map.lookup (constKey v) with
  | some i =>
      rw [getId_of_lookup_some hl]
      obtain ⟨hlt, hkey⟩ := lookup_some_WFPool hwf hl
      refine ⟨?_, hsc⟩
      exact constKey_scalar_inj (hsc _ (getD_mem_of_lt hlt)) hv hkey
  | none =>
      rw [getId_of_lookup_none hl]
      constructor
      · show (p.list ++ [v]).getD p.list.length vUndef = v
        rw [List.getD_eq_getElem?_getD, List.getElem?_append_right (le_refl _)]
        simp
      · intro w hw
        rcases List.mem_append.mp hw with h | h
        · exact hsc w h
        · simp only [List.mem_singleton] at h
          rw [h]
          exact hv

/-- `PoolLE` is reflexive. -/
theorem PoolLE_refl (p : ConstPool) : PoolLE p p := ⟨[], by simp⟩

/-- `PoolLE` is transitive. -/
theorem PoolLE_trans {p q r : ConstPool} (h1 : PoolLE p q) (h2 : PoolLE q r) :
    PoolLE p r := by
  obtain ⟨s1, hs1⟩ := h1
  obtain ⟨s2, hs2⟩ := h2
  exact ⟨s1 ++ s2, by rw [hs2, hs1, List.append_assoc]⟩

/-- `PoolLE` only grows the value list. -/
theorem PoolLE_len {p q : ConstPool} (h : PoolLE p q) :
    p.list.length ≤ q.list.length := by
  obtain ⟨s, hs⟩ := h
  rw [hs]
  simp

/-- The id returned by `getId` is in range of any extension of the
resulting pool, and the extension's serialized table reads back the
scalar value at that id. -/
theorem getId_resolve_final {p final : ConstPool} (hwf : WFPool p)
    (hsc : ScalarPool p) {v : Value} (hv : isScalar v = true)
    (hle : PoolLE (p.getId v).2 final) (hflen : final.list.length < 2 ^ 32) :
    (p.getId v).1 < 2 ^ 32 ∧
    (poolConsts final).getD (p.getId v).1 vUndef = v := by
  have hlt : (p.getId v).1 < (p.getId v).2.list.length := getId_lt hwf v
  have hltf : (p.getId v).1 < final.list.length := lt_of_lt_of_le hlt (PoolLE_len hle)
  refine ⟨lt_trans hltf hflen, ?_⟩
  have h1 : final.list.getD (p.getId v).1 vUndef
      = (p.getId v).2.list.getD (p.getId v).1 vUndef := getD_of_poolLE hle hlt
  rw [poolConsts, getD_map_serialized hltf, h1,
    (getId_scalar_resolve hwf hsc hv).1, serializedConst_scalar hv]




theorem good_getId {p : ConstPool} (h : GoodPool p) {v : Value}
    (hv : isScalar v = true) :
    GoodPool (p.getId v).2 ∧ PoolLE p (p.getId v).2 :=
  ⟨⟨WFPool_getId v h.1, (getId_scalar_resolve h.1 h.2 hv).2⟩, getId_poolLE p v⟩

theorem isScalar_exprConst (q : Option ℚ) :
    isScalar (match q with | some x => vNum x | none => vNaN) = true := by
  cases q <;> rfl

/-- Expression compilation keeps the pool good and only extends it. -/
theorem pool_compileExpr : ∀ (e : Expr) (p : ConstPool) (c : List Nat),
    GoodPool p →
    GoodPool (compileExpr e p c).1 ∧ PoolLE p (compileExpr e p c).1 := by
  intro e
  induction e with
  | num q => intro p c h; exact good_getId h (isScalar_exprConst q)
  | str s => intro p c h; exact good_getId h rfl
  | bool b => intro p c h; exact good_getId h rfl
  | null => intro p c h; exact good_getId h rfl
  | ident n => intro p c h; exact good_getId h rfl
  | member o pr iho =>
      intro p c h
      obtain ⟨h1, h2⟩ := iho p c h
      obtain ⟨h3, h4⟩ := good_getId h1 (v := vStr pr) rfl
      exact ⟨h3, PoolLE_trans h2 h4⟩
  | binAdd l r ihl ihr =>
      intro p c h
      obtain ⟨h1, h2⟩ := ihl p c h
      obtain ⟨h3, h4⟩ := ihr _ _ h1
      exact ⟨h3, PoolLE_trans h2 h4⟩
  | binSub l r ihl ihr =>
      intro p c h
      obtain ⟨h1, h2⟩ := ihl p c h
      obtain ⟨h3, h4⟩ := ihr _ _ h1
      exact ⟨h3, PoolLE_trans h2 h4⟩
  | binMul l r ihl ihr =>
      intro p c h
      obtain ⟨h1, h2⟩ := ihl p c h
      obtain ⟨h3, h4⟩ := ihr _ _ h1
      exact ⟨h3, PoolLE_trans h2 h4⟩
  | binDiv l r ihl ihr =>
      intro p c h
      obtain ⟨h1, h2⟩ := ihl p c h
      obtain ⟨h3, h4⟩ := ihr _ _ h1
      exact ⟨h3, PoolLE_trans h2 h4⟩

/-- Condition compilation keeps the pool good (the right-hand literal,
when compared, is a scalar). -/
theorem pool_compileCond (cond : Condition) (p : ConstPool) (c : List Nat)
    (hr : cond.op.isSome = true → isScalar (cond.right.getD vUndef) = true)
    (h : GoodPool p) :
    GoodPool (compileCond cond p c).1 ∧ PoolLE p (compileCond cond p c).1 := by
  unfold compileCond
  cases hop : cond.op with
  | none => exact good_getId h rfl
  | some op =>
      obtain ⟨h1, h2⟩ := good_getId h (v := vStr cond.left) rfl
      obtain ⟨h3, h4⟩ := good_getId h1 (hr (by rw [hop]; rfl))
      exact ⟨h3, PoolLE_trans h2 h4⟩

/-- Action compilation keeps the pool good (`set` stores scalars). -/
theorem pool_compileAction (a : ActionStmt) (p : ConstPool) (c : List Nat)
    (hset : (match a.action with
      | Action.set _ v => isScalar v
      | _ => true) = true)
    (h : GoodPool p) :
    GoodPool (compileAction a p c).1 ∧ PoolLE p (compileAction a p c).1 := by
  unfold compileAction
  cases ha : a.action with
  | emit name => exact good_getId h rfl
  | log m => exact ⟨h, PoolLE_refl p⟩
  | set name v =>
      rw [ha] at hset
      obtain ⟨h1, h2⟩ := good_getId h (v := v) hset
      obtain ⟨h3, h4⟩ := good_getId h1 (v := vStr name) rfl
      exact ⟨h3, PoolLE_trans h2 h4⟩


/-- One compiler statement keeps the pool good and only extends it. -/
theorem pool_compileStep (st : ConstPool × List Nat) (it : Item)
    (hok : itemOk it = true) (h : GoodPool st.1) :
    GoodPool (compileStep st it).1 ∧ PoolLE st.1 (compileStep st it).1 := by
  unfold compileStep
  cases it with
  | model m =>
      simp only [itemOk, Bool.and_eq_true, beq_iff_eq, Bool.or_eq_true] at hok
      obtain ⟨⟨hty, halgo⟩, hkey⟩ := hok
      have halgosc : isScalar (jsOr (ctxGet m.args "algorithm") (vStr "bubble")) = true := by
        rcases halgo with ha | ha <;> rw [ha] <;> rfl
      simp only [hty, if_true]
      obtain ⟨h1, h2⟩ := good_getId h halgosc
      by_cases hk : (jsOr (ctxGet m.args "key") (vStr "")).truthy = true
      · simp only [hk, if_true]
        obtain ⟨h3, h4⟩ := good_getId h1 hkey
        exact ⟨h3, PoolLE_trans h2 h4⟩
      · simp only [Bool.not_eq_true] at hk
        simp only [hk, Bool.false_eq_true, if_false]
        exact ⟨h1, h2⟩
  | out name => exact good_getId h rfl
  | letS s =>
      obtain ⟨h1, h2⟩ := pool_compileExpr s.expr st.1 st.2 h
      obtain ⟨h3, h4⟩ := good_getId h1 (v := vStr s.name) rfl
      exact ⟨h3, PoolLE_trans h2 h4⟩
  | input v => exact ⟨h, PoolLE_refl _⟩
  | node n => exact ⟨h, PoolLE_refl _⟩
  | edge e => exact ⟨h, PoolLE_refl _⟩
  | cond c => exact ⟨h, PoolLE_refl _⟩
  | action a =>
      simp only [itemOk, Bool.and_eq_true, Bool.or_eq_true, Bool.not_eq_true'] at hok
      obtain ⟨hc, hset⟩ := hok
      have hc' : a.condition.op.isSome = true → isScalar (a.condition.right.getD vUndef) = true := by
        intro hi
        rcases hc with h0 | h0
        · rw [hi] at h0; exact absurd h0 (by decide)
        · exact h0
      obtain ⟨h1, h2⟩ := pool_compileCond a.condition st.1 st.2 hc' h
      obtain ⟨h3, h4⟩ := pool_compileAction a _ _ hset h1
      exact ⟨h3, PoolLE_trans h2 h4⟩

/-- The compiler fold keeps the pool good and only extends it. -/
theorem pool_foldl : ∀ (items : List Item) (st : ConstPool × List Nat),
    (∀ it ∈ items, itemOk it = true) → GoodPool st.1 →
    GoodPool (items.foldl compileStep st).1 ∧ PoolLE st.1 (items.foldl compileStep st).1 := by
  intro items
  induction items with
  | nil => intro st _ h; exact ⟨h, PoolLE_refl _⟩
  | cons it rest ih =>
      intro st hok h
      obtain ⟨h1, h2⟩ := pool_compileStep st it (hok it (List.mem_cons_self _ _)) h
      obtain ⟨h3, h4⟩ := ih (compileStep st it)
        (fun x hx => hok x (List.mem_cons_of_mem _ hx)) h1
      exact ⟨h3, PoolLE_trans h2 h4⟩


/-- Compiled expression fragments are position independent: compiling
onto existing code appends the fragment compiled onto empty code. -/
theorem compileExpr_frag : ∀ (e : Expr) (p : ConstPool) (c : List Nat),
    compileExpr e p c = ((compileExpr e p []).1, c ++ (compileExpr e p []).2) := by
  intro e
  induction e with
  | num q => intro p c; simp [compileExpr, List.append_assoc]
  | str s => intro p c; simp [compileExpr, List.append_assoc]
  | bool b => intro p c; simp [compileExpr, List.append_assoc]
  | null => intro p c; simp [compileExpr, List.append_assoc]
  | ident n => intro p c; simp [compileExpr, List.append_assoc]
  | member o pr iho =>
      intro p c
      have hL : compileExpr (Expr.member o pr) p c
          = (((compileExpr o p c).1.getId (vStr pr)).2,
             (compileExpr o p c).2 ++ [opMEMBER]
               ++ u32Bytes ((compileExpr o p c).1.getId (vStr pr)).1) := rfl
      have hR : compileExpr (Expr.member o pr) p []
          = (((compileExpr o p []).1.getId (vStr pr)).2,
             (compileExpr o p []).2 ++ [opMEMBER]
               ++ u32Bytes ((compileExpr o p []).1.getId (vStr pr)).1) := rfl
      rw [hL, hR, iho p c]
      simp [List.append_assoc]
  | binAdd l r ihl ihr =>
      intro p c
      have hL : compileExpr (Expr.binAdd l r) p c
          = ((compileExpr r (compileExpr l p c).1 (compileExpr l p c).2).1,
             (compileExpr r (compileExpr l p c).1 (compileExpr l p c).2).2 ++ [opADD]) := rfl
      have hR : compileExpr (Expr.binAdd l r) p []
          = ((compileExpr r (compileExpr l p []).1 (compileExpr l p []).2).1,
             (compileExpr r (compileExpr l p []).1 (compileExpr l p []).2).2 ++ [opADD]) := rfl
      rw [hL, hR, ihl p c]
      simp only []
      rw [ihr ((compileExpr l p []).1) (c ++ (compileExpr l p []).2),
        ihr ((compileExpr l p []).1) ((compileExpr l p []).2)]
      simp [List.append_assoc]
  | binSub l r ihl ihr =>
      intro p c
      have hL : compileExpr (Expr.binSub l r) p c
          = ((compileExpr r (compileExpr l p c).1 (compileExpr l p c).2).1,
             (compileExpr r (compileExpr l p c).1 (compileExpr l p c).2).2 ++ [opSUB]) := rfl
      have hR : compileExpr (Expr.binSub l r) p []
          = ((compileExpr r (compileExpr l p []).1 (compileExpr l p []).2).1,
             (compileExpr r (compileExpr l p []).1 (compileExpr l p []).2).2 ++ [opSUB]) := rfl
      rw [hL, hR, ihl p c]
      simp only []
      rw [ihr ((compileExpr l p []).1) (c ++ (compileExpr l p []).2),
        ihr ((compileExpr l p []).1) ((compileExpr l p []).2)]
      simp [List.append_assoc]
  | binMul l r ihl ihr =>
      intro p c
      have hL : compileExpr (Expr.binMul l r) p c
          = ((compileExpr r (compileExpr l p c).1 (compileExpr l p c).2).1,
             (compileExpr r (compileExpr l p c).1 (compileExpr l p c).2).2 ++ [opMUL]) := rfl
      have hR : compileExpr (Expr.binMul l r) p []
          = ((compileExpr r (compileExpr l p []).1 (compileExpr l p []).2).1,
             (compileExpr r (compileExpr l p []).1 (compileExpr l p []).2).2 ++ [opMUL]) := rfl
      rw [hL, hR, ihl p c]
      simp only []
      rw [ihr ((compileExpr l p []).1) (c ++ (compileExpr l p []).2),
        ihr ((compileExpr l p []).1) ((compileExpr l p []).2)]
      simp [List.append_assoc]
  | binDiv l r ihl ihr =>
      intro p c
      have hL : compileExpr (Expr.binDiv l r) p c
          = ((compileExpr r (compileExpr l p c).1 (compileExpr l p c).2).1,
             (compileExpr r (compileExpr l p c).1 (compileExpr l p c).2).2 ++ [opDIV]) := rfl
      have hR : compileExpr (Expr.binDiv l r) p []
          = ((compileExpr r (compileExpr l p []).1 (compileExpr l p []).2).1,
             (compileExpr r (compileExpr l p []).1 (compileExpr l p []).2).2 ++ [opDIV]) := rfl
      rw [hL, hR, ihl p c]
      simp only []
      rw [ihr ((compileExpr l p []).1) (c ++ (compileExpr l p []).2),
        ihr ((compileExpr l p []).1) ((compileExpr l p []).2)]
      simp [List.append_assoc]


/-- Condition fragments are position independent. -/
theorem compileCond_frag (cond : Condition) (p : ConstPool) (c : List Nat) :
    compileCond cond p c = ((compileCond cond p []).1, c ++ (compileCond cond p []).2) := by
  unfold compileCond
  cases cond.op with
  | none => simp [List.append_assoc]
  | some op => cases op <;> simp [List.append_assoc]

/-- Action fragments are position independent. -/
theorem compileAction_frag (a : ActionStmt) (p : ConstPool) (c : List Nat) :
    compileAction a p c = ((compileAction a p []).1, c ++ (compileAction a p []).2) := by
  unfold compileAction
  cases a.action with
  | emit name => simp [List.append_assoc]
  | log m => simp
  | set name v => simp [List.append_assoc]

/-- Patching below an appended region stays inside the region. -/
theorem setI32At_shift (c X : List Nat) (n : Nat) (v : Int) (hn : c.length ≤ n) :
    setI32At (c ++ X) n v = c ++ setI32At X (n - c.length) v := by
  unfold setI32At
  rw [List.take_append_eq_append_take, List.drop_append_eq_append_drop]
  rw [List.take_of_length_le hn]
  rw [List.drop_eq_nil_of_le (by omega)]
  have h2 : n + 4 - c.length = n - c.length + 4 := by omega
  rw [h2]
  simp [List.append_assoc]


/-- Statement fragments are position independent. -/
theorem compileStep_frag (it : Item) (p : ConstPool) (c : List Nat) :
    compileStep (p, c) it = ((compileStep (p, []) it).1, c ++ (compileStep (p, []) it).2) := by
  cases it with
  | model m =>
      unfold compileStep
      by_cases hty : m.type = "sort"
      · simp only [hty, if_true]
        by_cases hk : (jsOr (ctxGet m.args "key") (vStr "")).truthy = true
        · simp [hk, List.append_assoc]
        · simp only [Bool.not_eq_true] at hk
          simp [hk, List.append_assoc]
      · simp [hty]
  | out name =>
      unfold compileStep
      simp [List.append_assoc]
  | letS s =>
      simp only [compileStep]
      rw [compileExpr_frag s.expr p c]
      simp [List.append_assoc]
  | input v => simp [compileStep]
  | node n => simp [compileStep]
  | edge e => simp [compileStep]
  | cond cc => simp [compileStep]
  | action a =>
      simp only [compileStep]
      rw [compileCond_frag a.condition p c]
      simp only []
      rw [compileAction_frag a ((compileCond a.condition p []).1)
          (c ++ (compileCond a.condition p []).2 ++ [opJUMP_IF_FALSE] ++ i32Bytes 0),
        compileAction_frag a ((compileCond a.condition p []).1)
          ((compileCond a.condition p []).2 ++ [opJUMP_IF_FALSE] ++ i32Bytes 0)]
      simp only []
      have harr : c ++ (compileCond a.condition p []).2 ++ [opJUMP_IF_FALSE] ++ i32Bytes 0 ++
          (compileAction a (compileCond a.condition p []).1 []).2
          = c ++ ((compileCond a.condition p []).2 ++ [opJUMP_IF_FALSE] ++ i32Bytes 0 ++
            (compileAction a (compileCond a.condition p []).1 []).2) := by
        simp [List.append_assoc]
      rw [harr, setI32At_shift c
        ((compileCond a.condition p []).2 ++ [opJUMP_IF_FALSE] ++ i32Bytes 0 ++
          (compileAction a (compileCond a.condition p []).1 []).2)
        ((c ++ (compileCond a.condition p []).2 ++ [opJUMP_IF_FALSE]).length) _
        (by simp only [List.length_append]; omega)]
      refine congrArg
        (fun z => ((compileAction a (compileCond a.condition p []).1 []).1, c ++ z)) ?_
      congr 1
      · simp only [List.length_append]
        omega
      · simp only [List.length_append]
        push_cast
        ring


theorem getD_append_right (c X : List Nat) (i : Nat) :
    (c ++ X).getD (c.length + i) 0 = X.getD i 0 := by
  rw [List.getD_eq_getElem?_getD, List.getD_eq_getElem?_getD,
    List.getElem?_append_right (Nat.le_add_right _ _)]
  simp

theorem getD_append_left {l1 l2 : List Nat} {i : Nat} (h : i < l1.length) :
    (l1 ++ l2).getD i 0 = l1.getD i 0 := by
  rw [List.getD_eq_getElem?_getD, List.getD_eq_getElem?_getD,
    List.getElem?_append, if_pos h]

theorem u32Bytes_length (n : Nat) : (u32Bytes n).length = 4 := rfl

theorem i32Bytes_length (v : Int) : (i32Bytes v).length = 4 := rfl

/-- A one-byte opcode read at the start of the appended region. -/
theorem readU8_at_append (c rest : List Nat) (op : Nat) :
    readU8At (c ++ op :: rest) (c.length : Int) = Except.ok op := by
  unfold readU8At
  rw [if_pos ⟨Int.ofNat_nonneg _, by
    simp only [List.length_append, List.length_cons]
    push_cast
    omega⟩]
  rw [Int.toNat_ofNat]
  rw [show c.length = c.length + 0 from rfl, getD_append_right]
  rfl

/-- A little-endian `u32` read recovers the encoded operand. -/
theorem readU32_at_append (c rest : List Nat) (n : Nat) (h : n < 2 ^ 32) :
    readU32At (c ++ u32Bytes n ++ rest) (c.length : Int) = Except.ok n := by
  unfold readU32At
  rw [if_pos ⟨Int.ofNat_nonneg _, by
    simp only [List.length_append, u32Bytes_length]
    push_cast
    omega⟩]
  rw [Int.toNat_ofNat]
  rw [List.append_assoc]
  have g0 := getD_append_right c (u32Bytes n ++ rest) 0
  have g1 := getD_append_right c (u32Bytes n ++ rest) 1
  have g2 := getD_append_right c (u32Bytes n ++ rest) 2
  have g3 := getD_append_right c (u32Bytes n ++ rest) 3
  rw [show c.length = c.length + 0 from rfl] 
  rw [show c.length + 0 + 1 = c.length + 1 from rfl,
    show c.length + 0 + 2 = c.length + 2 from rfl,
    show c.length + 0 + 3 = c.length + 3 from rfl]
  rw [g0, g1, g2, g3]
  rw [getD_append_left (by rw [u32Bytes_length]; omega),
    getD_append_left (by rw [u32Bytes_length]; omega),
    getD_append_left (by rw [u32Bytes_length]; omega),
    getD_append_left (by rw [u32Bytes_length]; omega)]
  refine congrArg Except.ok ?_
  simp only [u32Bytes, List.getD_cons_zero, List.getD_cons_succ]
  omega

/-- A little-endian `i32` read recovers a small non-negative operand. -/
theorem readI32_at_append (c rest : List Nat) (v : Int) (h0 : 0 ≤ v) (h1 : v < 2 ^ 31) :
    readI32At (c ++ i32Bytes v ++ rest) (c.length : Int) = Except.ok v := by
  unfold readI32At i32Bytes
  have hread : readU32At (c ++ u32Bytes (v % 2 ^ 32).toNat ++ rest) (c.length : Int)
      = Except.ok ((v % 2 ^ 32).toNat) := readU32_at_append c rest _ (by omega)
  rw [hread]
  simp only [Except.map, Except.bind, Except.pure, bind, pure]
  rw [if_pos (by omega)]
  refine congrArg Except.ok ?_
  omega


/-- A single accepted transition. -/
theorem vmsteps_single {consts : List Value} {code : List Nat} {a b : VMState}
    (h : VMStepOk consts code a b) : VMSteps consts code a b :=
  Relation.ReflTransGen.single h

/-- Chaining accepted transitions. -/
theorem vmsteps_trans {consts : List Value} {code : List Nat} {a b c : VMState}
    (h1 : VMSteps consts code a b) (h2 : VMSteps consts code b c) :
    VMSteps consts code a c :=
  Relation.ReflTransGen.trans h1 h2

/-- Enough fuel to cover the distance: a chain of forward-moving accepted
steps that ends exactly at the code's end runs to the final outputs. -/
theorem vmRun_of_VMSteps {consts : List Value} {code : List Nat} :
    ∀ {s f : VMState}, VMSteps consts code s f →
      f.ip = (code.length : Int) →
      ∀ fuel : Nat, (code.length : Int) - s.ip < fuel →
        vmRun consts code fuel s = Except.ok { outputs := f.outs, context := f.ctx } := by
  intro s f hsteps
  induction hsteps using Relation.ReflTransGen.head_induction_on with
  | refl =>
      intro hf fuel hfuel
      exact vmRun_done (by omega)
  | head hstep htail ih =>
      rename_i a m
      intro hf fuel hfuel
      obtain ⟨hip, hstep', hlt⟩ := hstep
      have hfpos : 0 < fuel := by omega
      obtain ⟨g, rfl⟩ : ∃ g, fuel = g + 1 := ⟨fuel - 1, by omega⟩
      rw [vmRun_step hip hstep']
      refine ih hf g ?_
      have hmle : m.ip ≤ (code.length : Int) := by
        rcases Relation.ReflTransGen.cases_head htail with heq | ⟨w, hstep2, _⟩
        · exact le_of_eq (by rw [heq, hf])
        · exact le_of_lt hstep2.1
      omega


/-- The two operand reads of a 5-byte instruction. -/
theorem frag_reads {full c post : List Nat} {op n : Nat} (hn : n < 2 ^ 32)
    (hfull : full = c ++ ([op] ++ u32Bytes n) ++ post) :
    readU8At full (c.length : Int) = Except.ok op ∧
    readU32At full ((c.length : Int) + 1) = Except.ok n := by
  subst hfull
  constructor
  · rw [show c ++ ([op] ++ u32Bytes n) ++ post = c ++ op :: (u32Bytes n ++ post) from by simp]
    exact readU8_at_append c (u32Bytes n ++ post) op
  · rw [show c ++ ([op] ++ u32Bytes n) ++ post = (c ++ [op]) ++ u32Bytes n ++ post from by simp,
      show (c.length : Int) + 1 = (((c ++ [op]).length : Nat) : Int) from by
        simp only [List.length_append, List.length_cons, List.length_nil]
        push_cast
        ring]
    exact readU32_at_append (c ++ [op]) post n hn


/-- A `CONST` instruction pushes the resolved constant. -/
theorem sim_instr_const {consts : List Value} {full c post : List Nat} {n : Nat}
    (hn : n < 2 ^ 32) {v : Value} (hv : consts.getD n vUndef = v)
    (hfull : full = c ++ ([opCONST] ++ u32Bytes n) ++ post)
    (stk : List Value) (ctx outs : Ctx) :
    VMSteps consts full
      { ip := (c.length : Int), stack := stk, ctx := ctx, outs := outs }
      { ip := (c.length : Int) + 5, stack := v :: stk, ctx := ctx, outs := outs } := by
  obtain ⟨h8, h32⟩ := frag_reads hn hfull
  refine vmsteps_single ⟨?_, ?_, ?_⟩
  · subst hfull
    simp only [List.length_append, List.length_cons, List.length_nil, u32Bytes_length]
    push_cast
    omega
  · rw [vmStep_const h8]
    simp only []
    rw [h32]
    simp only [Except.map]
    rw [hv]
  · simp only []
    omega

/-- A `GET_CTX` instruction pushes the named context value. -/
theorem sim_instr_get_ctx {consts : List Value} {full c post : List Nat} {n : Nat}
    (hn : n < 2 ^ 32) {nm : String} (hv : consts.getD n vUndef = vStr nm)
    (hfull : full = c ++ ([opGET_CTX] ++ u32Bytes n) ++ post)
    (stk : List Value) (ctx outs : Ctx) :
    VMSteps consts full
      { ip := (c.length : Int), stack := stk, ctx := ctx, outs := outs }
      { ip := (c.length : Int) + 5, stack := ctxGet ctx nm :: stk, ctx := ctx, outs := outs } := by
  obtain ⟨h8, h32⟩ := frag_reads hn hfull
  refine vmsteps_single ⟨?_, ?_, ?_⟩
  · subst hfull
    simp only [List.length_append, List.length_cons, List.length_nil, u32Bytes_length]
    push_cast
    omega
  · rw [vmStep_get_ctx h8]
    simp only []
    rw [h32]
    simp only [Except.map]
    rw [hv]
    rfl
  · simp only []
    omega

/-- A `SET_CTX` instruction pops the stored value. -/
theorem sim_instr_set_ctx {consts : List Value} {full c post : List Nat} {n : Nat}
    (hn : n < 2 ^ 32) {nm : String} (hv : consts.getD n vUndef = vStr nm)
    (hfull : full = c ++ ([opSET_CTX] ++ u32Bytes n) ++ post)
    (v : Value) (stk : List Value) (ctx outs : Ctx) :
    VMSteps consts full
      { ip := (c.length : Int), stack := v :: stk, ctx := ctx, outs := outs }
      { ip := (c.length : Int) + 5, stack := stk, ctx := ctxSet ctx nm v, outs := outs } := by
  obtain ⟨h8, h32⟩ := frag_reads hn hfull
  refine vmsteps_single ⟨?_, ?_, ?_⟩
  · subst hfull
    simp only [List.length_append, List.length_cons, List.length_nil, u32Bytes_length]
    push_cast
    omega
  · rw [vmStep_set_ctx h8]
    simp only []
    rw [h32]
    simp only [Except.map]
    rw [hv]
    rfl
  · simp only []
    omega

/-- A `MEMBER` instruction projects the popped value. -/
theorem sim_instr_member {consts : List Value} {full c post : List Nat} {n : Nat}
    (hn : n < 2 ^ 32) {nm : String} (hv : consts.getD n vUndef = vStr nm)
    (hfull : full = c ++ ([opMEMBER] ++ u32Bytes n) ++ post)
    (v : Value) (stk : List Value) (ctx outs : Ctx) :
    VMSteps consts full
      { ip := (c.length : Int), stack := v :: stk, ctx := ctx, outs := outs }
      { ip := (c.length : Int) + 5, stack := optProp v nm :: stk, ctx := ctx, outs := outs } := by
  obtain ⟨h8, h32⟩ := frag_reads hn hfull
  refine vmsteps_single ⟨?_, ?_, ?_⟩
  · subst hfull
    simp only [List.length_append, List.length_cons, List.length_nil, u32Bytes_length]
    push_cast
    omega
  · rw [vmStep_member h8]
    simp only []
    rw [h32]
    simp only [Except.map]
    rw [hv]
    rfl
  · simp only []
    omega

/-- An `EMIT_PREFERRED` instruction writes the preferred value. -/
theorem sim_instr_emit_preferred {consts : List Value} {full c post : List Nat} {n : Nat}
    (hn : n < 2 ^ 32) {nm : String} (hv : consts.getD n vUndef = vStr nm)
    (hfull : full = c ++ ([opEMIT_PREFERRED] ++ u32Bytes n) ++ post)
    (stk : List Value) (ctx outs : Ctx) :
    VMSteps consts full
      { ip := (c.length : Int), stack := stk, ctx := ctx, outs := outs }
      { ip := (c.length : Int) + 5, stack := stk, ctx := ctx,
        outs := ctxSet outs nm (cloneJSON (coalesce (ctxGet ctx nm)
          (coalesce (ctxGet ctx "sorted") (ctxGet ctx "input")))) } := by
  obtain ⟨h8, h32⟩ := frag_reads hn hfull
  refine vmsteps_single ⟨?_, ?_, ?_⟩
  · subst hfull
    simp only [List.length_append, List.length_cons, List.length_nil, u32Bytes_length]
    push_cast
    omega
  · rw [vmStep_emit_preferred h8]
    simp only []
    rw [h32]
    simp only [Except.map]
    rw [hv]
    rfl
  · simp only []
    omega


/-- A stack-only instruction of one byte (arithmetic or comparison). -/
theorem sim_instr_binop (consts : List Value) {full c post : List Nat} {op : Nat}
    {f : Value → Value → Value}
    (hdisp : ∀ s : VMState, readU8At full s.ip = Except.ok op →
      vmStep consts full s = Except.ok
        { s with
            ip := s.ip + 1,
            stack := f (popV (popV s.stack).2).1 (popV s.stack).1
              :: (popV (popV s.stack).2).2 })
    (hfull : full = c ++ [op] ++ post)
    (a b : Value) (stk : List Value) (ctx outs : Ctx) :
    VMSteps consts full
      { ip := (c.length : Int), stack := b :: a :: stk, ctx := ctx, outs := outs }
      { ip := (c.length : Int) + 1, stack := f a b :: stk, ctx := ctx, outs := outs } := by
  have h8 : readU8At full (c.length : Int) = Except.ok op := by
    subst hfull
    rw [show c ++ [op] ++ post = c ++ op :: post from by simp]
    exact readU8_at_append c post op
  refine vmsteps_single ⟨?_, ?_, ?_⟩
  · subst hfull
    simp only [List.length_append, List.length_cons, List.length_nil]
    push_cast
    omega
  · rw [hdisp _ h8]
    rfl
  · simp only []
    omega

/-- The operand read of a `JUMP_IF_FALSE`. -/
theorem frag_reads_i32 {full c post : List Nat} {op : Nat} {rel : Int}
    (h0 : 0 ≤ rel) (h1 : rel < 2 ^ 31)
    (hfull : full = c ++ ([op] ++ i32Bytes rel) ++ post) :
    readU8At full (c.length : Int) = Except.ok op ∧
    readI32At full ((c.length : Int) + 1) = Except.ok rel := by
  subst hfull
  constructor
  · rw [show c ++ ([op] ++ i32Bytes rel) ++ post = c ++ op :: (i32Bytes rel ++ post) from by simp]
    exact readU8_at_append c (i32Bytes rel ++ post) op
  · rw [show c ++ ([op] ++ i32Bytes rel) ++ post = (c ++ [op]) ++ i32Bytes rel ++ post from by simp,
      show (c.length : Int) + 1 = (((c ++ [op]).length : Nat) : Int) from by
        simp only [List.length_append, List.length_cons, List.length_nil]
        push_cast
        ring]
    exact readI32_at_append (c ++ [op]) post rel h0 h1

/-- A `JUMP_IF_FALSE` with a small non-negative relative target. -/
theorem sim_instr_jif (consts : List Value) {full c post : List Nat} {rel : Int}
    (h0 : 0 ≤ rel) (h1 : rel < 2 ^ 31)
    (hfull : full = c ++ ([opJUMP_IF_FALSE] ++ i32Bytes rel) ++ post)
    (v : Value) (stk : List Value) (ctx outs : Ctx) :
    VMSteps consts full
      { ip := (c.length : Int), stack := v :: stk, ctx := ctx, outs := outs }
      { ip := (if v.truthy then (c.length : Int) + 5 else (c.length : Int) + 5 + rel),
        stack := stk, ctx := ctx, outs := outs } := by
  obtain ⟨h8, h32⟩ := frag_reads_i32 h0 h1 hfull
  refine vmsteps_single ⟨?_, ?_, ?_⟩
  · subst hfull
    simp only [List.length_append, List.length_cons, List.length_nil, i32Bytes_length]
    push_cast
    omega
  · rw [vmStep_jump_if_false h8]
    simp only []
    rw [h32]
    rfl
  · simp only []
    by_cases hv : v.truthy = true
    · simp only [hv, if_true]
      omega
    · simp only [Bool.not_eq_true] at hv
      simp only [hv, Bool.false_eq_true, if_false]
      omega

/-- A `SORT` instruction over an inferable list. -/
theorem sim_instr_sort (consts : List Value) {full c post : List Nat} {aid kid : Nat}
    (haid : aid < 2 ^ 32) (hkid : kid < 2 ^ 32)
    (hfull : full = c ++ ([opSORT] ++ u32Bytes aid ++ u32Bytes kid) ++ post)
    {ctx : Ctx} {list : List Value} (hlist : inferListFromContext ctx = some list)
    (stk : List Value) (outs : Ctx) :
    VMSteps consts full
      { ip := (c.length : Int), stack := stk, ctx := ctx, outs := outs }
      { ip := (c.length : Int) + 9, stack := stk,
        ctx := ctxSet ctx "sorted" (vArr
          (if consts.getD aid vUndef = vStr "native" then
            nativeSort list (if kid = 0xFFFFFFFF then vUndef else consts.getD kid vUndef)
          else bubbleSort list (if kid = 0xFFFFFFFF then vUndef else consts.getD kid vUndef))),
        outs := outs } := by
  have h8 : readU8At full (c.length : Int) = Except.ok opSORT := by
    rw [hfull, show c ++ ([opSORT] ++ u32Bytes aid ++ u32Bytes kid) ++ post
        = c ++ opSORT :: (u32Bytes aid ++ u32Bytes kid ++ post) from by simp]
    exact readU8_at_append c _ opSORT
  have h32a : readU32At full ((c.length : Int) + 1) = Except.ok aid := by
    rw [hfull, show c ++ ([opSORT] ++ u32Bytes aid ++ u32Bytes kid) ++ post
        = (c ++ [opSORT]) ++ u32Bytes aid ++ (u32Bytes kid ++ post) from by simp,
      show (c.length : Int) + 1 = (((c ++ [opSORT]).length : Nat) : Int) from by
        simp only [List.length_append, List.length_cons, List.length_nil]
        push_cast
        ring]
    exact readU32_at_append (c ++ [opSORT]) (u32Bytes kid ++ post) aid haid
  have h32k : readU32At full ((c.length : Int) + 5) = Except.ok kid := by
    rw [hfull, show c ++ ([opSORT] ++ u32Bytes aid ++ u32Bytes kid) ++ post
        = (c ++ [opSORT] ++ u32Bytes aid) ++ u32Bytes kid ++ post from by simp,
      show (c.length : Int) + 5 = (((c ++ [opSORT] ++ u32Bytes aid).length : Nat) : Int) from by
        simp only [List.length_append, List.length_cons, List.length_nil, u32Bytes_length]
        push_cast
        ring]
    exact readU32_at_append (c ++ [opSORT] ++ u32Bytes aid) post kid hkid
  refine vmsteps_single ⟨?_, ?_, ?_⟩
  · rw [hfull]
    simp only [List.length_append, List.length_cons, List.length_nil, u32Bytes_length]
    push_cast
    omega
  · rw [vmStep_sort h8]
    simp only []
    rw [h32a, h32k]
    simp only []
    rw [hlist]
  · simp only []
    omega


/-- End-state instruction-pointer transport. -/
theorem vmsteps_end_ip {consts : List Value} {code : List Nat} {a : VMState}
    {j j' : Int} (h : j = j') {stk : List Value} {ctx outs : Ctx}
    (hs : VMSteps consts code a { ip := j, stack := stk, ctx := ctx, outs := outs }) :
    VMSteps consts code a { ip := j', stack := stk, ctx := ctx, outs := outs } :=
  h ▸ hs

/-- Compiled expressions evaluate on the VM exactly as `evalExpression`:
running the fragment pushes the value and leaves context and outputs
unchanged. -/
theorem simExpr {final : ConstPool} (hflen : final.list.length < 2 ^ 32) :
    ∀ (e : Expr) (p : ConstPool), GoodPool p →
      PoolLE (compileExpr e p []).1 final →
      ∀ (full c post : List Nat), full = c ++ (compileExpr e p []).2 ++ post →
      ∀ (stk : List Value) (ctx outs : Ctx),
      VMSteps (poolConsts final) full
        { ip := (c.length : Int), stack := stk, ctx := ctx, outs := outs }
        { ip := (((c ++ (compileExpr e p []).2).length : Nat) : Int),
          stack := evalExpression e ctx :: stk, ctx := ctx, outs := outs } := by
  intro e
  induction e with
  | num q =>
      intro p hgood hle full c post hfull stk ctx outs
      cases q with
      | some x =>
          obtain ⟨hn, hval⟩ :=
            getId_resolve_final hgood.1 hgood.2 (v := vNum x) rfl hle hflen
          have hfr : (compileExpr (Expr.num (some x)) p []).2
              = [opCONST] ++ u32Bytes (p.getId (vNum x)).1 := rfl
          rw [hfr] at hfull ⊢
          exact vmsteps_end_ip
            (by simp only [List.length_append, List.length_cons, List.length_nil,
                  u32Bytes_length]
                push_cast
                ring)
            (sim_instr_const hn hval hfull stk ctx outs)
      | none =>
          obtain ⟨hn, hval⟩ :=
            getId_resolve_final hgood.1 hgood.2 (v := vNaN) rfl hle hflen
          have hfr : (compileExpr (Expr.num none) p []).2
              = [opCONST] ++ u32Bytes (p.getId vNaN).1 := rfl
          rw [hfr] at hfull ⊢
          exact vmsteps_end_ip
            (by simp only [List.length_append, List.length_cons, List.length_nil,
                  u32Bytes_length]
                push_cast
                ring)
            (sim_instr_const hn hval hfull stk ctx outs)
  | str s =>
      intro p hgood hle full c post hfull stk ctx outs
      obtain ⟨hn, hval⟩ :=
        getId_resolve_final hgood.1 hgood.2 (v := vStr s) rfl hle hflen
      have hfr : (compileExpr (Expr.str s) p []).2
          = [opCONST] ++ u32Bytes (p.getId (vStr s)).1 := rfl
      rw [hfr] at hfull ⊢
      exact vmsteps_end_ip
        (by simp only [List.length_append, List.length_cons, List.length_nil,
              u32Bytes_length]
            push_cast
            ring)
        (sim_instr_const hn hval hfull stk ctx outs)
  | bool b =>
      intro p hgood hle full c post hfull stk ctx outs
      obtain ⟨hn, hval⟩ :=
        getId_resolve_final hgood.1 hgood.2 (v := vBool b) rfl hle hflen
      have hfr : (compileExpr (Expr.bool b) p []).2
          = [opCONST] ++ u32Bytes (p.getId (vBool b)).1 := rfl
      rw [hfr] at hfull ⊢
      exact vmsteps_end_ip
        (by simp only [List.length_append, List.length_cons, List.length_nil,
              u32Bytes_length]
            push_cast
            ring)
        (sim_instr_const hn hval hfull stk ctx outs)
  | null =>
      intro p hgood hle full c post hfull stk ctx outs
      obtain ⟨hn, hval⟩ :=
        getId_resolve_final hgood.1 hgood.2 (v := vNull) rfl hle hflen
      have hfr : (compileExpr (Expr.null) p []).2
          = [opCONST] ++ u32Bytes (p.getId (vNull)).1 := rfl
      rw [hfr] at hfull ⊢
      exact vmsteps_end_ip
        (by simp only [List.length_append, List.length_cons, List.length_nil,
              u32Bytes_length]
            push_cast
            ring)
        (sim_instr_const hn hval hfull stk ctx outs)
  | ident n =>
      intro p hgood hle full c post hfull stk ctx outs
      obtain ⟨hn, hval⟩ :=
        getId_resolve_final hgood.1 hgood.2 (v := vStr n) rfl hle hflen
      have hfr : (compileExpr (Expr.ident n) p []).2
          = [opGET_CTX] ++ u32Bytes (p.getId (vStr n)).1 := rfl
      rw [hfr] at hfull ⊢
      exact vmsteps_end_ip
        (by simp only [List.length_append, List.length_cons, List.length_nil,
              u32Bytes_length]
            push_cast
            ring)
        (sim_instr_get_ctx hn hval hfull stk ctx outs)
  | member o pr iho =>
      intro p hgood hle full c post hfull stk ctx outs
      have hgo := pool_compileExpr o p [] hgood
      have hfr : (compileExpr (Expr.member o pr) p []).2
          = (compileExpr o p []).2 ++ ([opMEMBER]
            ++ u32Bytes ((compileExpr o p []).1.getId (vStr pr)).1) := by
        calc (compileExpr (Expr.member o pr) p []).2
            = (compileExpr o p []).2 ++ [opMEMBER]
              ++ u32Bytes ((compileExpr o p []).1.getId (vStr pr)).1 := rfl
          _ = _ := by simp [List.append_assoc]
      have hpool : (compileExpr (Expr.member o pr) p []).1
          = ((compileExpr o p []).1.getId (vStr pr)).2 := rfl
      have hleI : PoolLE ((compileExpr o p []).1.getId (vStr pr)).2 final := by
        rw [← hpool]; exact hle
      have hleO : PoolLE (compileExpr o p []).1 final :=
        PoolLE_trans (getId_poolLE _ _) hleI
      obtain ⟨hn, hval⟩ :=
        getId_resolve_final hgo.1.1 hgo.1.2 (v := vStr pr) rfl hleI hflen
      rw [hfr] at hfull ⊢
      have h1 := iho p hgood hleO full c
        (([opMEMBER] ++ u32Bytes ((compileExpr o p []).1.getId (vStr pr)).1) ++ post)
        (by rw [hfull]; simp [List.append_assoc]) stk ctx outs
      have h2 := sim_instr_member hn hval
        (show full = (c ++ (compileExpr o p []).2)
            ++ ([opMEMBER] ++ u32Bytes ((compileExpr o p []).1.getId (vStr pr)).1) ++ post
          from by rw [hfull]; simp [List.append_assoc])
        (evalExpression o ctx) stk ctx outs
      refine vmsteps_trans h1 (vmsteps_end_ip ?_ h2)
      simp only [List.length_append, List.length_cons, List.length_nil, u32Bytes_length]
      push_cast
      ring
  | binAdd l r ihl ihr =>
      intro p hgood hle full c post hfull stk ctx outs
      have hgl := pool_compileExpr l p [] hgood
      have hgr := pool_compileExpr r (compileExpr l p []).1 [] hgl.1
      have hfr : (compileExpr (Expr.binAdd l r) p []).2
          = (compileExpr l p []).2 ++ (compileExpr r (compileExpr l p []).1 []).2
            ++ [opADD] := by
        calc (compileExpr (Expr.binAdd l r) p []).2
            = (compileExpr r (compileExpr l p []).1 (compileExpr l p []).2).2
              ++ [opADD] := rfl
          _ = _ := by
              rw [compileExpr_frag r (compileExpr l p []).1 (compileExpr l p []).2]
      have hpool : (compileExpr (Expr.binAdd l r) p []).1
          = (compileExpr r (compileExpr l p []).1 []).1 := by
        calc (compileExpr (Expr.binAdd l r) p []).1
            = (compileExpr r (compileExpr l p []).1 (compileExpr l p []).2).1 := rfl
          _ = _ := by
              rw [compileExpr_frag r (compileExpr l p []).1 (compileExpr l p []).2]
      have hleB : PoolLE (compileExpr r (compileExpr l p []).1 []).1 final := by
        rw [← hpool]; exact hle
      have hleA : PoolLE (compileExpr l p []).1 final := PoolLE_trans hgr.2 hleB
      rw [hfr] at hfull ⊢
      have h1 := ihl p hgood hleA full c
        ((compileExpr r (compileExpr l p []).1 []).2 ++ [opADD] ++ post)
        (by rw [hfull]; simp [List.append_assoc]) stk ctx outs
      have h2 := ihr (compileExpr l p []).1 hgl.1 hleB full (c ++ (compileExpr l p []).2)
        ([opADD] ++ post)
        (by rw [hfull]; simp [List.append_assoc]) (evalExpression l ctx :: stk) ctx outs
      have h3 := sim_instr_binop (poolConsts final)
        (fun s h => vmStep_add h)
        (show full = (c ++ (compileExpr l p []).2
              ++ (compileExpr r (compileExpr l p []).1 []).2) ++ [opADD] ++ post
          from by rw [hfull]; simp [List.append_assoc])
        (evalExpression l ctx) (evalExpression r ctx) stk ctx outs
      refine vmsteps_trans h1 (vmsteps_trans h2 (vmsteps_end_ip ?_ h3))
      simp only [List.length_append, List.length_cons, List.length_nil]
      push_cast
      ring
  | binSub l r ihl ihr =>
      intro p hgood hle full c post hfull stk ctx outs
      have hgl := pool_compileExpr l p [] hgood
      have hgr := pool_compileExpr r (compileExpr l p []).1 [] hgl.1
      have hfr : (compileExpr (Expr.binSub l r) p []).2
          = (compileExpr l p []).2 ++ (compileExpr r (compileExpr l p []).1 []).2
            ++ [opSUB] := by
        calc (compileExpr (Expr.binSub l r) p []).2
            = (compileExpr r (compileExpr l p []).1 (compileExpr l p []).2).2
              ++ [opSUB] := rfl
          _ = _ := by
              rw [compileExpr_frag r (compileExpr l p []).1 (compileExpr l p []).2]
      have hpool : (compileExpr (Expr.binSub l r) p []).1
          = (compileExpr r (compileExpr l p []).1 []).1 := by
        calc (compileExpr (Expr.binSub l r) p []).1
            = (compileExpr r (compileExpr l p []).1 (compileExpr l p []).2).1 := rfl
          _ = _ := by
              rw [compileExpr_frag r (compileExpr l p []).1 (compileExpr l p []).2]
      have hleB : PoolLE (compileExpr r (compileExpr l p []).1 []).1 final := by
        rw [← hpool]; exact hle
      have hleA : PoolLE (compileExpr l p []).1 final := PoolLE_trans hgr.2 hleB
      rw [hfr] at hfull ⊢
      have h1 := ihl p hgood hleA full c
        ((compileExpr r (compileExpr l p []).1 []).2 ++ [opSUB] ++ post)
        (by rw [hfull]; simp [List.append_assoc]) stk ctx outs
      have h2 := ihr (compileExpr l p []).1 hgl.1 hleB full (c ++ (compileExpr l p []).2)
        ([opSUB] ++ post)
        (by rw [hfull]; simp [List.append_assoc]) (evalExpression l ctx :: stk) ctx outs
      have h3 := sim_instr_binop (poolConsts final)
        (fun s h => vmStep_sub h)
        (show full = (c ++ (compileExpr l p []).2
              ++ (compileExpr r (compileExpr l p []).1 []).2) ++ [opSUB] ++ post
          from by rw [hfull]; simp [List.append_assoc])
        (evalExpression l ctx) (evalExpression r ctx) stk ctx outs
      refine vmsteps_trans h1 (vmsteps_trans h2 (vmsteps_end_ip ?_ h3))
      simp only [List.length_append, List.length_cons, List.length_nil]
      push_cast
      ring
  | binMul l r ihl ihr =>
      intro p hgood hle full c post hfull stk ctx outs
      have hgl := pool_compileExpr l p [] hgood
      have hgr := pool_compileExpr r (compileExpr l p []).1 [] hgl.1
      have hfr : (compileExpr (Expr.binMul l r) p []).2
          = (compileExpr l p []).2 ++ (compileExpr r (compileExpr l p []).1 []).2
            ++ [opMUL] := by
        calc (compileExpr (Expr.binMul l r) p []).2
            = (compileExpr r (compileExpr l p []).1 (compileExpr l p []).2).2
              ++ [opMUL] := rfl
          _ = _ := by
              rw [compileExpr_frag r (compileExpr l p []).1 (compileExpr l p []).2]
      have hpool : (compileExpr (Expr.binMul l r) p []).1
          = (compileExpr r (compileExpr l p []).1 []).1 := by
        calc (compileExpr (Expr.binMul l r) p []).1
            = (compileExpr r (compileExpr l p []).1 (compileExpr l p []).2).1 := rfl
          _ = _ := by
              rw [compileExpr_frag r (compileExpr l p []).1 (compileExpr l p []).2]
      have hleB : PoolLE (compileExpr r (compileExpr l p []).1 []).1 final := by
        rw [← hpool]; exact hle
      have hleA : PoolLE (compileExpr l p []).1 final := PoolLE_trans hgr.2 hleB
      rw [hfr] at hfull ⊢
      have h1 := ihl p hgood hleA full c
        ((compileExpr r (compileExpr l p []).1 []).2 ++ [opMUL] ++ post)
        (by rw [hfull]; simp [List.append_assoc]) stk ctx outs
      have h2 := ihr (compileExpr l p []).1 hgl.1 hleB full (c ++ (compileExpr l p []).2)
        ([opMUL] ++ post)
        (by rw [hfull]; simp [List.append_assoc]) (evalExpression l ctx :: stk) ctx outs
      have h3 := sim_instr_binop (poolConsts final)
        (fun s h => vmStep_mul h)
        (show full = (c ++ (compileExpr l p []).2
              ++ (compileExpr r (compileExpr l p []).1 []).2) ++ [opMUL] ++ post
          from by rw [hfull]; simp [List.append_assoc])
        (evalExpression l ctx) (evalExpression r ctx) stk ctx outs
      refine vmsteps_trans h1 (vmsteps_trans h2 (vmsteps_end_ip ?_ h3))
      simp only [List.length_append, List.length_cons, List.length_nil]
      push_cast
      ring
  | binDiv l r ihl ihr =>
      intro p hgood hle full c post hfull stk ctx outs
      have hgl := pool_compileExpr l p [] hgood
      have hgr := pool_compileExpr r (compileExpr l p []).1 [] hgl.1
      have hfr : (compileExpr (Expr.binDiv l r) p []).2
          = (compileExpr l p []).2 ++ (compileExpr r (compileExpr l p []).1 []).2
            ++ [opDIV] := by
        calc (compileExpr (Expr.binDiv l r) p []).2
            = (compileExpr r (compileExpr l p []).1 (compileExpr l p []).2).2
              ++ [opDIV] := rfl
          _ = _ := by
              rw [compileExpr_frag r (compileExpr l p []).1 (compileExpr l p []).2]
      have hpool : (compileExpr (Expr.binDiv l r) p []).1
          = (compileExpr r (compileExpr l p []).1 []).1 := by
        calc (compileExpr (Expr.binDiv l r) p []).1
            = (compileExpr r (compileExpr l p []).1 (compileExpr l p []).2).1 := rfl
          _ = _ := by
              rw [compileExpr_frag r (compileExpr l p []).1 (compileExpr l p []).2]
      have hleB : PoolLE (compileExpr r (compileExpr l p []).1 []).1 final := by
        rw [← hpool]; exact hle
      have hleA : PoolLE (compileExpr l p []).1 final := PoolLE_trans hgr.2 hleB
      rw [hfr] at hfull ⊢
      have h1 := ihl p hgood hleA full c
        ((compileExpr r (compileExpr l p []).1 []).2 ++ [opDIV] ++ post)
        (by rw [hfull]; simp [List.append_assoc]) stk ctx outs
      have h2 := ihr (compileExpr l p []).1 hgl.1 hleB full (c ++ (compileExpr l p []).2)
        ([opDIV] ++ post)
        (by rw [hfull]; simp [List.append_assoc]) (evalExpression l ctx :: stk) ctx outs
      have h3 := sim_instr_binop (poolConsts final)
        (fun s h => vmStep_div h)
        (show full = (c ++ (compileExpr l p []).2
              ++ (compileExpr r (compileExpr l p []).1 []).2) ++ [opDIV] ++ post
          from by rw [hfull]; simp [List.append_assoc])
        (evalExpression l ctx) (evalExpression r ctx) stk ctx outs
      refine vmsteps_trans h1 (vmsteps_trans h2 (vmsteps_end_ip ?_ h3))
      simp only [List.length_append, List.length_cons, List.length_nil]
      push_cast
      ring


/-- Start-state instruction-pointer transport. -/
theorem vmsteps_shift {consts : List Value} {code : List Nat} {i i' : Int}
    (h : i' = i) {stk : List Value} {ctx outs : Ctx} {b : VMState}
    (hs : VMSteps consts code { ip := i, stack := stk, ctx := ctx, outs := outs } b) :
    VMSteps consts code { ip := i', stack := stk, ctx := ctx, outs := outs } b :=
  h ▸ hs

/-- The truthiness of a compiled comparison's numeric result. -/
theorem truthy_cmp (b : Bool) : (vNum (if b then 1 else 0)).truthy = b := by
  cases b <;> simp [truthy]

/-- A compiled condition pushes a value whose truthiness is exactly
`evalCondition`. -/
theorem simCond {final : ConstPool} (hflen : final.list.length < 2 ^ 32)
    (cond : Condition) (p : ConstPool) (hgood : GoodPool p)
    (hr : cond.op.isSome = true → isScalar (cond.right.getD vUndef) = true)
    (hle : PoolLE (compileCond cond p []).1 final)
    (full c post : List Nat)
    (hfull : full = c ++ (compileCond cond p []).2 ++ post)
    (stk : List Value) (ctx outs : Ctx) :
    ∃ v : Value,
      v.truthy = evalCondition cond ctx ∧
      VMSteps (poolConsts final) full
        { ip := (c.length : Int), stack := stk, ctx := ctx, outs := outs }
        { ip := (((c ++ (compileCond cond p []).2).length : Nat) : Int),
          stack := v :: stk, ctx := ctx, outs := outs } := by
  cases hop : cond.op with
  | none =>
      have hfr : (compileCond cond p []).2
          = [opGET_CTX] ++ u32Bytes (p.getId (vStr cond.left)).1 := by
        simp only [compileCond, hop, List.nil_append]
      have hpool : (compileCond cond p []).1 = (p.getId (vStr cond.left)).2 := by
        simp only [compileCond, hop, List.nil_append]
      rw [hpool] at hle
      obtain ⟨hn, hval⟩ :=
        getId_resolve_final hgood.1 hgood.2 (v := vStr cond.left) rfl hle hflen
      rw [hfr] at hfull ⊢
      refine ⟨ctxGet ctx cond.left, ?_, ?_⟩
      · simp [evalCondition, hop]
      · exact vmsteps_end_ip
          (by simp only [List.length_append, List.length_cons, List.length_nil,
                u32Bytes_length]
              push_cast
              ring)
          (sim_instr_get_ctx hn hval hfull stk ctx outs)
  | some op =>
      have hg1 := good_getId hgood (v := vStr cond.left) rfl
      have hsc : isScalar (cond.right.getD vUndef) = true := hr (by rw [hop]; rfl)
      have hg2 := good_getId hg1.1 hsc
      have hfr : (compileCond cond p []).2
          = [opGET_CTX] ++ u32Bytes (p.getId (vStr cond.left)).1
            ++ [opCONST]
            ++ u32Bytes ((p.getId (vStr cond.left)).2.getId (cond.right.getD vUndef)).1
            ++ [match op with
                | CmpOp.opEq | CmpOp.opEqEq => opCMP_EQ
                | CmpOp.opGe => opCMP_GE
                | CmpOp.opLe => opCMP_LE
                | CmpOp.opGt => opCMP_GT
                | CmpOp.opLt => opCMP_LT] := by
        simp only [compileCond, hop, List.nil_append]
      have hpool : (compileCond cond p []).1
          = ((p.getId (vStr cond.left)).2.getId (cond.right.getD vUndef)).2 := by
        simp only [compileCond, hop, List.nil_append]
      obtain ⟨cb, hcb⟩ : ∃ cb, (match op with
          | CmpOp.opEq | CmpOp.opEqEq => opCMP_EQ
          | CmpOp.opGe => opCMP_GE
          | CmpOp.opLe => opCMP_LE
          | CmpOp.opGt => opCMP_GT
          | CmpOp.opLt => opCMP_LT) = cb := ⟨_, rfl⟩
      rw [hcb] at hfr
      rw [hpool] at hle
      obtain ⟨hn1, hval1⟩ :=
        getId_resolve_final hgood.1 hgood.2 (v := vStr cond.left) rfl
          (PoolLE_trans (getId_poolLE _ _) hle) hflen
      obtain ⟨hn2, hval2⟩ :=
        getId_resolve_final hg1.1.1 hg1.1.2 hsc hle hflen
      rw [hfr] at hfull ⊢
      have h1 := sim_instr_get_ctx hn1 hval1
        (show full = c ++ ([opGET_CTX] ++ u32Bytes (p.getId (vStr cond.left)).1)
            ++ (([opCONST]
              ++ u32Bytes ((p.getId (vStr cond.left)).2.getId (cond.right.getD vUndef)).1
              ++ [cb]) ++ post)
          from by rw [hfull]; simp [List.append_assoc]) stk ctx outs
      have h2 := sim_instr_const hn2 hval2
        (show full = (c ++ [opGET_CTX] ++ u32Bytes (p.getId (vStr cond.left)).1)
            ++ ([opCONST]
              ++ u32Bytes ((p.getId (vStr cond.left)).2.getId (cond.right.getD vUndef)).1)
            ++ ([cb] ++ post)
          from by rw [hfull]; simp [List.append_assoc])
        (ctxGet ctx cond.left :: stk) ctx outs
      have h2' := vmsteps_shift
        (show ((c.length : Int) + 5)
            = (((c ++ [opGET_CTX]
                ++ u32Bytes (p.getId (vStr cond.left)).1).length : Nat) : Int)
          from by
            simp only [List.length_append, List.length_cons, List.length_nil,
              u32Bytes_length]
            push_cast
            ring) h2
      cases op with
      | opEqEq =>
          have hcb2 : cb = opCMP_EQ := hcb.symm
          subst hcb2
          refine ⟨vNum (if jsLooseEq (ctxGet ctx cond.left) (cond.right.getD vUndef)
            then 1 else 0), ?_, ?_⟩
          · rw [truthy_cmp]
            simp [evalCondition, hop]
          · have h3 := sim_instr_binop (poolConsts final)
              (f := fun a b => vNum (if jsLooseEq a b then 1 else 0))
              (fun s h => vmStep_cmp_eq h)
              (show full = (c ++ [opGET_CTX] ++ u32Bytes (p.getId (vStr cond.left)).1
                  ++ [opCONST]
                  ++ u32Bytes ((p.getId (vStr cond.left)).2.getId
                    (cond.right.getD vUndef)).1)
                  ++ [opCMP_EQ] ++ post
                from by rw [hfull]; simp [List.append_assoc])
              (ctxGet ctx cond.left) (cond.right.getD vUndef) stk ctx outs
            have h3' := vmsteps_shift
              (show ((((c ++ [opGET_CTX]
                  ++ u32Bytes (p.getId (vStr cond.left)).1).length : Nat) : Int) + 5)
                  = (((c ++ [opGET_CTX] ++ u32Bytes (p.getId (vStr cond.left)).1
                    ++ [opCONST]
                    ++ u32Bytes ((p.getId (vStr cond.left)).2.getId
                      (cond.right.getD vUndef)).1).length : Nat) : Int)
                from by
                  simp only [List.length_append, List.length_cons, List.length_nil,
                    u32Bytes_length]
                  push_cast
                  ring) h3
            refine vmsteps_trans h1 (vmsteps_trans h2' (vmsteps_end_ip ?_ h3'))
            simp only [List.length_append, List.length_cons, List.length_nil,
              u32Bytes_length]
            push_cast
            ring
      | opEq =>
          have hcb2 : cb = opCMP_EQ := hcb.symm
          subst hcb2
          refine ⟨vNum (if jsLooseEq (ctxGet ctx cond.left) (cond.right.getD vUndef)
            then 1 else 0), ?_, ?_⟩
          · rw [truthy_cmp]
            simp [evalCondition, hop]
          · have h3 := sim_instr_binop (poolConsts final)
              (f := fun a b => vNum (if jsLooseEq a b then 1 else 0))
              (fun s h => vmStep_cmp_eq h)
              (show full = (c ++ [opGET_CTX] ++ u32Bytes (p.getId (vStr cond.left)).1
                  ++ [opCONST]
                  ++ u32Bytes ((p.getId (vStr cond.left)).2.getId
                    (cond.right.getD vUndef)).1)
                  ++ [opCMP_EQ] ++ post
                from by rw [hfull]; simp [List.append_assoc])
              (ctxGet ctx cond.left) (cond.right.getD vUndef) stk ctx outs
            have h3' := vmsteps_shift
              (show ((((c ++ [opGET_CTX]
                  ++ u32Bytes (p.getId (vStr cond.left)).1).length : Nat) : Int) + 5)
                  = (((c ++ [opGET_CTX] ++ u32Bytes (p.getId (vStr cond.left)).1
                    ++ [opCONST]
                    ++ u32Bytes ((p.getId (vStr cond.left)).2.getId
                      (cond.right.getD vUndef)).1).length : Nat) : Int)
                from by
                  simp only [List.length_append, List.length_cons, List.length_nil,
                    u32Bytes_length]
                  push_cast
                  ring) h3
            refine vmsteps_trans h1 (vmsteps_trans h2' (vmsteps_end_ip ?_ h3'))
            simp only [List.length_append, List.length_cons, List.length_nil,
              u32Bytes_length]
            push_cast
            ring
      | opGe =>
          have hcb2 : cb = opCMP_GE := hcb.symm
          subst hcb2
          refine ⟨vNum (if jsGe (ctxGet ctx cond.left) (cond.right.getD vUndef)
            then 1 else 0), ?_, ?_⟩
          · rw [truthy_cmp]
            simp [evalCondition, hop]
          · have h3 := sim_instr_binop (poolConsts final)
              (f := fun a b => vNum (if jsGe a b then 1 else 0))
              (fun s h => vmStep_cmp_ge h)
              (show full = (c ++ [opGET_CTX] ++ u32Bytes (p.getId (vStr cond.left)).1
                  ++ [opCONST]
                  ++ u32Bytes ((p.getId (vStr cond.left)).2.getId
                    (cond.right.getD vUndef)).1)
                  ++ [opCMP_GE] ++ post
                from by rw [hfull]; simp [List.append_assoc])
              (ctxGet ctx cond.left) (cond.right.getD vUndef) stk ctx outs
            have h3' := vmsteps_shift
              (show ((((c ++ [opGET_CTX]
                  ++ u32Bytes (p.getId (vStr cond.left)).1).length : Nat) : Int) + 5)
                  = (((c ++ [opGET_CTX] ++ u32Bytes (p.getId (vStr cond.left)).1
                    ++ [opCONST]
                    ++ u32Bytes ((p.getId (vStr cond.left)).2.getId
                      (cond.right.getD vUndef)).1).length : Nat) : Int)
                from by
                  simp only [List.length_append, List.length_cons, List.length_nil,
                    u32Bytes_length]
                  push_cast
                  ring) h3
            refine vmsteps_trans h1 (vmsteps_trans h2' (vmsteps_end_ip ?_ h3'))
            simp only [List.length_append, List.length_cons, List.length_nil,
              u32Bytes_length]
            push_cast
            ring
      | opLe =>
          have hcb2 : cb = opCMP_LE := hcb.symm
          subst hcb2
          refine ⟨vNum (if jsLe (ctxGet ctx cond.left) (cond.right.getD vUndef)
            then 1 else 0), ?_, ?_⟩
          · rw [truthy_cmp]
            simp [evalCondition, hop]
          · have h3 := sim_instr_binop (poolConsts final)
              (f := fun a b => vNum (if jsLe a b then 1 else 0))
              (fun s h => vmStep_cmp_le h)
              (show full = (c ++ [opGET_CTX] ++ u32Bytes (p.getId (vStr cond.left)).1
                  ++ [opCONST]
                  ++ u32Bytes ((p.getId (vStr cond.left)).2.getId
                    (cond.right.getD vUndef)).1)
                  ++ [opCMP_LE] ++ post
                from by rw [hfull]; simp [List.append_assoc])
              (ctxGet ctx cond.left) (cond.right.getD vUndef) stk ctx outs
            have h3' := vmsteps_shift
              (show ((((c ++ [opGET_CTX]
                  ++ u32Bytes (p.getId (vStr cond.left)).1).length : Nat) : Int) + 5)
                  = (((c ++ [opGET_CTX] ++ u32Bytes (p.getId (vStr cond.left)).1
                    ++ [opCONST]
                    ++ u32Bytes ((p.getId (vStr cond.left)).2.getId
                      (cond.right.getD vUndef)).1).length : Nat) : Int)
                from by
                  simp only [List.length_append, List.length_cons, List.length_nil,
                    u32Bytes_length]
                  push_cast
                  ring) h3
            refine vmsteps_trans h1 (vmsteps_trans h2' (vmsteps_end_ip ?_ h3'))
            simp only [List.length_append, List.length_cons, List.length_nil,
              u32Bytes_length]
            push_cast
            ring
      | opGt =>
          have hcb2 : cb = opCMP_GT := hcb.symm
          subst hcb2
          refine ⟨vNum (if jsGt (ctxGet ctx cond.left) (cond.right.getD vUndef)
            then 1 else 0), ?_, ?_⟩
          · rw [truthy_cmp]
            simp [evalCondition, hop]
          · have h3 := sim_instr_binop (poolConsts final)
              (f := fun a b => vNum (if jsGt a b then 1 else 0))
              (fun s h => vmStep_cmp_gt h)
              (show full = (c ++ [opGET_CTX] ++ u32Bytes (p.getId (vStr cond.left)).1
                  ++ [opCONST]
                  ++ u32Bytes ((p.getId (vStr cond.left)).2.getId
                    (cond.right.getD vUndef)).1)
                  ++ [opCMP_GT] ++ post
                from by rw [hfull]; simp [List.append_assoc])
              (ctxGet ctx cond.left) (cond.right.getD vUndef) stk ctx outs
            have h3' := vmsteps_shift
              (show ((((c ++ [opGET_CTX]
                  ++ u32Bytes (p.getId (vStr cond.left)).1).length : Nat) : Int) + 5)
                  = (((c ++ [opGET_CTX] ++ u32Bytes (p.getId (vStr cond.left)).1
                    ++ [opCONST]
                    ++ u32Bytes ((p.getId (vStr cond.left)).2.getId
                      (cond.right.getD vUndef)).1).length : Nat) : Int)
                from by
                  simp only [List.length_append, List.length_cons, List.length_nil,
                    u32Bytes_length]
                  push_cast
                  ring) h3
            refine vmsteps_trans h1 (vmsteps_trans h2' (vmsteps_end_ip ?_ h3'))
            simp only [List.length_append, List.length_cons, List.length_nil,
              u32Bytes_length]
            push_cast
            ring
      | opLt =>
          have hcb2 : cb = opCMP_LT := hcb.symm
          subst hcb2
          refine ⟨vNum (if jsLt (ctxGet ctx cond.left) (cond.right.getD vUndef)
            then 1 else 0), ?_, ?_⟩
          · rw [truthy_cmp]
            simp [evalCondition, hop]
          · have h3 := sim_instr_binop (poolConsts final)
              (f := fun a b => vNum (if jsLt a b then 1 else 0))
              (fun s h => vmStep_cmp_lt h)
              (show full = (c ++ [opGET_CTX] ++ u32Bytes (p.getId (vStr cond.left)).1
                  ++ [opCONST]
                  ++ u32Bytes ((p.getId (vStr cond.left)).2.getId
                    (cond.right.getD vUndef)).1)
                  ++ [opCMP_LT] ++ post
                from by rw [hfull]; simp [List.append_assoc])
              (ctxGet ctx cond.left) (cond.right.getD vUndef) stk ctx outs
            have h3' := vmsteps_shift
              (show ((((c ++ [opGET_CTX]
                  ++ u32Bytes (p.getId (vStr cond.left)).1).length : Nat) : Int) + 5)
                  = (((c ++ [opGET_CTX] ++ u32Bytes (p.getId (vStr cond.left)).1
                    ++ [opCONST]
                    ++ u32Bytes ((p.getId (vStr cond.left)).2.getId
                      (cond.right.getD vUndef)).1).length : Nat) : Int)
                from by
                  simp only [List.length_append, List.length_cons, List.length_nil,
                    u32Bytes_length]
                  push_cast
                  ring) h3
            refine vmsteps_trans h1 (vmsteps_trans h2' (vmsteps_end_ip ?_ h3'))
            simp only [List.length_append, List.length_cons, List.length_nil,
              u32Bytes_length]
            push_cast
            ring


/-- A compiled action fragment performs `runAction` on the VM. -/
theorem simAction {final : ConstPool} (hflen : final.list.length < 2 ^ 32)
    (a : ActionStmt) (p : ConstPool) (hgood : GoodPool p)
    (hset : (match a.action with
      | Action.set _ v => isScalar v
      | _ => true) = true)
    (hle : PoolLE (compileAction a p []).1 final)
    (full c post : List Nat)
    (hfull : full = c ++ (compileAction a p []).2 ++ post)
    (stk : List Value) (ctx outs : Ctx) :
    VMSteps (poolConsts final) full
      { ip := (c.length : Int), stack := stk, ctx := ctx, outs := outs }
      { ip := (((c ++ (compileAction a p []).2).length : Nat) : Int),
        stack := stk, ctx := (runAction a.action ctx outs).1,
        outs := (runAction a.action ctx outs).2 } := by
  cases ha : a.action with
  | emit name =>
      have hfr : (compileAction a p []).2
          = [opEMIT_PREFERRED] ++ u32Bytes (p.getId (vStr name)).1 := by
        simp only [compileAction, ha, List.nil_append]
      have hpool : (compileAction a p []).1 = (p.getId (vStr name)).2 := by
        simp only [compileAction, ha]
      rw [hpool] at hle
      obtain ⟨hn, hval⟩ :=
        getId_resolve_final hgood.1 hgood.2 (v := vStr name) rfl hle hflen
      rw [hfr] at hfull ⊢
      exact vmsteps_end_ip
        (by simp only [List.length_append, List.length_cons, List.length_nil,
              u32Bytes_length]
            push_cast
            ring)
        (sim_instr_emit_preferred hn hval hfull stk ctx outs)
  | log m =>
      have hfr : (compileAction a p []).2 = ([] : List Nat) := by
        simp only [compileAction, ha]
      rw [hfr]
      have heq : (VMState.mk (((c ++ ([] : List Nat)).length : Nat) : Int) stk
            (runAction (Action.log m) ctx outs).1 (runAction (Action.log m) ctx outs).2)
          = VMState.mk (c.length : Int) stk ctx outs := by
        simp [runAction]
      rw [heq]
      exact Relation.ReflTransGen.refl
  | set name v =>
      rw [ha] at hset
      have hfr : (compileAction a p []).2
          = [opCONST] ++ u32Bytes (p.getId v).1
            ++ [opSET_CTX] ++ u32Bytes ((p.getId v).2.getId (vStr name)).1 := by
        simp only [compileAction, ha, List.nil_append]
      have hpool : (compileAction a p []).1 = ((p.getId v).2.getId (vStr name)).2 := by
        simp only [compileAction, ha]
      rw [hpool] at hle
      have hg1 := good_getId hgood (v := v) hset
      obtain ⟨hn1, hval1⟩ :=
        getId_resolve_final hgood.1 hgood.2 hset
          (PoolLE_trans (getId_poolLE _ _) hle) hflen
      obtain ⟨hn2, hval2⟩ :=
        getId_resolve_final hg1.1.1 hg1.1.2 (v := vStr name) rfl hle hflen
      rw [hfr] at hfull ⊢
      have h1 := sim_instr_const hn1 hval1
        (show full = c ++ ([opCONST] ++ u32Bytes (p.getId v).1)
            ++ (([opSET_CTX] ++ u32Bytes ((p.getId v).2.getId (vStr name)).1) ++ post)
          from by rw [hfull]; simp [List.append_assoc]) stk ctx outs
      have h2 := sim_instr_set_ctx hn2 hval2
        (show full = (c ++ [opCONST] ++ u32Bytes (p.getId v).1)
            ++ ([opSET_CTX] ++ u32Bytes ((p.getId v).2.getId (vStr name)).1) ++ post
          from by rw [hfull]; simp [List.append_assoc])
        v stk ctx outs
      have h2' := vmsteps_shift
        (show ((c.length : Int) + 5)
            = (((c ++ [opCONST] ++ u32Bytes (p.getId v).1).length : Nat) : Int)
          from by
            simp only [List.length_append, List.length_cons, List.length_nil,
              u32Bytes_length]
            push_cast
            ring) h2
      refine vmsteps_trans h1 (vmsteps_end_ip ?_ h2')
      simp only [List.length_append, List.length_cons, List.length_nil,
        u32Bytes_length]
      push_cast
      ring


/-- Patching the placeholder replaces exactly its four bytes. -/
theorem setI32At_patch (A B : List Nat) (z v : Int) :
    setI32At (A ++ i32Bytes z ++ B) A.length v = A ++ i32Bytes v ++ B := by
  unfold setI32At
  have h1 : (A ++ i32Bytes z ++ B).take A.length = A := by
    rw [List.append_assoc, List.take_left]
  have h2 : (A ++ i32Bytes z ++ B).drop (A.length + 4) = B := by
    rw [show A.length + 4 = (A ++ i32Bytes z).length from by
        simp [List.length_append, i32Bytes_length]]
    exact List.drop_left _ _
  rw [h1, h2]

/-- An action fragment is at most ten bytes. -/
theorem compileAction_len_le (a : ActionStmt) (p : ConstPool) :
    (compileAction a p []).2.length ≤ 10 := by
  cases ha : a.action with
  | emit name =>
      have : (compileAction a p []).2
          = [opEMIT_PREFERRED] ++ u32Bytes (p.getId (vStr name)).1 := by
        simp only [compileAction, ha, List.nil_append]
      rw [this]
      simp [u32Bytes_length]
  | log m =>
      have : (compileAction a p []).2 = ([] : List Nat) := by
        simp only [compileAction, ha]
      rw [this]
      simp
  | set name v =>
      have : (compileAction a p []).2
          = [opCONST] ++ u32Bytes (p.getId v).1
            ++ [opSET_CTX] ++ u32Bytes ((p.getId v).2.getId (vStr name)).1 := by
        simp only [compileAction, ha, List.nil_append]
      rw [this]
      simp [u32Bytes_length]


/-- A compiled `sort` model statement performs `applyModel` on the VM. -/
theorem simStep_model {final : ConstPool} (hflen : final.list.length < 4294967295)
    (m : ModelSpec) (p : ConstPool) (hgood : GoodPool p)
    (hok : itemOk (Item.model m) = true)
    (hle : PoolLE (compileStep (p, []) (Item.model m)).1 final)
    (full c post : List Nat)
    (hfull : full = c ++ (compileStep (p, []) (Item.model m)).2 ++ post)
    (ctx outs ctx' outs' : Ctx)
    (hexec : execStep (ctx, outs) (Item.model m) = Except.ok (ctx', outs'))
    (stk : List Value) :
    VMSteps (poolConsts final) full
      { ip := (c.length : Int), stack := stk, ctx := ctx, outs := outs }
      { ip := (((c ++ (compileStep (p, []) (Item.model m)).2).length : Nat) : Int),
        stack := stk, ctx := ctx', outs := outs' } := by
  have hflen32 : final.list.length < 2 ^ 32 := by omega
  simp only [itemOk, Bool.and_eq_true, beq_iff_eq, Bool.or_eq_true] at hok
  obtain ⟨⟨hty, halgo⟩, hkey⟩ := hok
  have halgosc : isScalar (jsOr (ctxGet m.args "algorithm") (vStr "bubble")) = true := by
    rcases halgo with ha | ha <;> rw [ha] <;> rfl
  -- executor dissection
  simp only [execStep] at hexec
  cases happly : applyModel m ctx with
  | error e =>
      rw [happly] at hexec
      exact absurd hexec (by simp [Except.map])
  | ok cx =>
      rw [happly] at hexec
      simp only [Except.map] at hexec
      have hp := Except.ok.inj hexec
      rw [Prod.ext_iff] at hp
      obtain ⟨hcx, houts⟩ := hp
      simp only [] at hcx houts
      subst hcx
      subst houts
      simp only [applyModel, hty, if_true] at happly
      cases hlist : inferListFromContext ctx with
      | none =>
          rw [hlist] at happly
          exact absurd happly (by simp)
      | some list =>
          rw [hlist] at happly
          have happly2 : (if jsOr (ctxGet m.args "algorithm") (vStr "bubble")
                = vStr "bubble" then
              Except.ok (ctxSet ctx "sorted"
                (vArr (bubbleSort list (jsOr (ctxGet m.args "key") (vStr "")))))
            else if jsOr (ctxGet m.args "algorithm") (vStr "bubble") = vStr "native" then
              Except.ok (ctxSet ctx "sorted"
                (vArr (nativeSort list (jsOr (ctxGet m.args "key") (vStr "")))))
            else Except.error ("Unknown sort algorithm: "
              ++ toDisplayString (jsOr (ctxGet m.args "algorithm") (vStr "bubble"))))
              = Except.ok cx := happly
          clear happly
          -- VM algo constant
          have hga := good_getId hgood halgosc
          by_cases hk : (jsOr (ctxGet m.args "key") (vStr "")).truthy = true
          · -- truthy key: the key itself is pooled
            have hfr : (compileStep (p, []) (Item.model m)).2
                = [opSORT]
                  ++ u32Bytes (p.getId (jsOr (ctxGet m.args "algorithm") (vStr "bubble"))).1
                  ++ u32Bytes ((p.getId (jsOr (ctxGet m.args "algorithm")
                      (vStr "bubble"))).2.getId (jsOr (ctxGet m.args "key") (vStr ""))).1 := by
              simp only [compileStep, hty, if_true, hk, List.nil_append]
            have hpool : (compileStep (p, []) (Item.model m)).1
                = ((p.getId (jsOr (ctxGet m.args "algorithm")
                    (vStr "bubble"))).2.getId (jsOr (ctxGet m.args "key") (vStr ""))).2 := by
              simp only [compileStep, hty, if_true, hk]
            rw [hpool] at hle
            obtain ⟨hna, hvala⟩ :=
              getId_resolve_final hgood.1 hgood.2 halgosc
                (PoolLE_trans (getId_poolLE _ _) hle) hflen32
            obtain ⟨hnk, hvalk⟩ :=
              getId_resolve_final hga.1.1 hga.1.2 hkey hle hflen32
            have hkidlt : ((p.getId (jsOr (ctxGet m.args "algorithm")
                (vStr "bubble"))).2.getId (jsOr (ctxGet m.args "key") (vStr ""))).1
                  < 4294967295 := by
              have h1 := getId_lt hga.1.1 (jsOr (ctxGet m.args "key") (vStr ""))
              have h2 := PoolLE_len hle
              omega
            have hkidne : ¬ ((p.getId (jsOr (ctxGet m.args "algorithm")
                (vStr "bubble"))).2.getId (jsOr (ctxGet m.args "key") (vStr ""))).1
                  = 0xFFFFFFFF := by omega
            rw [hfr] at hfull ⊢
            have hsort := sim_instr_sort (poolConsts final) hna hnk
              (show full = c ++ ([opSORT]
                  ++ u32Bytes (p.getId (jsOr (ctxGet m.args "algorithm") (vStr "bubble"))).1
                  ++ u32Bytes ((p.getId (jsOr (ctxGet m.args "algorithm")
                      (vStr "bubble"))).2.getId (jsOr (ctxGet m.args "key") (vStr ""))).1)
                  ++ post
                from by rw [hfull]) hlist stk outs
            rw [hvala, hvalk, if_neg hkidne] at hsort
            rcases halgo with hb | hn
            · rw [hb] at hsort
              rw [if_pos hb] at happly2
              rw [if_neg (by decide : ¬ (vStr "bubble" : Value) = vStr "native")] at hsort
              have hcx := Except.ok.inj happly2
              rw [hcx] at hsort
              exact vmsteps_end_ip
                (by simp only [List.length_append, List.length_cons, List.length_nil,
                      u32Bytes_length]
                    push_cast
                    ring)
                hsort
            · rw [hn] at hsort
              rw [hn, if_neg (by decide : ¬ (vStr "native" : Value) = vStr "bubble"),
                if_pos rfl] at happly2
              rw [if_pos rfl] at hsort
              have hcx := Except.ok.inj happly2
              rw [hcx] at hsort
              exact vmsteps_end_ip
                (by simp only [List.length_append, List.length_cons, List.length_nil,
                      u32Bytes_length]
                    push_cast
                    ring)
                hsort
          · -- falsy key: the sentinel is emitted and the VM sorts with `undefined`
            simp only [Bool.not_eq_true] at hk
            have hfr : (compileStep (p, []) (Item.model m)).2
                = [opSORT]
                  ++ u32Bytes (p.getId (jsOr (ctxGet m.args "algorithm") (vStr "bubble"))).1
                  ++ u32Bytes 0xFFFFFFFF := by
              simp only [compileStep, hty, if_true, hk, Bool.false_eq_true, if_false,
                List.nil_append]
            have hpool : (compileStep (p, []) (Item.model m)).1
                = (p.getId (jsOr (ctxGet m.args "algorithm") (vStr "bubble"))).2 := by
              simp only [compileStep, hty, if_true, hk, Bool.false_eq_true, if_false]
            rw [hpool] at hle
            obtain ⟨hna, hvala⟩ :=
              getId_resolve_final hgood.1 hgood.2 halgosc hle hflen32
            rw [hfr] at hfull ⊢
            have hsort := sim_instr_sort (poolConsts final) hna
              (by norm_num : (0xFFFFFFFF : Nat) < 2 ^ 32)
              (show full = c ++ ([opSORT]
                  ++ u32Bytes (p.getId (jsOr (ctxGet m.args "algorithm") (vStr "bubble"))).1
                  ++ u32Bytes 0xFFFFFFFF)
                  ++ post
                from by rw [hfull]) hlist stk outs
            rw [hvala, if_pos rfl] at hsort
            have hgetv : ∀ x, getv (jsOr (ctxGet m.args "key") (vStr "")) x = getv vUndef x := by
              intro x
              rw [getv_falsy hk, getv_falsy (show vUndef.truthy = false from rfl)]
            rcases halgo with hb | hn
            · rw [hb] at hsort
              rw [if_pos hb] at happly2
              rw [if_neg (by decide : ¬ (vStr "bubble" : Value) = vStr "native")] at hsort
              rw [← bubbleSort_congr hgetv list] at hsort
              have hcx := Except.ok.inj happly2
              rw [hcx] at hsort
              exact vmsteps_end_ip
                (by simp only [List.length_append, List.length_cons, List.length_nil,
                      u32Bytes_length]
                    push_cast
                    ring)
                hsort
            · rw [hn] at hsort
              rw [hn, if_neg (by decide : ¬ (vStr "native" : Value) = vStr "bubble"),
                if_pos rfl] at happly2
              rw [if_pos rfl] at hsort
              rw [← nativeSort_congr hgetv list] at hsort
              have hcx := Except.ok.inj happly2
              rw [hcx] at hsort
              exact vmsteps_end_ip
                (by simp only [List.length_append, List.length_cons, List.length_nil,
                      u32Bytes_length]
                    push_cast
                    ring)
                hsort


/-- A compiled conditional action performs the executor's conditional
`runAction` on the VM: the condition value drives the patched forward
jump over the action body. -/
theorem simStep_action {final : ConstPool} (hflen : final.list.length < 4294967295)
    (a : ActionStmt) (p : ConstPool) (hgood : GoodPool p)
    (hok : itemOk (Item.action a) = true)
    (hle : PoolLE (compileStep (p, []) (Item.action a)).1 final)
    (full c post : List Nat)
    (hfull : full = c ++ (compileStep (p, []) (Item.action a)).2 ++ post)
    (ctx outs ctx' outs' : Ctx)
    (hexec : execStep (ctx, outs) (Item.action a) = Except.ok (ctx', outs'))
    (stk : List Value) :
    VMSteps (poolConsts final) full
      { ip := (c.length : Int), stack := stk, ctx := ctx, outs := outs }
      { ip := (((c ++ (compileStep (p, []) (Item.action a)).2).length : Nat) : Int),
        stack := stk, ctx := ctx', outs := outs' } := by
  have hflen32 : final.list.length < 2 ^ 32 := by omega
  simp only [itemOk, Bool.and_eq_true, Bool.or_eq_true, Bool.not_eq_true'] at hok
  obtain ⟨hc, hset⟩ := hok
  have hc' : a.condition.op.isSome = true →
      isScalar (a.condition.right.getD vUndef) = true := by
    intro hi
    rcases hc with h0 | h0
    · rw [hi] at h0
      exact absurd h0 (by decide)
    · exact h0
  -- fragment characterization
  have hL : compileStep (p, []) (Item.action a)
      = ((compileAction a (compileCond a.condition p []).1
            ((compileCond a.condition p []).2 ++ [opJUMP_IF_FALSE] ++ i32Bytes 0)).1,
         setI32At (compileAction a (compileCond a.condition p []).1
             ((compileCond a.condition p []).2 ++ [opJUMP_IF_FALSE] ++ i32Bytes 0)).2
           ((compileCond a.condition p []).2 ++ [opJUMP_IF_FALSE]).length
           (((compileAction a (compileCond a.condition p []).1
               ((compileCond a.condition p []).2 ++ [opJUMP_IF_FALSE]
                 ++ i32Bytes 0)).2.length : Int)
             - ((((compileCond a.condition p []).2
                 ++ [opJUMP_IF_FALSE]).length : Int) + 4))) := rfl
  have hfr : (compileStep (p, []) (Item.action a)).2
      = (compileCond a.condition p []).2 ++ [opJUMP_IF_FALSE]
        ++ i32Bytes ((compileAction a (compileCond a.condition p []).1 []).2.length : Int)
        ++ (compileAction a (compileCond a.condition p []).1 []).2 := by
    rw [hL]
    simp only []
    rw [compileAction_frag a (compileCond a.condition p []).1
      ((compileCond a.condition p []).2 ++ [opJUMP_IF_FALSE] ++ i32Bytes 0)]
    simp only []
    rw [show ((((compileCond a.condition p []).2 ++ [opJUMP_IF_FALSE] ++ i32Bytes 0
          ++ (compileAction a (compileCond a.condition p []).1 []).2).length : Nat) : Int)
          - (((((compileCond a.condition p []).2
              ++ [opJUMP_IF_FALSE]).length : Nat) : Int) + 4)
        = ((compileAction a (compileCond a.condition p []).1 []).2.length : Int) from by
      simp only [List.length_append, List.length_cons, List.length_nil, i32Bytes_length]
      push_cast
      ring]
    exact setI32At_patch _ _ 0 _
  have hpool : (compileStep (p, []) (Item.action a)).1
      = (compileAction a (compileCond a.condition p []).1 []).1 := by
    rw [hL]
    simp only []
    rw [compileAction_frag a (compileCond a.condition p []).1
      ((compileCond a.condition p []).2 ++ [opJUMP_IF_FALSE] ++ i32Bytes 0)]
  rw [hpool] at hle
  have hgc := pool_compileCond a.condition p [] hc' hgood
  have hleC : PoolLE (compileCond a.condition p []).1 final :=
    PoolLE_trans (pool_compileAction a (compileCond a.condition p []).1 [] hset hgc.1).2 hle
  rw [hfr] at hfull ⊢
  simp only [execStep] at hexec
  obtain ⟨v, hv, hcondsteps⟩ := simCond hflen32 a.condition p hgood hc' hleC full c
    (([opJUMP_IF_FALSE]
      ++ i32Bytes ((compileAction a (compileCond a.condition p []).1 []).2.length : Int)
      ++ (compileAction a (compileCond a.condition p []).1 []).2) ++ post)
    (by rw [hfull]; simp [List.append_assoc]) stk ctx outs
  have hjif := sim_instr_jif (poolConsts final)
    (Int.ofNat_nonneg _)
    (by have := compileAction_len_le a (compileCond a.condition p []).1
        omega)
    (show full = (c ++ (compileCond a.condition p []).2)
        ++ ([opJUMP_IF_FALSE]
          ++ i32Bytes ((compileAction a (compileCond a.condition p []).1 []).2.length : Int))
        ++ ((compileAction a (compileCond a.condition p []).1 []).2 ++ post)
      from by rw [hfull]; simp [List.append_assoc])
    v stk ctx outs
  by_cases hev : evalCondition a.condition ctx = true
  · rw [if_pos hev] at hexec
    have hp := Except.ok.inj hexec
    rw [Prod.ext_iff] at hp
    obtain ⟨h1, h2⟩ := hp
    rw [hv, hev, if_pos rfl] at hjif
    have hact := simAction hflen32 a (compileCond a.condition p []).1 hgc.1 hset hle full
      (c ++ (compileCond a.condition p []).2 ++ [opJUMP_IF_FALSE]
        ++ i32Bytes ((compileAction a (compileCond a.condition p []).1 []).2.length : Int))
      post
      (by rw [hfull]; simp [List.append_assoc]) stk ctx outs
    rw [h1, h2] at hact
    have hact' := vmsteps_shift
      (show ((((c ++ (compileCond a.condition p []).2).length : Nat) : Int) + 5)
          = (((c ++ (compileCond a.condition p []).2 ++ [opJUMP_IF_FALSE]
            ++ i32Bytes ((compileAction a
              (compileCond a.condition p []).1 []).2.length : Int)).length : Nat) : Int)
        from by
          simp only [List.length_append, List.length_cons, List.length_nil,
            i32Bytes_length]
          push_cast
          ring) hact
    refine vmsteps_trans hcondsteps (vmsteps_trans hjif (vmsteps_end_ip ?_ hact'))
    simp only [List.length_append, List.length_cons, List.length_nil, i32Bytes_length]
    push_cast
    ring
  · rw [if_neg hev] at hexec
    have hp := Except.ok.inj hexec
    rw [Prod.ext_iff] at hp
    obtain ⟨h1, h2⟩ := hp
    simp only [] at h1 h2
    subst h1
    subst h2
    have hevf : evalCondition a.condition ctx = false := by
      rw [← Bool.not_eq_true]
      exact hev
    rw [hv, hevf] at hjif
    rw [if_neg (by simp)] at hjif
    refine vmsteps_trans hcondsteps (vmsteps_end_ip ?_ hjif)
    simp only [List.length_append, List.length_cons, List.length_nil, i32Bytes_length]
    push_cast
    ring


/-- One compiled statement simulates one executor statement, given the
amended claim's per-statement conditions and, for `%out`, agreement of
the two preferred-value formulas in the current context. -/
theorem simStep {final : ConstPool} (hflen : final.list.length < 4294967295)
    (it : Item) (p : ConstPool) (hgood : GoodPool p)
    (hok : itemOk it = true)
    (hle : PoolLE (compileStep (p, []) it).1 final)
    (full c post : List Nat)
    (hfull : full = c ++ (compileStep (p, []) it).2 ++ post)
    (ctx outs ctx' outs' : Ctx)
    (hexec : execStep (ctx, outs) it = Except.ok (ctx', outs'))
    (hout : ∀ name, it = Item.out name →
      coalesce (ctxGet ctx name) (coalesce (ctxGet ctx "sorted") (ctxGet ctx "input"))
        = selectPreferredValue ctx)
    (stk : List Value) :
    VMSteps (poolConsts final) full
      { ip := (c.length : Int), stack := stk, ctx := ctx, outs := outs }
      { ip := (((c ++ (compileStep (p, []) it).2).length : Nat) : Int),
        stack := stk, ctx := ctx', outs := outs' } := by
  have hflen32 : final.list.length < 2 ^ 32 := by omega
  cases it with
  | model m =>
      exact simStep_model hflen m p hgood hok hle full c post hfull ctx outs ctx' outs'
        hexec stk
  | action a =>
      exact simStep_action hflen a p hgood hok hle full c post hfull ctx outs ctx' outs'
        hexec stk
  | input v =>
      simp only [execStep] at hexec
      have hp := Except.ok.inj hexec
      rw [Prod.ext_iff] at hp
      obtain ⟨h1, h2⟩ := hp
      simp only [] at h1 h2
      subst h1
      subst h2
      have heq : (VMState.mk (((c ++ (compileStep (p, []) (Item.input v)).2).length
            : Nat) : Int) stk ctx outs)
          = VMState.mk (c.length : Int) stk ctx outs := by
        have : (compileStep (p, []) (Item.input v)).2 = ([] : List Nat) := rfl
        rw [this]
        simp
      rw [heq]
      exact Relation.ReflTransGen.refl
  | node n =>
      simp only [execStep] at hexec
      have hp := Except.ok.inj hexec
      rw [Prod.ext_iff] at hp
      obtain ⟨h1, h2⟩ := hp
      simp only [] at h1 h2
      subst h1
      subst h2
      have heq : (VMState.mk (((c ++ (compileStep (p, []) (Item.node n)).2).length
            : Nat) : Int) stk ctx outs)
          = VMState.mk (c.length : Int) stk ctx outs := by
        have : (compileStep (p, []) (Item.node n)).2 = ([] : List Nat) := rfl
        rw [this]
        simp
      rw [heq]
      exact Relation.ReflTransGen.refl
  | edge e =>
      simp only [execStep] at hexec
      have hp := Except.ok.inj hexec
      rw [Prod.ext_iff] at hp
      obtain ⟨h1, h2⟩ := hp
      simp only [] at h1 h2
      subst h1
      subst h2
      have heq : (VMState.mk (((c ++ (compileStep (p, []) (Item.edge e)).2).length
            : Nat) : Int) stk ctx outs)
          = VMState.mk (c.length : Int) stk ctx outs := by
        have : (compileStep (p, []) (Item.edge e)).2 = ([] : List Nat) := rfl
        rw [this]
        simp
      rw [heq]
      exact Relation.ReflTransGen.refl
  | cond cc =>
      simp only [execStep] at hexec
      have hp := Except.ok.inj hexec
      rw [Prod.ext_iff] at hp
      obtain ⟨h1, h2⟩ := hp
      simp only [] at h1 h2
      subst h1
      subst h2
      have heq : (VMState.mk (((c ++ (compileStep (p, []) (Item.cond cc)).2).length
            : Nat) : Int) stk ctx outs)
          = VMState.mk (c.length : Int) stk ctx outs := by
        have : (compileStep (p, []) (Item.cond cc)).2 = ([] : List Nat) := rfl
        rw [this]
        simp
      rw [heq]
      exact Relation.ReflTransGen.refl
  | out name =>
      have hfr : (compileStep (p, []) (Item.out name)).2
          = [opEMIT_PREFERRED] ++ u32Bytes (p.getId (vStr name)).1 := by
        simp only [compileStep, List.nil_append]
      have hpool : (compileStep (p, []) (Item.out name)).1 = (p.getId (vStr name)).2 := by
        simp only [compileStep]
      rw [hpool] at hle
      obtain ⟨hn, hval⟩ :=
        getId_resolve_final hgood.1 hgood.2 (v := vStr name) rfl hle hflen32
      simp only [execStep] at hexec
      have hp := Except.ok.inj hexec
      rw [Prod.ext_iff] at hp
      obtain ⟨h1, h2⟩ := hp
      simp only [] at h1 h2
      subst h1
      rw [hfr] at hfull ⊢
      have hemit := sim_instr_emit_preferred hn hval hfull stk ctx outs
      rw [hout name rfl] at hemit
      rw [h2] at hemit
      exact vmsteps_end_ip
        (by simp only [List.length_append, List.length_cons, List.length_nil,
              u32Bytes_length]
            push_cast
            ring)
        hemit
  | letS s =>
      have hfr : (compileStep (p, []) (Item.letS s)).2
          = (compileExpr s.expr p []).2 ++ [opSET_CTX]
            ++ u32Bytes ((compileExpr s.expr p []).1.getId (vStr s.name)).1 := rfl
      have hpool : (compileStep (p, []) (Item.letS s)).1
          = ((compileExpr s.expr p []).1.getId (vStr s.name)).2 := rfl
      rw [hpool] at hle
      have hge := pool_compileExpr s.expr p [] hgood
      have hleE : PoolLE (compileExpr s.expr p []).1 final :=
        PoolLE_trans (getId_poolLE _ _) hle
      obtain ⟨hn, hval⟩ :=
        getId_resolve_final hge.1.1 hge.1.2 (v := vStr s.name) rfl hle hflen32
      simp only [execStep] at hexec
      have hp := Except.ok.inj hexec
      rw [Prod.ext_iff] at hp
      obtain ⟨h1, h2⟩ := hp
      simp only [] at h1 h2
      subst h2
      rw [hfr] at hfull ⊢
      have hexpr := simExpr hflen32 s.expr p hgood hleE full c
        (([opSET_CTX] ++ u32Bytes ((compileExpr s.expr p []).1.getId (vStr s.name)).1)
          ++ post)
        (by rw [hfull]; simp [List.append_assoc]) stk ctx outs
      have hsetc := sim_instr_set_ctx hn hval
        (show full = (c ++ (compileExpr s.expr p []).2)
            ++ ([opSET_CTX] ++ u32Bytes ((compileExpr s.expr p []).1.getId (vStr s.name)).1)
            ++ post
          from by rw [hfull]; simp [List.append_assoc])
        (evalExpression s.expr ctx) stk ctx outs
      rw [h1] at hsetc
      refine vmsteps_trans hexpr (vmsteps_end_ip ?_ hsetc)
      simp only [List.length_append, List.length_cons, List.length_nil, u32Bytes_length]
      push_cast
      ring


/-- The compiler fold is position independent. -/
theorem foldl_frag : ∀ (items : List Item) (p : ConstPool) (c : List Nat),
    items.foldl compileStep (p, c)
      = ((items.foldl compileStep (p, [])).1,
         c ++ (items.foldl compileStep (p, [])).2) := by
  intro items
  induction items with
  | nil => intro p c; simp
  | cons it rest ih =>
      intro p c
      simp only [List.foldl_cons]
      rw [compileStep_frag it p c]
      rw [ih (compileStep (p, []) it).1 (c ++ (compileStep (p, []) it).2)]
      rw [show compileStep (p, []) it
          = ((compileStep (p, []) it).1, (compileStep (p, []) it).2) from rfl]
      rw [ih (compileStep (p, []) it).1 (compileStep (p, []) it).2]
      simp [List.append_assoc]

/-- The compiled statement list simulates the executor's statement loop. -/
theorem simItems {final : ConstPool} (hflen : final.list.length < 4294967295) :
    ∀ (items : List Item) (p : ConstPool), GoodPool p →
      (∀ it ∈ items, itemOk it = true) →
      PoolLE (items.foldl compileStep (p, [])).1 final →
      ∀ (full c post : List Nat),
      full = c ++ (items.foldl compileStep (p, [])).2 ++ post →
      ∀ (ctx outs ctx' outs' : Ctx),
      execSteps (ctx, outs) items = Except.ok (ctx', outs') →
      (∀ (i : Nat) (name : String), items[i]? = some (Item.out name) →
        ∀ st : Ctx × Ctx, execSteps (ctx, outs) (items.take i) = Except.ok st →
          coalesce (ctxGet st.1 name)
              (coalesce (ctxGet st.1 "sorted") (ctxGet st.1 "input"))
            = selectPreferredValue st.1) →
      ∀ (stk : List Value),
      VMSteps (poolConsts final) full
        { ip := (c.length : Int), stack := stk, ctx := ctx, outs := outs }
        { ip := (((c ++ (items.foldl compileStep (p, [])).2).length : Nat) : Int),
          stack := stk, ctx := ctx', outs := outs' } := by
  intro items
  induction items with
  | nil =>
      intro p hgood hok hle full c post hfull ctx outs ctx' outs' hexec hout stk
      have hp := Except.ok.inj hexec
      rw [Prod.ext_iff] at hp
      obtain ⟨h1, h2⟩ := hp
      simp only [] at h1 h2
      subst h1
      subst h2
      have heq : (VMState.mk
            (((c ++ (([] : List Item).foldl compileStep (p, [])).2).length : Nat) : Int)
            stk ctx outs)
          = VMState.mk (c.length : Int) stk ctx outs := by
        have : (([] : List Item).foldl compileStep (p, [])).2 = ([] : List Nat) := rfl
        rw [this]
        simp
      rw [heq]
      exact Relation.ReflTransGen.refl
  | cons it rest ih =>
      intro p hgood hok hle full c post hfull ctx outs ctx' outs' hexec hout stk
      have hfold : (it :: rest).foldl compileStep (p, [])
          = ((rest.foldl compileStep ((compileStep (p, []) it).1, [])).1,
             (compileStep (p, []) it).2
               ++ (rest.foldl compileStep ((compileStep (p, []) it).1, [])).2) := by
        simp only [List.foldl_cons]
        rw [show compileStep (p, []) it
            = ((compileStep (p, []) it).1, (compileStep (p, []) it).2) from rfl]
        rw [foldl_frag rest (compileStep (p, []) it).1 (compileStep (p, []) it).2]
      rw [execSteps_cons] at hexec
      cases hstep : execStep (ctx, outs) it with
      | error e =>
          rw [hstep] at hexec
          exact absurd hexec (by simp)
      | ok st1 =>
          rw [hstep] at hexec
          simp only [] at hexec
          obtain ⟨ctx1, outs1⟩ := st1
          have hokit : itemOk it = true := hok it (List.mem_cons_self _ _)
          have hgood1 := (pool_compileStep (p, []) it hokit hgood).1
          have hlerest : PoolLE (rest.foldl compileStep ((compileStep (p, []) it).1, [])).1
              final := by
            rw [hfold] at hle
            exact hle
          have hleit : PoolLE (compileStep (p, []) it).1 final :=
            PoolLE_trans
              (pool_foldl rest ((compileStep (p, []) it).1, [])
                (fun x hx => hok x (List.mem_cons_of_mem _ hx)) hgood1).2
              hlerest
          rw [hfold] at hfull ⊢
          have hstep1 := simStep hflen it p hgood hokit hleit full c
            ((rest.foldl compileStep ((compileStep (p, []) it).1, [])).2 ++ post)
            (by rw [hfull]; simp [List.append_assoc])
            ctx outs ctx1 outs1 hstep
            (fun name hname => by
              have h0 := hout 0 name (by rw [hname]; simp) (ctx, outs) rfl
              exact h0)
            stk
          have hrest := ih (compileStep (p, []) it).1 hgood1
            (fun x hx => hok x (List.mem_cons_of_mem _ hx)) hlerest full
            (c ++ (compileStep (p, []) it).2) post
            (by rw [hfull]; simp [List.append_assoc])
            ctx1 outs1 ctx' outs' hexec
            (fun i name hname st hst => by
              refine hout (i + 1) name (by simpa using hname) st ?_
              rw [show (it :: rest).take (i + 1) = it :: rest.take i from rfl]
              rw [execSteps_cons, hstep]
              exact hst)
            stk
          refine vmsteps_trans hstep1 (vmsteps_end_ip ?_ hrest)
          simp only [List.length_append]
          push_cast
          ring


/-- C1 as amended: the executor and the compiled bytecode produce the
same result (hence identical, value-equal Outputs) on every tool-free
program, once the demonstrated divergences are excluded by hypothesis —
an input value is present (absent input makes `%out` emit `null` on one
path and `undefined` on the other); every model statement is a `sort`
with a known algorithm name (`bubble`/`native`; the executor rejects
others while the VM silently remaps them, and non-`sort` models execute
on one path only) and a scalar key; comparison conditions carry scalar
right-hand literals and `set` actions store scalars (matching what the
parser can produce); the constant pool stays below the `u32` key
sentinel; and at each `%out` statement the VM's `EMIT_PREFERRED` rule
`ctx[name] ?? sorted ?? input` agrees with the executor's
`sorted ?? input ?? null` in the context reached there (shadowed output
names are the remaining counterexample, kept in `c1_counterexample`).
Truthy sort keys, `%out sorted`, `let`, actions and every other
statement form are fully covered. -/
theorem c1_amended (ast : TaskAST) (r : ExecutionResult)
    (hin : ast.input.isSome = true)
    (hitems : ∀ it ∈ ast.sourceOrder, itemOk it = true)
    (hpool : (compileSteps ast.sourceOrder).1.list.length < 4294967295)
    (hout : ∀ (i : Nat) (name : String),
      ast.sourceOrder[i]? = some (Item.out name) →
      ∀ st : Ctx × Ctx,
        execSteps (seedCtx [] (ast.input.getD vUndef), ([] : Ctx)) (ast.sourceOrder.take i)
          = Except.ok st →
        coalesce (ctxGet st.1 name)
            (coalesce (ctxGet st.1 "sorted") (ctxGet st.1 "input"))
          = selectPreferredValue st.1)
    (hexec : execute ast = Except.ok r) :
    runBytecode (compileToBytecode ast) ast.input = Except.ok r := by
  obtain ⟨v, hv⟩ := Option.isSome_iff_exists.mp hin
  simp only [execute] at hexec
  cases hsteps : execSteps (seedCtx [] (ast.input.getD vUndef), ([] : Ctx))
      ast.sourceOrder with
  | error e =>
      rw [hsteps] at hexec
      exact absurd hexec (by simp [Except.map])
  | ok st =>
      obtain ⟨cxF, outsF⟩ := st
      rw [hsteps] at hexec
      simp only [Except.map] at hexec
      have hr := Except.ok.inj hexec
      subst hr
      have hgood0 : GoodPool ({} : ConstPool) :=
        ⟨WFPool_empty, fun w hw => absurd hw (List.not_mem_nil w)⟩
      have hsim := simItems hpool ast.sourceOrder {} hgood0 hitems
        (PoolLE_refl _) (compileSteps ast.sourceOrder).2 [] []
        (by simp [compileSteps])
        (seedCtx [] (ast.input.getD vUndef)) [] cxF outsF hsteps hout []
      rw [hv]
      have hrun : runBytecode (compileToBytecode ast) (some v)
          = vmRun (poolConsts (compileSteps ast.sourceOrder).1)
              (compileSteps ast.sourceOrder).2
              ((compileSteps ast.sourceOrder).2.length + 1)
              { ip := 0, stack := [], ctx := seedCtx [] v, outs := [] } := rfl
      rw [hrun]
      rw [hv] at hsim
      refine vmRun_of_VMSteps hsim ?_ _ ?_
      · simp only [List.nil_append]
        rfl
      · show ((compileSteps ast.sourceOrder).2.length : Int)
            - (0 : Int) < (((compileSteps ast.sourceOrder).2.length + 1 : Nat) : Int)
        push_cast
        omega




/-- C1 amended, witnessed end to end: a key-driven bubble sort of an
object list through `%out sorted` plus a guarded `set` action produces
the same successful result on the executor and on the compiled module. -/
theorem c1_amended_witness :
    execute c1WitnessAst = Except.ok c1WitnessRes ∧
    runBytecode (compileToBytecode c1WitnessAst) c1WitnessAst.input
      = Except.ok c1WitnessRes := by
  have hexec : execute c1WitnessAst = Except.ok c1WitnessRes := by decide
  refine ⟨hexec, ?_⟩
  refine c1_amended c1WitnessAst c1WitnessRes (by decide) (by decide) (by decide)
    ?_ hexec
  intro i name hi st hst
  have hilt : i < 4 := by
    by_contra hge
    rw [List.getElem?_eq_none (by
      show c1WitnessAst.sourceOrder.length ≤ i
      have h4 : c1WitnessAst.sourceOrder.length = 4 := rfl
      omega)] at hi
    exact Option.noConfusion hi
  interval_cases i
  · exact Item.noConfusion (Option.some.inj hi)
  · exact Item.noConfusion (Option.some.inj hi)
  · have h2 := Option.some.inj hi
    injection h2 with hname
    subst hname
    have hval : execSteps (seedCtx [] (c1WitnessAst.input.getD vUndef), ([] : Ctx))
        (c1WitnessAst.sourceOrder.take 2)
        = Except.ok
            ([("input",
               vObj [("list", vArr [vObj [("k", vNum 2)], vObj [("k", vNum 1)]])]),
              ("list", vArr [vObj [("k", vNum 2)], vObj [("k", vNum 1)]]),
              ("sorted", vArr [vObj [("k", vNum 1)], vObj [("k", vNum 2)]])],
             ([] : Ctx)) := by decide
    rw [hval] at hst
    have hst2 := Except.ok.inj hst
    subst hst2
    decide
  · exact Item.noConfusion (Option.some.inj hi)

end AILang
